import Mathlib

/-!
The igin request-security middleware: extractor chain, guarded handlers, CSRF, CORS

A shallow embedding of `middleware/extractor.go`, `middleware/key_auth_next.go`,
`middleware/jwt/jwt_next.go`, `middleware/csrf_next.go` and `middleware/cors_next.go`.

Modelling conventions.
* A Go `string` is a Lean `String` read as one character per byte; `len`, `s[:n]` and
  `s[n:]` act on that character list, which is exact for ASCII text.
* A Go `error` is a value of the inductive type `Error`; the package-level sentinel errors
  are constructors of their own, so that `==` on errors is equality of constructors.
* The request is the abstraction the handlers read through gin and net/http: method,
  header map, parsed cookies, query values, post-form values, form values.
* A handler is a function from the request context to the ordered list of `Effect`s it
  performs on the gin context (`c.Next()`, `c.Header`, `c.Set`, the configured
  `ErrorHandler`, ...). Caller-supplied predicates (Skipper, Validator, ParseTokenFunc,
  AllowOriginFunc) are functions of their arguments.
-/

namespace Igin

/-! ## Go standard library helpers -/

/-- Pieces of a character list cut at every occurrence of `sep`. -/
def splitChars (sep : Char) : List Char → List (List Char)
  | [] => [[]]
  | c :: cs =>
    if c = sep then [] :: splitChars sep cs
    else
      match splitChars sep cs with
      | [] => [[c]]
      | p :: ps => (c :: p) :: ps

/-- Go `strings.Split(s, sep)` for a one-byte separator. -/
def stringsSplit (s : String) (sep : Char) : List String :=
  (splitChars sep s.data).map String.mk

/-- Go `len(s)`. -/
def len (s : String) : Nat := s.data.length

/-- Go `s[:n]`. -/
def sliceTo (s : String) (n : Nat) : String := ⟨s.data.take n⟩

/-- Go `s[n:]`. -/
def sliceFrom (s : String) (n : Nat) : String := ⟨s.data.drop n⟩

/-- ASCII lower-casing of one byte. -/
def foldChar (c : Char) : Char :=
  if 'A'.toNat ≤ c.toNat ∧ c.toNat ≤ 'Z'.toNat then Char.ofNat (c.toNat + 32) else c

/-- Go `strings.EqualFold`, on ASCII letters. -/
def EqualFold (s t : String) : Bool :=
  s.data.map foldChar == t.data.map foldChar

/-- Go `strings.HasSuffix(s, " ")`. -/
def hasSuffixSpace (s : String) : Bool :=
  match s.data.reverse with
  | c :: _ => c == ' '
  | [] => false

/-- Go `strings.Join(elems, sep)`. -/
def stringsJoin : List String → String → String
  | [], _ => ""
  | [a], _ => a
  | a :: b :: rest, sep => a ++ sep ++ stringsJoin (b :: rest) sep

/-- Token bytes of a header field name (`validHeaderFieldByte` in net/textproto). -/
def validHeaderFieldByte (c : Char) : Bool :=
  c.isAlphanum || "!#$%&*+-.^_|~".data.contains c || c == Char.ofNat 39 || c == Char.ofNat 96

/-- Upper-case an ASCII lower-case letter. -/
def upperChar (c : Char) : Char :=
  if 'a'.toNat ≤ c.toNat ∧ c.toNat ≤ 'z'.toNat then Char.ofNat (c.toNat - 32) else c

/-- The canonicalising pass of `canonicalMIMEHeaderKey`: the first letter and every letter
after a hyphen upper-cased, the others lower-cased. -/
def canonicalLoop : Bool → List Char → List Char
  | _, [] => []
  | upper, c :: cs =>
    (if upper then upperChar c else foldChar c) :: canonicalLoop (c == '-') cs

/-- Go `textproto.CanonicalMIMEHeaderKey`: a key holding a byte that is not a token byte is
returned unchanged. -/
def CanonicalMIMEHeaderKey (s : String) : String :=
  if s.data.all validHeaderFieldByte then ⟨canonicalLoop true s.data⟩ else s

/-! ## Errors -/

/-- Go `error` values that reach the middleware. The first six constructors are the
sentinel errors of `extractor.go`; `New` is `errors.New` / `fmt.Errorf`; `HTTPError` is
`*xerror.HTTPError`; `KeyAuthMissing` is `*ErrKeyAuthMissing` with its wrapped error, `KeyAuthMissingNil` the
same with a nil wrapped error; `CodeMsg` is `*xerror.CodeMsg`. -/
inductive Error where
  | ErrHeaderExtractorValueMissing
  | ErrHeaderExtractorValueInvalid
  | ErrQueryExtractorValueMissing
  | ErrParamExtractorValueMissing
  | ErrCookieExtractorValueMissing
  | ErrFormExtractorValueMissing
  | New (text : String)
  | HTTPError (Code : Int) (Message : String)
  | KeyAuthMissing (Err : Error)
  | KeyAuthMissingNil
  | CodeMsg (Code : Int) (Msg : String)
  deriving DecidableEq, Repr

deriving instance DecidableEq for Except

/-- The `Error()` method. -/
def Error.text : Error → String
  | .ErrHeaderExtractorValueMissing => "missing value in request header"
  | .ErrHeaderExtractorValueInvalid => "invalid value in request header"
  | .ErrQueryExtractorValueMissing => "missing value in the query string"
  | .ErrParamExtractorValueMissing => "missing value in path params"
  | .ErrCookieExtractorValueMissing => "missing value in cookies"
  | .ErrFormExtractorValueMissing => "missing value in the form"
  | .New t => t
  | .HTTPError code message => "code=" ++ toString code ++ ", message=" ++ message
  | .KeyAuthMissing e => e.text
  | .KeyAuthMissingNil => ""
  | .CodeMsg code msg => "code: " ++ toString code ++ ", msg: " ++ msg

/-- Go `http.StatusText` for the status codes the middleware uses. -/
def StatusText (code : Int) : String :=
  if code = 400 then "Bad Request"
  else if code = 401 then "Unauthorized"
  else if code = 403 then "Forbidden"
  else if code = 500 then "Internal Server Error"
  else ""

/-- `xerror.NewHTTPError(code, message...)`. -/
def NewHTTPError (code : Int) (message : List String) : Error :=
  match message with
  | [] => .HTTPError code (StatusText code)
  | m :: _ => .HTTPError code m

/-! ## Request and context -/

/-- A Go `map[string][]string` (http.Header, url.Values) as an association list. -/
abbrev Values := List (String × List String)

/-- Map indexing `m[key]`: the values under `key`, `nil` when absent. -/
def Values.at (m : Values) (key : String) : List String :=
  (m.lookup key).getD []

/-- Values stored in the gin context and returned by token parsers (Go `any`). -/
inductive Value where
  | nil
  | str (s : String)
  | bool (b : Bool)
  | obj (id : Nat)
  deriving DecidableEq, Repr

/-- The parts of `*http.Request` the middleware reads. `Header` is keyed by canonical
header names; `Cookies` is the result of `Request.Cookies()`; `Query`, `PostForm` and
`Form` are the parsed value maps behind `c.QueryArray`, `c.PostFormArray` and
`c.Request.Form`. -/
structure Request where
  Method : String
  Header : Values
  Cookies : List (String × String)
  Query : Values
  PostForm : Values
  Form : Values

/-- The parts of `*gin.Context` the middleware reads: the request, the `Keys` map, and
`Params`, the path parameters the router bound for the matched route. -/
structure Context where
  Request : Request
  Keys : List (String × Value)
  Params : List (String × String) := []

/-- `http.Header.Values(key)`. -/
def Request.HeaderValues (r : Request) (key : String) : List String :=
  r.Header.at (CanonicalMIMEHeaderKey key)

/-- `http.Header.Get(key)`: the first value, or the empty string. -/
def Request.HeaderGet (r : Request) (key : String) : String :=
  (r.HeaderValues key).headD ""

/-- `c.QueryArray(key)`. -/
def Context.QueryArray (c : Context) (key : String) : List String :=
  c.Request.Query.at key

/-- `c.PostFormArray(key)`. -/
def Context.PostFormArray (c : Context) (key : String) : List String :=
  c.Request.PostForm.at key

/-- `c.Get(key)`. -/
def Context.Get (c : Context) (key : String) : Option Value :=
  c.Keys.lookup key

/-- The values bound to `key` among the path parameters `c.Params`, in order. -/
def Context.ParamValues (c : Context) (key : String) : List String :=
  (c.Params.filter (fun p => p.1 = key)).map (fun p => p.2)

/-! ## middleware/extractor.go -/

def extractorLimit : Nat := 20

def ExtractorMethodQuery : String := "query"
def ExtractorMethodParam : String := "param"
def ExtractorMethodCookie : String := "cookie"
def ExtractorMethodForm : String := "form"
def ExtractorMethodHeader : String := "header"

/-- Modelled from the spec: the header-name constants of package igin are not among the
sources; section 6 and 4.1 give the names (`Authorization` is the canonical
authorization header). -/
def HeaderAuthorization : String := "Authorization"

/-- A values extractor: candidate strings, or an error. -/
abbrev ValuesExtractor := Context → Except Error (List String)

/-- The loop of `valuesFromHeader` from index `i` on, `result` holding what was kept. -/
def headerLoop (valuePrefix : String) : Nat → List String → List String → List String
  | _, [], result => result
  | i, value :: rest, result =>
    if len valuePrefix = 0 then
      if i ≥ extractorLimit - 1 then result ++ [value]
      else headerLoop valuePrefix (i + 1) rest (result ++ [value])
    else if len value > len valuePrefix ∧ EqualFold (sliceTo value (len valuePrefix)) valuePrefix then
      if i ≥ extractorLimit - 1 then result ++ [sliceFrom value (len valuePrefix)]
      else headerLoop valuePrefix (i + 1) rest (result ++ [sliceFrom value (len valuePrefix)])
    else headerLoop valuePrefix (i + 1) rest result

def valuesFromHeader (header : String) (valuePrefix : String) : ValuesExtractor :=
  fun c =>
    let values := c.Request.HeaderValues (CanonicalMIMEHeaderKey header)
    if values.length = 0 then .error .ErrHeaderExtractorValueMissing
    else
      let result := headerLoop valuePrefix 0 values []
      if result.length = 0 then
        if len valuePrefix > 0 then .error .ErrHeaderExtractorValueInvalid
        else .error .ErrHeaderExtractorValueMissing
      else .ok result

def valuesFromQuery (param : String) : ValuesExtractor :=
  fun c =>
    let result := c.QueryArray param
    if result.length = 0 then .error .ErrQueryExtractorValueMissing
    else if result.length > extractorLimit - 1 then .ok (result.take extractorLimit)
    else .ok result

def valuesFromParam (param : String) : ValuesExtractor :=
  fun c =>
    let result := c.PostFormArray param
    if result.length = 0 then .error .ErrParamExtractorValueMissing
    else if result.length > extractorLimit - 1 then .ok (result.take extractorLimit)
    else .ok result

/-- The loop of `valuesFromCookie` from index `i` on. -/
def cookieLoop (name : String) : Nat → List (String × String) → List String → List String
  | _, [], result => result
  | i, cookie :: rest, result =>
    if name = cookie.1 then
      if i ≥ extractorLimit - 1 then result ++ [cookie.2]
      else cookieLoop name (i + 1) rest (result ++ [cookie.2])
    else cookieLoop name (i + 1) rest result

def valuesFromCookie (name : String) : ValuesExtractor :=
  fun c =>
    let cookies := c.Request.Cookies
    if cookies.length = 0 then .error .ErrCookieExtractorValueMissing
    else
      let result := cookieLoop name 0 cookies []
      if result.length = 0 then .error .ErrCookieExtractorValueMissing
      else .ok result

def valuesFromForm (name : String) : ValuesExtractor :=
  fun c =>
    let values := c.Request.Form.at name
    if values.length = 0 then .error .ErrFormExtractorValueMissing
    else if values.length > extractorLimit - 1 then .ok (values.take extractorLimit)
    else .ok values

/-- The prefix `CreateExtractors` hands to `valuesFromHeader` for a header entry. -/
def headerPrefix (parts : List String) (authScheme : String) : String :=
  if parts.length > 2 then parts.getD 2 ""
  else if authScheme ≠ "" ∧ parts.getD 1 "" = HeaderAuthorization then
    if hasSuffixSpace authScheme then authScheme else authScheme ++ " "
  else ""

/-- The body of the `for` loop of `CreateExtractors`, over the remaining sources. -/
def createLoop (authScheme : String) :
    List String → List ValuesExtractor → Except Error (List ValuesExtractor)
  | [], extractors => .ok extractors
  | source :: rest, extractors =>
    let parts := stringsSplit source ':'
    if parts.length < 2 then
      .error (.New ("extractor source for lookup could not be split into needed parts: " ++ source))
    else
      let name := parts.getD 1 ""
      let kind := parts.getD 0 ""
      if kind = ExtractorMethodQuery then
        createLoop authScheme rest (extractors ++ [valuesFromQuery name])
      else if kind = ExtractorMethodParam then
        createLoop authScheme rest (extractors ++ [valuesFromParam name])
      else if kind = ExtractorMethodCookie then
        createLoop authScheme rest (extractors ++ [valuesFromCookie name])
      else if kind = ExtractorMethodForm then
        createLoop authScheme rest (extractors ++ [valuesFromForm name])
      else if kind = ExtractorMethodHeader then
        createLoop authScheme rest (extractors ++ [valuesFromHeader name (headerPrefix parts authScheme)])
      else createLoop authScheme rest extractors

def CreateExtractors (lookups : String) (authScheme : String) :
    Except Error (List ValuesExtractor) :=
  if lookups = "" then .ok []
  else createLoop authScheme (stringsSplit lookups ',') []

/-- The extractor that the loop of `CreateExtractors` appends for an entry whose source
kind is one of the five known ones. -/
def extractorFor (authScheme : String) (source : String) : ValuesExtractor :=
  let parts := stringsSplit source ':'
  if parts.getD 0 "" = ExtractorMethodQuery then valuesFromQuery (parts.getD 1 "")
  else if parts.getD 0 "" = ExtractorMethodParam then valuesFromParam (parts.getD 1 "")
  else if parts.getD 0 "" = ExtractorMethodCookie then valuesFromCookie (parts.getD 1 "")
  else if parts.getD 0 "" = ExtractorMethodForm then valuesFromForm (parts.getD 1 "")
  else valuesFromHeader (parts.getD 1 "") (headerPrefix parts authScheme)

/-! ## Handler effects -/

/-- The `http.Cookie` fields the CSRF middleware fills in. `Expires` is in seconds. -/
structure Cookie where
  Name : String
  Value : String
  Path : String
  Domain : String
  SameSite : Int
  Expires : Int
  Secure : Bool
  HttpOnly : Bool
  deriving DecidableEq, Repr

/-- What a handler does to the gin context, in program order. `ErrorHandler` and
`SuccessHandler` are calls of the configured callbacks. -/
inductive Effect where
  | Next
  | AbortWithStatus (code : Int)
  | Header (key value : String)
  | Set (key : String) (value : Value)
  | SetCookie (cookie : Cookie)
  | ErrorHandler (err : Error) (statusCodes : List Int)
  | SuccessHandler
  deriving DecidableEq, Repr

/-- A `gin.HandlerFunc`, as the effects of one run. -/
abbrev HandlerFunc := Context → List Effect

/-- Type of `middleware.Skipper`. -/
abbrev Skipper := Context → Bool

def DefaultSkipper : Skipper := fun _ => false

/-! ## middleware/key_auth_next.go -/

/-- Type of `KeyAuthValidator`: the pair `(valid, err)`. -/
abbrev KeyAuthValidator := String → Context → Bool × Option Error

structure KeyAuthConfig where
  Skipper : Option Skipper
  KeyLookup : String
  AuthScheme : String
  Validator : Option KeyAuthValidator

/-- The inner `for _, key := range keys` loop: `true` when a key was accepted, together
with `lastValidatorErr`. -/
def keyAuthKeys (Validator : KeyAuthValidator) (c : Context) :
    List String → Option Error → Bool × Option Error
  | [], lastValidatorErr => (false, lastValidatorErr)
  | key :: keys, lastValidatorErr =>
    match Validator key c with
    | (_, some err) => keyAuthKeys Validator c keys (some err)
    | (true, none) => (true, lastValidatorErr)
    | (false, none) => keyAuthKeys Validator c keys (some (.New "invalid key"))

/-- The outer `for _, extractor := range extractors` loop: `none` when a key was accepted
(the handler called `c.Next()` and returned), otherwise `lastExtractorErr` and
`lastValidatorErr` after the loop. -/
def keyAuthExtractors (Validator : KeyAuthValidator) (c : Context) :
    List ValuesExtractor → Option Error → Option Error → Option (Option Error × Option Error)
  | [], lastExtractorErr, lastValidatorErr => some (lastExtractorErr, lastValidatorErr)
  | extractor :: rest, lastExtractorErr, lastValidatorErr =>
    match extractor c with
    | .error err => keyAuthExtractors Validator c rest (some err) lastValidatorErr
    | .ok keys =>
      match keyAuthKeys Validator c keys lastValidatorErr with
      | (true, _) => none
      | (false, lastValidatorErr) =>
        keyAuthExtractors Validator c rest lastExtractorErr lastValidatorErr

/-- The error wrapped in `ErrKeyAuthMissing` when no validator error was recorded. -/
def keyAuthMissingErr (lastExtractorErr : Option Error) : Error :=
  if lastExtractorErr = some .ErrQueryExtractorValueMissing then
    .KeyAuthMissing (.New "missing key in the query string")
  else if lastExtractorErr = some .ErrCookieExtractorValueMissing then
    .KeyAuthMissing (.New "missing key in cookies")
  else if lastExtractorErr = some .ErrFormExtractorValueMissing then
    .KeyAuthMissing (.New "missing key in the form")
  else if lastExtractorErr = some .ErrHeaderExtractorValueMissing then
    .KeyAuthMissing (.New "missing key in request header")
  else if lastExtractorErr = some .ErrHeaderExtractorValueInvalid then
    .KeyAuthMissing (.New "invalid key in the request header")
  else
    match lastExtractorErr with
    | some e => .KeyAuthMissing e
    | none => .KeyAuthMissingNil

/-- The handler returned by `KeyAuthNextWithConfig`. -/
def keyAuthHandler (skipper : Skipper) (Validator : KeyAuthValidator)
    (extractors : List ValuesExtractor) : HandlerFunc :=
  fun c =>
    if skipper c then [.Next]
    else
      match keyAuthExtractors Validator c extractors none none with
      | none => [.Next]
      | some (lastExtractorErr, lastValidatorErr) =>
        match lastValidatorErr with
        | some verr => [.ErrorHandler verr []]
        | none => [.ErrorHandler (keyAuthMissingErr lastExtractorErr) []]

/-- `KeyAuthNextWithConfig`; an `error` result is the value the function panics with. -/
def KeyAuthNextWithConfig (config : KeyAuthConfig) : Except Error HandlerFunc :=
  let skipper := config.Skipper.getD DefaultSkipper
  let authScheme := if config.AuthScheme = "" then "Bearer" else config.AuthScheme
  let keyLookup :=
    if config.KeyLookup = "" then ExtractorMethodHeader ++ ":" ++ HeaderAuthorization
    else config.KeyLookup
  match config.Validator with
  | none => .error (.New "IGin: key-auth middleware requires a validator function")
  | some validator =>
    match CreateExtractors keyLookup authScheme with
    | .error cErr => .error cErr
    | .ok extractors => .ok (keyAuthHandler skipper validator extractors)

/-! ## middleware/jwt/jwt_next.go -/

/-- Type of `JWTConfig.ParseTokenFunc`: the parsed token, or an error. -/
abbrev ParseTokenFunc := String → Context → Except Error Value

/-- The fields of `JWTConfig` that `NextWithConfig` reads. `SuccessHandler` records whether
a success handler is configured; `HasKeyFunc` whether a `KeyFunc` is. -/
structure JWTConfig where
  Skipper : Option Skipper
  SuccessHandler : Bool
  ContextKey : String
  TokenLookup : String
  AuthScheme : String
  SigningKey : Option Value
  SigningKeys : List (String × Value)
  HasKeyFunc : Bool
  ParseTokenFunc : Option ParseTokenFunc

def ErrJWTMissing : Error := NewHTTPError 400 ["missing or malformed jwt"]
def ErrJWTInvalid : Error := NewHTTPError 401 ["invalid or expired jwt"]

/-- The `Code` field of an `*xerror.HTTPError`. -/
def Error.Code : Error → Int
  | .HTTPError code _ => code
  | _ => 0

/-- The inner `for _, auth := range auths` loop: the token of the first candidate that
parses, or `lastTokenErr`. -/
def jwtAuths (parse : ParseTokenFunc) (c : Context) :
    List String → Option Error → Value ⊕ Option Error
  | [], lastTokenErr => .inr lastTokenErr
  | auth :: auths, _ =>
    match parse auth c with
    | .error err => jwtAuths parse c auths (some err)
    | .ok token => .inl token

/-- The outer `for _, extractor := range extractors` loop: the accepted token, or
`lastExtractorErr` and `lastTokenErr` after the loop. -/
def jwtExtractors (parse : ParseTokenFunc) (c : Context) :
    List ValuesExtractor → Option Error → Option Error → Value ⊕ (Option Error × Option Error)
  | [], lastExtractorErr, lastTokenErr => .inr (lastExtractorErr, lastTokenErr)
  | extractor :: rest, lastExtractorErr, lastTokenErr =>
    match extractor c with
    | .error _ => jwtExtractors parse c rest (some ErrJWTMissing) lastTokenErr
    | .ok auths =>
      match jwtAuths parse c auths lastTokenErr with
      | .inl token => .inl token
      | .inr lastTokenErr => jwtExtractors parse c rest lastExtractorErr lastTokenErr

/-- The handler returned by `jwt.NextWithConfig`. -/
def jwtHandler (skipper : Skipper) (successHandler : Bool) (contextKey : String)
    (parse : ParseTokenFunc) (extractors : List ValuesExtractor) : HandlerFunc :=
  fun c =>
    if skipper c then [.Next]
    else
      match jwtExtractors parse c extractors none none with
      | .inl token =>
        [.Set contextKey token] ++ (if successHandler then [.SuccessHandler] else []) ++ [.Next]
      | .inr (lastExtractorErr, lastTokenErr) =>
        if lastExtractorErr ≠ none then [.ErrorHandler ErrJWTMissing [ErrJWTMissing.Code]]
        else if lastTokenErr ≠ none then [.ErrorHandler ErrJWTInvalid [ErrJWTInvalid.Code]]
        else []

/-- `jwt.NextWithConfig`; an `error` result is the value the function panics with.
`defaultParseToken` stands for `config.defaultParseToken`, which calls the
golang-jwt library. -/
def NextWithConfig (defaultParseToken : ParseTokenFunc) (config : JWTConfig) :
    Except Error HandlerFunc :=
  let skipper := config.Skipper.getD DefaultSkipper
  if config.SigningKey = none ∧ config.SigningKeys.length = 0 ∧ config.HasKeyFunc = false
      ∧ config.ParseTokenFunc.isNone then
    .error (.New "IGin: jwt middleware requires signing key")
  else
    let contextKey := if config.ContextKey = "" then "user" else config.ContextKey
    let tokenLookup :=
      if config.TokenLookup = "" then ExtractorMethodHeader ++ ":" ++ HeaderAuthorization
      else config.TokenLookup
    let authScheme := if config.AuthScheme = "" then "Bearer" else config.AuthScheme
    let parse := config.ParseTokenFunc.getD defaultParseToken
    match CreateExtractors tokenLookup authScheme with
    | .error cErr => .error cErr
    | .ok extractors =>
      .ok (jwtHandler skipper config.SuccessHandler contextKey parse extractors)

/-! ## middleware/csrf_next.go -/

/-- Modelled from the spec: header-name constants of package igin, not among the sources
(section 6 lists the exact names). -/
def HeaderXCSRFToken : String := "X-CSRF-Token"
/-- Modelled from the spec: header-name constant of package igin (section 6). -/
def HeaderVary : String := "Vary"
/-- Modelled from the spec: header-name constant of package igin. -/
def HeaderCookie : String := "Cookie"

def ishex (c : Char) : Bool :=
  ('0'.toNat ≤ c.toNat ∧ c.toNat ≤ '9'.toNat) ∨ ('a'.toNat ≤ c.toNat ∧ c.toNat ≤ 'f'.toNat)
    ∨ ('A'.toNat ≤ c.toNat ∧ c.toNat ≤ 'F'.toNat)

def unhex (c : Char) : Nat :=
  if '0'.toNat ≤ c.toNat ∧ c.toNat ≤ '9'.toNat then c.toNat - '0'.toNat
  else if 'a'.toNat ≤ c.toNat ∧ c.toNat ≤ 'f'.toNat then c.toNat - 'a'.toNat + 10
  else if 'A'.toNat ≤ c.toNat ∧ c.toNat ≤ 'F'.toNat then c.toNat - 'A'.toNat + 10
  else 0

/-- First pass of `url.QueryUnescape`: every `%` is followed by two hex digits. -/
def unescapeValid : List Char → Bool
  | [] => true
  | c :: rest =>
    if c = '%' then
      match rest with
      | a :: b :: rest2 => ishex a && ishex b && unescapeValid rest2
      | _ => false
    else unescapeValid rest

/-- Second pass of `url.QueryUnescape`. -/
def unescapeChars : List Char → List Char
  | [] => []
  | c :: rest =>
    if c = '%' then
      match rest with
      | a :: b :: rest2 => Char.ofNat (unhex a * 16 + unhex b) :: unescapeChars rest2
      | _ => []
    else if c = '+' then ' ' :: unescapeChars rest
    else c :: unescapeChars rest

/-- Go `url.QueryUnescape`, with the error dropped as gin does: the empty string on a
malformed escape. -/
def QueryUnescape (s : String) : String :=
  if unescapeValid s.data then ⟨unescapeChars s.data⟩ else ""

/-- Go `http.ErrNoCookie`. -/
def ErrNoCookie : Error := .New "http: named cookie not present"

/-- The gin accessor `c.Cookie(name)`: the unescaped value of the first request cookie of
that name, or `http.ErrNoCookie`. -/
def Context.Cookie (c : Context) (name : String) : Except Error String :=
  if name = "" then .error ErrNoCookie
  else
    match c.Request.Cookies.find? (fun ck => ck.1 = name) with
    | none => .error ErrNoCookie
    | some ck => .ok (QueryUnescape ck.2)

/-- What the CSRF handler takes from outside the request: `xstring.RandomN`, whose source
is not among the sources, and the clock `time.Now()` in seconds. -/
structure World where
  RandomN : Int → String
  Now : Int

def SameSiteDefaultMode : Int := 1
def SameSiteNoneMode : Int := 4

structure CSRFConfig where
  Skipper : Option Skipper
  TokenLength : Int
  TokenLookup : String
  ContextKey : String
  CookieName : String
  CookieDomain : String
  CookiePath : String
  CookieMaxAge : Int
  CookieSecure : Bool
  CookieHTTPOnly : Bool
  CookieSameSite : Int

def CSRFContextKey : String := "csrf"

def ErrCSRFInvalid : Error := NewHTTPError 403 ["invalid csrf token"]

/-- `subtle.ConstantTimeCompare(token, clientToken) == 1`. -/
def validateCSRFToken (token clientToken : String) : Bool :=
  decide (token = clientToken)

/-- The four methods the handler does not validate. -/
def csrfSafeMethod (method : String) : Bool :=
  method = "GET" ∨ method = "HEAD" ∨ method = "OPTIONS" ∨ method = "TRACE"

/-- The inner `for _, clientToken := range clientTokens` loop: `true` when a candidate
matched (`break outer`), together with `lastTokenErr`. -/
def csrfTokens (token : String) : List String → Option Error → Bool × Option Error
  | [], lastTokenErr => (false, lastTokenErr)
  | clientToken :: rest, _ =>
    if validateCSRFToken token clientToken then (true, none)
    else csrfTokens token rest (some ErrCSRFInvalid)

/-- The `outer` loop: `lastExtractorErr` and `lastTokenErr` when it ends. -/
def csrfExtractors (token : String) (c : Context) :
    List ValuesExtractor → Option Error → Option Error → Option Error × Option Error
  | [], lastExtractorErr, lastTokenErr => (lastExtractorErr, lastTokenErr)
  | extractor :: rest, lastExtractorErr, lastTokenErr =>
    match extractor c with
    | .error err => csrfExtractors token c rest (some err) lastTokenErr
    | .ok clientTokens =>
      match csrfTokens token clientTokens lastTokenErr with
      | (true, _) => (none, none)
      | (false, lastTokenErr) => csrfExtractors token c rest lastExtractorErr lastTokenErr

/-- The value of `finalErr` computed from the two recorded errors. -/
def csrfFinalErr (lastExtractorErr lastTokenErr : Option Error) : Option Error :=
  match lastTokenErr with
  | some e => some e
  | none =>
    match lastExtractorErr with
    | none => none
    | some e =>
      if e = .ErrQueryExtractorValueMissing then
        some (NewHTTPError 400 ["missing csrf token in the query string"])
      else if e = .ErrFormExtractorValueMissing then
        some (NewHTTPError 400 ["missing csrf token in the form parameter"])
      else if e = .ErrHeaderExtractorValueMissing then
        some (NewHTTPError 400 ["missing csrf token in request header"])
      else some (NewHTTPError 400 [e.text])

/-- The cookie the handler sets for `token`. -/
def csrfCookie (w : World) (config : CSRFConfig) (token : String) : Cookie :=
  { Name := config.CookieName
    Value := token
    Path := if config.CookiePath ≠ "" then config.CookiePath else ""
    Domain := if config.CookieDomain ≠ "" then config.CookieDomain else ""
    SameSite := if config.CookieSameSite ≠ SameSiteDefaultMode then config.CookieSameSite else 0
    Expires := w.Now + config.CookieMaxAge
    Secure := config.CookieSecure
    HttpOnly := config.CookieHTTPOnly }

/-- The server-held token of a request: the value of the CSRF cookie, or a fresh random
token when the cookie cannot be read. -/
def csrfToken (w : World) (config : CSRFConfig) (c : Context) : String :=
  match c.Cookie config.CookieName with
  | .error _ => w.RandomN config.TokenLength
  | .ok k => k

/-- The handler returned by `CSRFNextWithConfig`, for a config whose defaults are filled
in. -/
def csrfHandler (w : World) (skipper : Skipper) (config : CSRFConfig)
    (extractors : List ValuesExtractor) : HandlerFunc :=
  fun c =>
    if skipper c then [.Next]
    else
      let token := csrfToken w config c
      let finalErr :=
        if csrfSafeMethod c.Request.Method then none
        else
          let errs := csrfExtractors token c extractors none none
          csrfFinalErr errs.1 errs.2
      match finalErr with
      | some err => [.ErrorHandler err []]
      | none =>
        [.SetCookie (csrfCookie w config token), .Set config.ContextKey (.str token),
          .Header HeaderVary HeaderCookie, .Next]

/-- The defaults `CSRFNextWithConfig` fills in. -/
def csrfDefaults (config : CSRFConfig) : CSRFConfig :=
  { config with
    TokenLength := if config.TokenLength = 0 then 32 else config.TokenLength
    TokenLookup :=
      if config.TokenLookup = "" then ExtractorMethodForm ++ ":" ++ HeaderXCSRFToken
      else config.TokenLookup
    ContextKey := if config.ContextKey = "" then CSRFContextKey else config.ContextKey
    CookieName := if config.CookieName = "" then "_" ++ CSRFContextKey else config.CookieName
    CookieMaxAge := if config.CookieMaxAge = 0 then 86400 else config.CookieMaxAge
    CookieSecure := if config.CookieSameSite = SameSiteNoneMode then true else config.CookieSecure }

/-- `CSRFNextWithConfig`; an `error` result is the value the function panics with. -/
def CSRFNextWithConfig (w : World) (config : CSRFConfig) : Except Error HandlerFunc :=
  let skipper := config.Skipper.getD DefaultSkipper
  let config := csrfDefaults config
  match CreateExtractors config.TokenLookup "" with
  | .error cErr => .error cErr
  | .ok extractors => .ok (csrfHandler w skipper config extractors)

/-! ## middleware/cors_next.go -/

def ContextKeyHeaderAllow : String := "gin_header_allow"

/-- Modelled from the spec: header-name constants of package igin, not among the sources;
section 6 lists the exact names of the CORS headers. -/
def HeaderOrigin : String := "Origin"
/-- Modelled from the spec: header-name constant of package igin (section 6). -/
def HeaderAllow : String := "Allow"
/-- Modelled from the spec: header-name constant of package igin (section 6). -/
def HeaderAccessControlAllowOrigin : String := "Access-Control-Allow-Origin"
/-- Modelled from the spec: header-name constant of package igin (section 6). -/
def HeaderAccessControlAllowCredentials : String := "Access-Control-Allow-Credentials"
/-- Modelled from the spec: header-name constant of package igin (section 6). -/
def HeaderAccessControlAllowMethods : String := "Access-Control-Allow-Methods"
/-- Modelled from the spec: header-name constant of package igin (section 6). -/
def HeaderAccessControlAllowHeaders : String := "Access-Control-Allow-Headers"
/-- Modelled from the spec: header-name constant of package igin (section 6). -/
def HeaderAccessControlExposeHeaders : String := "Access-Control-Expose-Headers"
/-- Modelled from the spec: header-name constant of package igin (section 6). -/
def HeaderAccessControlMaxAge : String := "Access-Control-Max-Age"
/-- Modelled from the spec: header-name constant of package igin (section 4.3). -/
def HeaderAccessControlRequestMethod : String := "Access-Control-Request-Method"
/-- Modelled from the spec: header-name constant of package igin (section 4.3). -/
def HeaderAccessControlRequestHeaders : String := "Access-Control-Request-Headers"

/-- Type of `CORSConfig.AllowOriginFunc`: the pair `(allowed, err)`. -/
abbrev AllowOriginFunc := String → Bool × Option Error

structure CORSConfig where
  Skipper : Option Skipper
  AllowOrigins : List String
  AllowOriginFunc : Option AllowOriginFunc
  AllowMethods : List String
  AllowHeaders : List String
  AllowCredentials : Bool
  UnsafeWildcardOriginWithAllowCredentials : Bool
  ExposeHeaders : List String
  MaxAge : Int

/-- The `AllowMethods` of `defaultCORSConfig`. -/
def defaultAllowMethods : List String :=
  ["GET", "HEAD", "POST", "PUT", "PATCH", "DELETE", "CONNECT", "OPTIONS", "TRACE"]

/-- Go `regexp.QuoteMeta` on a character list: a backslash before each of
the regular-expression metacharacters. -/
def quoteMetaChars : List Char → List Char
  | [] => []
  | c :: cs =>
    if "\\.+*?()|[]\x7b\x7d^$".data.contains c then '\\' :: c :: quoteMetaChars cs
    else c :: quoteMetaChars cs

/-- Go `strings.ReplaceAll(s, old, new)` for a two-byte `old` made of `a` then `b`. -/
def replaceAll2 (a b : Char) (new : List Char) : List Char → List Char
  | [] => []
  | [c] => [c]
  | c :: d :: rest =>
    if c = a ∧ d = b then new ++ replaceAll2 a b new rest
    else c :: replaceAll2 a b new (d :: rest)

/-- The pattern string built for one allowed origin. -/
def originPattern (origin : String) : String :=
  let pattern := quoteMetaChars origin.data
  let pattern := replaceAll2 '\\' '*' ".*".data pattern
  let pattern := replaceAll2 '\\' '?' ".".data pattern
  ⟨"^".data ++ pattern ++ "$".data⟩

/-- The pieces of the patterns that `originPattern` builds. -/
inductive ReAtom where
  | lit (c : Char)
  | any
  | anyStar
  deriving DecidableEq, Repr

/-- Parse of a pattern body: `\c` is the literal `c`, `.*` any run, `.` any one byte. -/
def reAtoms : List Char → List ReAtom
  | [] => []
  | [c] => if c = '.' then [.any] else [.lit c]
  | c :: d :: rest =>
    if c = '\\' then .lit d :: reAtoms rest
    else if c = '.' ∧ d = '*' then .anyStar :: reAtoms rest
    else if c = '.' then .any :: reAtoms (d :: rest)
    else .lit c :: reAtoms (d :: rest)

/-- Matching of `.*` followed by the continuation `k`; `.` does not match a newline. -/
def reStar (k : List Char → Bool) : List Char → Bool
  | [] => k []
  | c :: cs => k (c :: cs) || (c != '\n' && reStar k cs)

/-- Anchored match of a list of atoms against the whole text. -/
def reMatch : List ReAtom → List Char → Bool
  | [], s => s.isEmpty
  | .lit c :: atoms, s =>
    match s with
    | [] => false
    | x :: xs => x == c && reMatch atoms xs
  | .any :: atoms, s =>
    match s with
    | [] => false
    | x :: xs => x != '\n' && reMatch atoms xs
  | .anyStar :: atoms, s => reStar (reMatch atoms) s

/-- Go `regexp.MatchString(re, s)` for the patterns of `originPattern`, which start with
`^` and end with `$`; any other pattern counts as no match. -/
def regexpMatchString (re : String) (s : String) : Bool :=
  match re.data with
  | [] => false
  | c :: body =>
    if c = '^' ∧ body.getLast? = some '$' then reMatch (reAtoms body.dropLast) s.data
    else false

/-- Go `strings.Contains` on character lists. -/
def containsChars (sub : List Char) : List Char → Bool
  | [] => sub.isEmpty
  | c :: cs => sub.isPrefixOf (c :: cs) || containsChars sub cs

/-- Modelled from the spec: part of `MatchSubdomain`, the scheme of an origin: the text
before its first colon, when there is one. -/
def beforeColon : List Char → Option (List Char)
  | [] => none
  | c :: cs => if c = ':' then some [] else (beforeColon cs).map (c :: ·)

/-- Modelled from the spec: part of `MatchSubdomain`, the authority of an origin: the text
after its first `://`, when there is one. -/
def afterSchemeSep : List Char → Option (List Char)
  | [] => none
  | c :: cs => if "://".data.isPrefixOf (c :: cs) then some (cs.drop 2) else afterSchemeSep cs

/-- Modelled from the spec: part of `MatchSubdomain`, the label comparison of the subdomain
rule, on labels listed from the right. -/
def matchLabels : List String → List String → Bool
  | [], _ => false
  | _ :: _, [] => false
  | v :: dom, p :: pat => if p = "*" then true else if p ≠ v then false else matchLabels dom pat

/-- Modelled from the spec: `MatchSubdomain` is not among the sources. Section 4.3: the
subdomain rule grants when the origin's host matches a `*.<allowed-domain>` pattern. The
origin and the pattern must have the same scheme, the origin's authority is at most 253
bytes, and their dot-separated labels, compared from the right, agree up to a `*` label
of the pattern. -/
def MatchSubdomain (domain pattern : String) : Bool :=
  match beforeColon domain.data, beforeColon pattern.data with
  | some ds, some ps =>
    if ds ≠ ps then false
    else
      match afterSchemeSep domain.data, afterSchemeSep pattern.data with
      | some domAuth, some patAuth =>
        if domAuth.length > 253 then false
        else
          matchLabels ((splitChars '.' domAuth).map String.mk).reverse
            ((splitChars '.' patAuth).map String.mk).reverse
      | _, _ => false
  | _, _ => false

/-- The `for _, o := range config.AllowOrigins` loop: the value of `allowOrigin` when it
ends. -/
def corsScanOrigins (matchSubdomain : String → String → Bool) (config : CORSConfig)
    (origin : String) : List String → String
  | [] => ""
  | o :: rest =>
    if o = "*" ∧ config.AllowCredentials ∧ config.UnsafeWildcardOriginWithAllowCredentials then
      origin
    else if o = "*" ∨ o = origin then o
    else if matchSubdomain origin o then origin
    else corsScanOrigins matchSubdomain config origin rest

/-- The `for _, re := range allowOriginPatterns` loop. -/
def corsScanPatterns (origin : String) : List String → String
  | [] => ""
  | re :: rest => if regexpMatchString re origin then origin else corsScanPatterns origin rest

/-- The origin-approval block of the handler: the value of `allowOrigin`, or the error of
`AllowOriginFunc`. `allowOrigins` is the list after defaulting. -/
def corsAllowOrigin (matchSubdomain : String → String → Bool) (config : CORSConfig)
    (allowOrigins : List String) (origin : String) : Except Error String :=
  match config.AllowOriginFunc with
  | some f =>
    match f origin with
    | (_, some err) => .error err
    | (allowed, none) => .ok (if allowed then origin else "")
  | none =>
    let allowOrigin := corsScanOrigins matchSubdomain config origin allowOrigins
    let checkPatterns :=
      allowOrigin = "" ∧ len origin ≤ 253 + 3 + 5 ∧ containsChars "://".data origin.data
    if checkPatterns then .ok (corsScanPatterns origin (allowOrigins.map originPattern))
    else .ok allowOrigin

/-- The value of `routerAllowMethods` for a preflight request. -/
def corsRouterAllowMethods (c : Context) : String :=
  match c.Get ContextKeyHeaderAllow with
  | some (.str s) => s
  | _ => ""

/-- The handler returned by `CORSNextWithConfig`. `allowOrigins` and `allowMethodsList`
are the lists after defaulting. -/
def corsHandler (matchSubdomain : String → String → Bool) (skipper : Skipper)
    (config : CORSConfig) (allowOrigins : List String) (hasCustomAllowMethods : Bool)
    (allowMethodsList : List String) : HandlerFunc :=
  let allowMethods := stringsJoin allowMethodsList ","
  let allowHeaders := stringsJoin config.AllowHeaders ","
  let exposeHeaders := stringsJoin config.ExposeHeaders ","
  let maxAge := toString config.MaxAge
  fun c =>
    if skipper c then [.Next]
    else
      let origin := c.Request.HeaderGet HeaderOrigin
      let preflight : Bool := c.Request.Method = "OPTIONS"
      let routerAllowMethods := if preflight then corsRouterAllowMethods c else ""
      let start : List Effect :=
        [.Header HeaderVary HeaderOrigin] ++
          (if routerAllowMethods ≠ "" then [.Header HeaderAllow routerAllowMethods] else [])
      let noGrant : List Effect := if !preflight then [.Next] else [.AbortWithStatus 204]
      if origin = "" then start ++ noGrant
      else
        match corsAllowOrigin matchSubdomain config allowOrigins origin with
        | .error err => start ++ [.ErrorHandler err []]
        | .ok allowOrigin =>
          if allowOrigin = "" then start ++ noGrant
          else
            let grant : List Effect :=
              [.Header HeaderAccessControlAllowOrigin allowOrigin] ++
                (if config.AllowCredentials then
                  [.Header HeaderAccessControlAllowCredentials "true"] else [])
            if !preflight then
              start ++ grant ++
                (if exposeHeaders ≠ "" then
                  [.Header HeaderAccessControlExposeHeaders exposeHeaders] else []) ++
                [.Next]
            else
              start ++ grant ++
                [.Header HeaderVary HeaderAccessControlRequestMethod,
                  .Header HeaderVary HeaderAccessControlRequestHeaders] ++
                (if !hasCustomAllowMethods ∧ routerAllowMethods ≠ "" then
                  [.Header HeaderAccessControlAllowMethods routerAllowMethods]
                else [.Header HeaderAccessControlAllowMethods allowMethods]) ++
                (if allowHeaders ≠ "" then
                  [.Header HeaderAccessControlAllowHeaders allowHeaders]
                else if c.Request.HeaderGet HeaderAccessControlRequestHeaders ≠ "" then
                  [.Header HeaderAccessControlAllowHeaders
                    (c.Request.HeaderGet HeaderAccessControlRequestHeaders)]
                else []) ++
                (if config.MaxAge > 0 then [.Header HeaderAccessControlMaxAge maxAge] else []) ++
                [.AbortWithStatus 204]

/-- `CORSNextWithConfig`. `matchSubdomain` stands for the helper `MatchSubdomain`. -/
def CORSNextWithConfig (matchSubdomain : String → String → Bool) (config : CORSConfig) :
    HandlerFunc :=
  let skipper := config.Skipper.getD DefaultSkipper
  let allowOrigins := if config.AllowOrigins.length = 0 then ["*"] else config.AllowOrigins
  let hasCustomAllowMethods : Bool := config.AllowMethods.length ≠ 0
  let allowMethodsList :=
    if config.AllowMethods.length = 0 then defaultAllowMethods else config.AllowMethods
  corsHandler matchSubdomain skipper config allowOrigins hasCustomAllowMethods allowMethodsList

/-! ## response.go and middleware.go: the default error handler -/

/-- The fields of `JsonResponse` that `SetErr` touches (`Data` stays nil). -/
structure JsonResponse where
  Code : Int
  Message : String
  Error : Option Error
  deriving DecidableEq, Repr

def JsonResponse.WithStatusCode (j : JsonResponse) (code : Int) : JsonResponse :=
  { j with Code := code }

def JsonResponse.WithMessage (j : JsonResponse) (message : String) : JsonResponse :=
  { j with
    Message := message
    Error := match j.Error with
      | none => some (.New message)
      | some e => some e }

/-- `JsonResponse.SetErr`. `translate` is `Translator.ValidateError` when a validation
translator is registered (`UtTranslator != nil`), and `none` when none is. -/
def JsonResponse.SetErr (translate : Option (Igin.Error → Igin.Error)) (j : JsonResponse)
    (err : Igin.Error) : JsonResponse :=
  let j :=
    match j.Error with
    | some (.HTTPError code _) => j.WithStatusCode code
    | _ => j
  match translate with
  | some f =>
    let j := j.WithStatusCode 400
    let j := { j with Error := some (f err) }
    j.WithMessage (f err).text
  | none =>
    let j := { j with Error := some err }
    j.WithMessage err.text

/-- The gin call `c.Status(code)` on a response that is not written yet: the writer keeps
a code only when it is positive. -/
def ginStatus (status code : Int) : Int :=
  if code > 0 ∧ status ≠ code then code else status

/-- The gin function `bodyAllowedForStatus`. -/
def bodyAllowedForStatus (status : Int) : Bool :=
  if status ≥ 100 ∧ status ≤ 199 then false
  else if status = 204 then false
  else if status = 304 then false
  else true

/-- What `ContextIResponse` leaves of a response: the status of the writer
(`c.Writer.Status()`), the JSON body written (`none` when no body is written), whether
the chain was aborted, and the code on which `WriteHeader` of net/http panics, when it
does. -/
structure Answer where
  Status : Int
  Body : Option JsonResponse
  Aborted : Bool
  Panic : Option Int
  deriving DecidableEq, Repr

/-- `ContextIResponse(c, response)` without status rule functions, on a writer that is not
written yet and whose status is `status`. The call `c.Render(response.StatusCode(), ...)`
sets the status through `c.Status`, writes the JSON body only when
`bodyAllowedForStatus` holds for the code, and sends the header through `WriteHeader`
of net/http, which panics on a status outside 100..999; after it the chain is aborted
when `response.Abort()`, that is when the code is not 200. -/
def ContextIResponse (status : Int) (response : JsonResponse) : Answer :=
  let written := ginStatus status response.Code
  if written < 100 ∨ written > 999 then
    { Status := written, Body := none, Aborted := false, Panic := some written }
  else
    { Status := written
      Body := if bodyAllowedForStatus response.Code then some response else none
      Aborted := decide (response.Code ≠ 200)
      Panic := none }

/-- `igin.JsonError(ctx, err, codes...)`, on a writer whose status is `status`. -/
def JsonError (translate : Option (Error → Error)) (status : Int) (err : Error)
    (codes : List Int) : Answer :=
  let code : Int :=
    match codes with
    | [] => 500
    | c :: _ => c
  ContextIResponse status
    (JsonResponse.SetErr translate { Code := code, Message := "", Error := none } err)

/-- `middleware.DefaultErrorHandler`, on a writer whose status is `status`. -/
def DefaultErrorHandler (translate : Option (Error → Error)) (status : Int) (err : Error)
    (statusCodes : List Int) : Answer :=
  JsonError translate status err statusCodes

def defaultKeyAuthConfig : KeyAuthConfig :=
  { Skipper := some DefaultSkipper
    KeyLookup := ExtractorMethodHeader ++ ":" ++ HeaderAuthorization
    AuthScheme := "Bearer"
    Validator := none }

/-- `KeyAuthNext(fn)`. -/
def KeyAuthNext (fn : KeyAuthValidator) : Except Error HandlerFunc :=
  KeyAuthNextWithConfig { defaultKeyAuthConfig with Validator := some fn }

/-! ## Reading a run -/

/-- The run of a freshly built middleware on a request; `none` when building it panics. -/
def serve (built : Except Error HandlerFunc) (c : Context) : Option (List Effect) :=
  match built with
  | .ok h => some (h c)
  | .error _ => none

/-- The response header map after one `c.Header(key, value)`: gin deletes the key for an
empty value and otherwise replaces its values (`http.Header.Set`). -/
def setHeader (h : List (String × String)) (key value : String) : List (String × String) :=
  let k := CanonicalMIMEHeaderKey key
  let h := h.filter (fun kv => kv.1 ≠ k)
  if value = "" then h else h ++ [(k, value)]

/-- The response headers written through `c.Header` by a run, starting from `h`. -/
def responseHeaders : List Effect → List (String × String) → List (String × String)
  | [], h => h
  | .Header key value :: rest, h => responseHeaders rest (setHeader h key value)
  | _ :: rest, h => responseHeaders rest h

/-- The value of response header `key` after a run, when the run left one. -/
def headerOf (run : List Effect) (key : String) : Option String :=
  (responseHeaders run []).lookup (CanonicalMIMEHeaderKey key)

/-- The value the `c.Header` calls of a run leave for header `key`, `cur` being the value
before the run: the last call on that key decides, an empty value deleting the header. -/
def lastWrite (key : String) : List Effect → Option String → Option String
  | [], cur => cur
  | .Header k v :: rest, cur =>
    if CanonicalMIMEHeaderKey k = CanonicalMIMEHeaderKey key then
      lastWrite key rest (if v = "" then none else some v)
    else lastWrite key rest cur
  | _ :: rest, cur => lastWrite key rest cur

/-- The handler called the configured `ErrorHandler`. -/
def errorHandlerInvoked (run : List Effect) : Bool :=
  run.any (fun e => match e with | .ErrorHandler _ _ => true | _ => false)

/-- The handler called `c.Next()`. -/
def nextCalled (run : List Effect) : Bool := run.contains .Next

/-- How the default error handler answers the first `ErrorHandler` call of a run, the
writer still having the status 200 it starts with. -/
def defaultAnswer (translate : Option (Error → Error)) (run : List Effect) : Option Answer :=
  run.findSome? (fun e =>
    match e with
    | .ErrorHandler err codes => some (DefaultErrorHandler translate 200 err codes)
    | _ => none)

/-- The candidates a request offers a chain, in extractor order and then candidate order:
those of every extractor that succeeds. -/
def candidatesOf (c : Context) : List ValuesExtractor → List String
  | [] => []
  | e :: rest =>
    (match e c with
      | .ok auths => auths
      | .error _ => []) ++ candidatesOf c rest

/-- The token of the first candidate of a list that the parser accepts. -/
def firstParsed (parse : ParseTokenFunc) (c : Context) : List String → Option Value
  | [] => none
  | auth :: rest =>
    match parse auth c with
    | .ok token => some token
    | .error _ => firstParsed parse c rest

/-- The error the key loop records for key `k` is `verr`: the error the validator
returned, or `invalid key` when it rejected the key without an error. -/
def validatorErrFor (V : KeyAuthValidator) (c : Context) (k : String) (verr : Error) : Prop :=
  (∃ b, V k c = (b, some verr)) ∨ (V k c = (false, none) ∧ verr = .New "invalid key")

/-- A successful extraction returns at least one and at most `extractorLimit` values. -/
def withinLimit (e : ValuesExtractor) : Prop :=
  ∀ c vals, e c = .ok vals → 1 ≤ vals.length ∧ vals.length ≤ extractorLimit

/-- The response header name is one of the `Access-Control-*` family. -/
def isAccessControlHeader (key : String) : Bool :=
  "Access-Control-".data.isPrefixOf (CanonicalMIMEHeaderKey key).data

/-- Go `http.Header.Get(key)` on the response headers of a run: the value, or the empty
string when the header is not set. -/
def responseHeaderGet (run : List Effect) (key : String) : String :=
  (headerOf run key).getD ""

/-- The status the handler aborted the chain with, when it aborted. -/
def abortedWith (run : List Effect) : Option Int :=
  run.findSome? (fun e => match e with | .AbortWithStatus code => some code | _ => none)

/-! ## Concrete inputs -/

/-- A key validator that accepts the key `valid-key` only and never fails. -/
def onlyValidKey : KeyAuthValidator := fun key _ => (decide (key = "valid-key"), none)

/-- Key-auth with lookups header, then cookie, then query. -/
def keyAuthThreeSources : KeyAuthConfig :=
  { Skipper := none
    KeyLookup := "header:Authorization,cookie:key,query:key"
    AuthScheme := ""
    Validator := some onlyValidKey }

/-- A request that carries `valid-key` in the cookie `key` and nowhere else. -/
def keyInCookieOnly : Context :=
  { Request :=
      { Method := "GET", Header := [], Cookies := [("key", "valid-key")], Query := [],
        PostForm := [], Form := [] }
    Keys := [] }

/-- A token parser that rejects every candidate. -/
def rejectEveryToken : ParseTokenFunc := fun _ _ => .error (.New "invalid token")

/-- A JWT config whose lookup names the source `Header` (capital H), which is none of the
five source kinds. -/
def jwtUnknownSource : JWTConfig :=
  { Skipper := none
    SuccessHandler := false
    ContextKey := ""
    TokenLookup := "Header:Authorization"
    AuthScheme := ""
    SigningKey := some (.str "secret")
    SigningKeys := []
    HasKeyFunc := false
    ParseTokenFunc := some rejectEveryToken }

/-- A GET request with no header, cookie, query or form value. -/
def bareRequest : Context :=
  { Request :=
      { Method := "GET", Header := [], Cookies := [], Query := [], PostForm := [], Form := [] }
    Keys := [] }

/-- A world whose random token is `fresh-token`, at time 0. -/
def fixedWorld : World := { RandomN := fun _ => "fresh-token", Now := 0 }

/-- The CSRF config with every field at its zero value. -/
def csrfZeroConfig : CSRFConfig :=
  { Skipper := none, TokenLength := 0, TokenLookup := "", ContextKey := "", CookieName := "",
    CookieDomain := "", CookiePath := "", CookieMaxAge := 0, CookieSecure := false,
    CookieHTTPOnly := false, CookieSameSite := 0 }

/-- A POST request with CSRF cookie `abc` that submits `submitted` in the form field
`X-CSRF-Token`. -/
def csrfPost (submitted : List String) : Context :=
  { Request :=
      { Method := "POST", Header := [], Cookies := [("_csrf", "abc")], Query := [],
        PostForm := [], Form := [("X-CSRF-Token", submitted)] }
    Keys := [] }

/-- A CORS policy that allows the origins `https://*.example.com`, every other field at
its zero value. -/
def corsExampleSubdomains : CORSConfig :=
  { Skipper := none, AllowOrigins := ["https://*.example.com"], AllowOriginFunc := none,
    AllowMethods := [], AllowHeaders := [], AllowCredentials := false,
    UnsafeWildcardOriginWithAllowCredentials := false, ExposeHeaders := [], MaxAge := 0 }

/-- A CORS policy that allows every origin, without credentials. -/
def corsAnyOrigin : CORSConfig :=
  { Skipper := none, AllowOrigins := ["*"], AllowOriginFunc := none,
    AllowMethods := [], AllowHeaders := [], AllowCredentials := false,
    UnsafeWildcardOriginWithAllowCredentials := false, ExposeHeaders := [], MaxAge := 0 }

/-- A request with the given method and `Origin` header and nothing else. -/
def requestFrom (method origin : String) : Context :=
  { Request :=
      { Method := method, Header := [("Origin", [origin])], Cookies := [], Query := [],
        PostForm := [], Form := [] }
    Keys := [] }

/-- A request that carries 25 values for the query parameter, the cookie, the form field,
the post-form field and the header named `k`. -/
def twentyFiveValues : Context :=
  { Request :=
      { Method := "GET", Header := [("K", List.replicate 25 "v")],
        Cookies := List.replicate 25 ("k", "v"), Query := [("k", List.replicate 25 "v")],
        PostForm := [("k", List.replicate 25 "v")], Form := [("k", List.replicate 25 "v")] }
    Keys := [] }

/-- A request for a route such as `/users/:id` whose path parameter `id` is bound to `42`,
with no post-form value. -/
def pathParamOnly : Context :=
  { Request :=
      { Method := "GET", Header := [], Cookies := [], Query := [], PostForm := [], Form := [] }
    Keys := []
    Params := [("id", "42")] }

/-- A POST request with no path parameter whose body holds the form field `id=evil`. -/
def postFormOnly : Context :=
  { Request :=
      { Method := "POST", Header := [], Cookies := [], Query := [],
        PostForm := [("id", ["evil"])], Form := [("id", ["evil"])] }
    Keys := [] }

/-- A JWT config with lookups header, then query, whose parser rejects every token. -/
def jwtHeaderThenQuery : JWTConfig :=
  { Skipper := none
    SuccessHandler := false
    ContextKey := ""
    TokenLookup := "header:Authorization,query:token"
    AuthScheme := ""
    SigningKey := none
    SigningKeys := []
    HasKeyFunc := false
    ParseTokenFunc := some rejectEveryToken }

/-- A request with the given `Authorization` header and nothing else. -/
def requestWithAuthorization (value : String) : Context :=
  { Request :=
      { Method := "GET", Header := [("Authorization", [value])], Cookies := [], Query := [],
        PostForm := [], Form := [] }
    Keys := [] }

/-- A token parser that accepts the token `good` only, as the object 7. -/
def onlyGoodToken : ParseTokenFunc :=
  fun auth _ => if auth = "good" then .ok (.obj 7) else .error (.New "invalid token")

/-- A JWT config with lookups header, then query, a success handler, and the parser
`onlyGoodToken`. -/
def jwtWithSuccessHandler : JWTConfig :=
  { Skipper := none
    SuccessHandler := true
    ContextKey := ""
    TokenLookup := "header:Authorization,query:token"
    AuthScheme := ""
    SigningKey := none
    SigningKeys := []
    HasKeyFunc := false
    ParseTokenFunc := some onlyGoodToken }

/-- A request whose `Authorization` header holds a bad token and whose query parameter
`token` holds a bad token and then the good one. -/
def goodTokenInQuery : Context :=
  { Request :=
      { Method := "GET", Header := [("Authorization", ["Bearer bad"])], Cookies := [],
        Query := [("token", ["worse", "good"])], PostForm := [], Form := [] }
    Keys := [] }

/-- A request with the given method and no header at all. -/
def requestWithoutOrigin (method : String) : Context :=
  { Request :=
      { Method := method, Header := [], Cookies := [], Query := [], PostForm := [], Form := [] }
    Keys := [] }

/-- An origin-approval function that approves `https://good.example` only and fails on
`https://broken.example`. -/
def approveGoodOnly : AllowOriginFunc := fun origin =>
  if origin = "https://broken.example" then (false, some (.New "origin lookup failed"))
  else (decide (origin = "https://good.example"), none)

/-- A CORS policy whose origins are decided by `approveGoodOnly`; its `AllowOrigins` would
allow every origin. -/
def corsWithOriginFunc : CORSConfig :=
  { Skipper := none, AllowOrigins := ["*"], AllowOriginFunc := some approveGoodOnly,
    AllowMethods := [], AllowHeaders := [], AllowCredentials := false,
    UnsafeWildcardOriginWithAllowCredentials := false, ExposeHeaders := [], MaxAge := 0 }

/-- The wildcard policy with credentials and the unsafe-wildcard flag. -/
def corsUnsafeWildcard : CORSConfig :=
  { Skipper := none, AllowOrigins := ["*"], AllowOriginFunc := none,
    AllowMethods := [], AllowHeaders := [], AllowCredentials := true,
    UnsafeWildcardOriginWithAllowCredentials := true, ExposeHeaders := [], MaxAge := 0 }

/-- The wildcard policy with credentials but without the unsafe-wildcard flag. -/
def corsWildcardWithCredentials : CORSConfig :=
  { Skipper := none, AllowOrigins := ["*"], AllowOriginFunc := none,
    AllowMethods := [], AllowHeaders := [], AllowCredentials := true,
    UnsafeWildcardOriginWithAllowCredentials := false, ExposeHeaders := [], MaxAge := 0 }

/-- The wildcard policy with the configured methods GET and POST. -/
def corsGetPostOnly : CORSConfig :=
  { Skipper := none, AllowOrigins := ["*"], AllowOriginFunc := none,
    AllowMethods := ["GET", "POST"], AllowHeaders := [], AllowCredentials := false,
    UnsafeWildcardOriginWithAllowCredentials := false, ExposeHeaders := [], MaxAge := 0 }

/-- An OPTIONS request from `https://x.com` for which the router left the Allow value
`GET, PUT` in the context. -/
def preflightWithRouterAllow : Context :=
  { Request :=
      { Method := "OPTIONS", Header := [("Origin", ["https://x.com"])], Cookies := [],
        Query := [], PostForm := [], Form := [] }
    Keys := [("gin_header_allow", .str "GET, PUT")] }

/-- The request `requestFrom method origin` with a cookie and a query value added. -/
def requestFromWithExtras (method origin : String) : Context :=
  { Request :=
      { Method := method, Header := [("Origin", [origin])], Cookies := [("sid", "1")],
        Query := [("page", ["2"])], PostForm := [], Form := [] }
    Keys := [] }

/-! ## error.go and middleware/errors_next.go -/

/-- The parts of the gin context that `AddStatusError` writes and `ErrorsNext` reads:
the status of the response writer (`c.Writer.Status()`, 200 until one is set) and the
recorded errors `c.Errors`. -/
structure Recorded where
  Status : Int
  Errors : List Error
  deriving DecidableEq, Repr

/-- A context on which nothing has been recorded yet. -/
def Recorded.fresh : Recorded := { Status := 200, Errors := [] }

/-- `igin.AddStatusError(c, err, codes...)`; `none` is a nil error. -/
def AddStatusError (r : Recorded) (err : Option Error) (codes : List Int) : Recorded :=
  match err with
  | none => r
  | some e =>
    let codes :=
      match e with
      | .CodeMsg code _ => [code]
      | .HTTPError code _ => [code]
      | _ => codes
    let r :=
      match codes with
      | [] => r
      | k :: _ => { r with Status := ginStatus r.Status k }
    { r with Errors := r.Errors ++ [e] }

/-- The status rule function the default handler of `ErrorsNext` passes to
`ContextIResponse`: `status` is `c.Writer.Status()`, `respStatus` the code of the
response. -/
def errorsNextStatusRule (status respStatus : Int) : Int :=
  if respStatus ≠ status ∧ status = 200 then respStatus else status

/-- The default error handler of `ErrorsNext`, on a context whose writer status is
`status`. -/
def errorsNextDefaultHandler (translate : Option (Error → Error)) (status : Int) (err : Error)
    (statusCodes : List Int) : Answer :=
  let statusCode : Int :=
    match statusCodes with
    | [] => 500
    | k :: _ => k
  let json := JsonResponse.SetErr translate { Code := statusCode, Message := "", Error := none } err
  ContextIResponse status (json.WithStatusCode (errorsNextStatusRule status json.Code))

/-- The handler returned by `ErrorsNext()` without a custom error handler: the answer to
the first recorded error, or `none` when there is none and the handler calls
`c.Next()`. -/
def ErrorsNext (translate : Option (Error → Error)) (r : Recorded) : Option Answer :=
  match r.Errors with
  | [] => none
  | err :: _ => some (errorsNextDefaultHandler translate r.Status err [])

/-! ## xT/T.go -/

/-- The inner loop of `Remove` for one value `t`: `k` elements are left to read, `i` is
the index read next, `n` the number of elements kept so far; a kept element is written
to `out[n]`, in place. Returns the array and `n`. -/
def compactLoop {α : Type} [DecidableEq α] (t : α) : Nat → Nat → Nat → List α → List α × Nat
  | 0, _, n, out => (out, n)
  | k + 1, i, n, out =>
    match out[i]? with
    | none => (out, n)
    | some v =>
      if v ≠ t then compactLoop t k (i + 1) (n + 1) (out.set n v)
      else compactLoop t k (i + 1) n out

/-- One round of the outer loop of `Remove`: compact, then `out = out[:n]`. -/
def removeOne {α : Type} [DecidableEq α] (out : List α) (t : α) : List α :=
  ((compactLoop t out.length 0 0 out).1).take (compactLoop t out.length 0 0 out).2

/-- `xT.Remove(slices, ts...)`: the returned slice, and the contents of `slices` after the
call. `out` is a fresh copy of `slices`, and every write goes to `out`. -/
def Remove {α : Type} [DecidableEq α] (slices : List α) (ts : List α) : List α × List α :=
  let out := [] ++ slices
  (ts.foldl removeOne out, slices)

/-! ## middleware/gzip_next.go -/

/-- What the gzip handler does, in program order: pool and writer operations, header
writes, and the call of the next handler. -/
inductive GzipEvent where
  | Next
  | PoolGet
  | Reset
  | Header (key value : String)
  | WrapWriter
  | Close
  | ResetDiscard
  | PoolPut
  | ContentLength
  deriving DecidableEq, Repr

/-- The header names and values of package igin that the gzip handler uses; they are not
among the sources. -/
structure GzipNames where
  HeaderAcceptEncoding : String
  HeaderConnection : String
  HeaderUpgrade : String
  HeaderAccept : String
  MIMEEventStream : String
  HeaderContentEncoding : String

/-- The usual values of the names: the standard HTTP header names. -/
def standardGzipNames : GzipNames :=
  { HeaderAcceptEncoding := "Accept-Encoding", HeaderConnection := "Connection",
    HeaderUpgrade := "Upgrade", HeaderAccept := "Accept",
    MIMEEventStream := "text/event-stream", HeaderContentEncoding := "Content-Encoding" }

def gzipScheme : String := "gzip"

/-- The handler returned by `GzipNextWithConfig`. The deferred function runs when the
handler returns after `c.Next()`. -/
def GzipNextWithConfig (names : GzipNames) (skipper : Option Skipper) (c : Context) :
    List GzipEvent :=
  if (skipper.getD DefaultSkipper) c then [.Next]
  else
    let req := c.Request
    if !containsChars gzipScheme.data (req.HeaderGet names.HeaderAcceptEncoding).data ||
        containsChars names.HeaderUpgrade.data (req.HeaderGet names.HeaderConnection).data ||
        containsChars names.MIMEEventStream.data (req.HeaderGet names.HeaderAccept).data then
      [.PoolGet, .Reset]
    else
      [.PoolGet, .Reset, .Header HeaderVary names.HeaderAcceptEncoding,
        .Header names.HeaderContentEncoding gzipScheme, .WrapWriter, .Next,
        .Close, .ResetDiscard, .PoolPut, .ContentLength]

/-- A POST with CSRF cookie `abc` that carries `abc` in the request header
`X-CSRF-Token` and in no form field. -/
def csrfPostWithHeader : Context :=
  { Request :=
      { Method := "POST", Header := [("X-Csrf-Token", ["abc"])], Cookies := [("_csrf", "abc")],
        Query := [], PostForm := [], Form := [] }
    Keys := [] }

/-- A GET request that accepts gzip. -/
def acceptsGzip : Context :=
  { Request :=
      { Method := "GET", Header := [("Accept-Encoding", ["gzip, deflate"])], Cookies := [],
        Query := [], PostForm := [], Form := [] }
    Keys := [] }

/-! ## encoding/base64 and middleware/basic_auth_next.go -/

/-- The alphabet of `base64.StdEncoding`. -/
def b64Alphabet : List Char :=
  "ABCDEFGHIJKLMNOPQRSTUVWXYZabcdefghijklmnopqrstuvwxyz0123456789+/".data

/-- The character of a 6-bit value. -/
def b64Char (i : Nat) : Char := b64Alphabet.getD i 'A'

/-- The 6-bit value of a character of the alphabet. -/
def b64Index (c : Char) : Option Nat :=
  if b64Alphabet.indexOf c < 64 then some (b64Alphabet.indexOf c) else none

/-- Standard base64 of a list of bytes, with `=` padding. -/
def b64EncodeBytes : List Nat → List Char
  | [] => []
  | [a] => [b64Char (a / 4), b64Char (a % 4 * 16), '=', '=']
  | [a, b] => [b64Char (a / 4), b64Char (a % 4 * 16 + b / 16), b64Char (b % 16 * 4), '=']
  | a :: b :: c :: rest =>
    b64Char (a / 4) :: b64Char (a % 4 * 16 + b / 16) :: b64Char (b % 16 * 4 + c / 64) ::
      b64Char (c % 64) :: b64EncodeBytes rest

/-- Go `base64.StdEncoding.EncodeToString`, on a string read as bytes. -/
def EncodeToString (s : String) : String :=
  ⟨b64EncodeBytes (s.data.map Char.toNat)⟩

/-- Decoding of padded base64 text, four characters at a time; padding may only end the
text. `none` is a `CorruptInputError`. -/
def b64DecodeQuads : List Char → Option (List Nat)
  | [] => some []
  | a :: b :: c :: d :: rest =>
    match b64Index a, b64Index b with
    | some x, some y =>
      if c = '=' then
        if d = '=' ∧ rest = [] then some [x * 4 + y / 16] else none
      else
        match b64Index c with
        | none => none
        | some z =>
          if d = '=' then
            if rest = [] then some [x * 4 + y / 16, y % 16 * 16 + z / 4] else none
          else
            match b64Index d with
            | none => none
            | some w =>
              (b64DecodeQuads rest).map
                (fun tail => (x * 4 + y / 16) :: (y % 16 * 16 + z / 4) :: (z % 4 * 64 + w) :: tail)
    | _, _ => none
  | _ => none

/-- Go `base64.StdEncoding.DecodeString`: carriage returns and line feeds are skipped; the
position in the error message is left out. -/
def DecodeString (s : String) : Except Error String :=
  match b64DecodeQuads (s.data.filter (fun c => decide (c ≠ '\r' ∧ c ≠ '\n'))) with
  | none => .error (.New "illegal base64 data")
  | some bytes => .ok ⟨bytes.map Char.ofNat⟩

def basic : String := "basic"

/-- The loop of `basicAuthNextSearchCredential` over `cred`: the texts before and after
the first colon. -/
def credentialSplit : List Char → Option (List Char × List Char)
  | [] => none
  | c :: cs =>
    if c = ':' then some ([], cs)
    else (credentialSplit cs).map (fun p => (c :: p.1, p.2))

def basicAuthNextSearchCredential (tokenStr : String) : Except Error (String × String) :=
  let l := len basic
  if len tokenStr > l + 1 ∧ EqualFold (sliceTo tokenStr l) basic then
    match DecodeString (sliceFrom tokenStr (l + 1)) with
    | .error err => .error err
    | .ok cred =>
      match credentialSplit cred.data with
      | some (s1, s2) => .ok (⟨s1⟩, ⟨s2⟩)
      | none => .error (.New "token error")
  else .error (.New "token error")

/-- Every character of the string is a byte. -/
def isBytes (s : String) : Prop := ∀ c ∈ s.data, c.toNat < 256

instance isBytes.decide (s : String) : Decidable (isBytes s) := by
  unfold isBytes
  infer_instance

/-! ## Key-auth: acceptance -/

/-- The key loop accepts exactly when one of the keys validates as `(true, nil)`. -/
theorem keyAuthKeys_accepts_iff (V : KeyAuthValidator) (c : Context) (keys : List String)
    (lv : Option Error) :
    (keyAuthKeys V c keys lv).1 = true ↔ ∃ k ∈ keys, V k c = (true, none) := by
  induction keys generalizing lv with
  | nil => simp [keyAuthKeys]
  | cons key keys ih =>
    rcases hv : V key c with ⟨valid, _ | err⟩
    · cases valid
      · simp [keyAuthKeys, hv, ih]
      · simp [keyAuthKeys, hv]
    · simp [keyAuthKeys, hv, ih]

/-- The extractor loop ends in acceptance exactly when some extractor yields a key that
validates as `(true, nil)`. -/
theorem keyAuthExtractors_accepts_iff (V : KeyAuthValidator) (c : Context)
    (extractors : List ValuesExtractor) (le lv : Option Error) :
    keyAuthExtractors V c extractors le lv = none ↔
      ∃ e ∈ extractors, ∃ keys, e c = .ok keys ∧ ∃ k ∈ keys, V k c = (true, none) := by
  induction extractors generalizing le lv with
  | nil => simp [keyAuthExtractors]
  | cons extractor rest ih =>
    cases he : extractor c with
    | error err => simp [keyAuthExtractors, he, ih]
    | ok keys =>
      have hk := keyAuthKeys_accepts_iff V c keys lv
      rcases hr : keyAuthKeys V c keys lv with ⟨acc, lv2⟩
      rw [hr] at hk
      cases acc
      · have hno : ¬ ∃ k ∈ keys, V k c = (true, none) := fun h => by simpa using hk.mpr h
        simp only [keyAuthExtractors, he, hr, ih, List.mem_cons, exists_eq_or_imp,
          Except.ok.injEq, exists_eq_left']
        constructor
        · intro h; exact Or.inr h
        · rintro (h | h)
          · exact absurd h hno
          · exact h
      · have hyes : ∃ k ∈ keys, V k c = (true, none) := hk.mp rfl
        simp only [keyAuthExtractors, he, hr, List.mem_cons, exists_eq_or_imp,
          Except.ok.injEq, exists_eq_left', true_iff]
        exact Or.inl hyes

/-- Acceptance by the key-auth handler, for any list of extractors. -/
theorem keyAuthHandler_accepts_iff (skipper : Skipper) (V : KeyAuthValidator)
    (extractors : List ValuesExtractor) (c : Context) (hskip : skipper c = false) :
    (Effect.Next ∈ keyAuthHandler skipper V extractors c ∧
        ∀ err codes, Effect.ErrorHandler err codes ∉ keyAuthHandler skipper V extractors c) ↔
      ∃ e ∈ extractors, ∃ keys, e c = .ok keys ∧ ∃ k ∈ keys, V k c = (true, none) := by
  rw [← keyAuthExtractors_accepts_iff V c extractors none none]
  unfold keyAuthHandler
  simp only [hskip, Bool.false_eq_true, if_false]
  cases hl : keyAuthExtractors V c extractors none none with
  | none => simp
  | some p =>
    rcases p with ⟨le, _ | verr⟩ <;> simp

/-- C1. In the KeyAuth middleware built by `KeyAuthNextWithConfig`, for every lookup chain
and every request the Skipper does not skip, the request is accepted (the next handler
is called and the ErrorHandler is not invoked) if and only if some extractor of the chain
returns a candidate for which the Validator returns `(true, nil)`: failing extractors and
rejected or erroring candidates do not stop later ones from being tried. -/
theorem keyAuth_accepts_iff_some_candidate_valid (config : KeyAuthConfig) (h : HandlerFunc)
    (hbuilt : KeyAuthNextWithConfig config = .ok h) (c : Context)
    (hskip : (config.Skipper.getD DefaultSkipper) c = false) :
    ∃ validator extractors,
      config.Validator = some validator ∧
      CreateExtractors
          (if config.KeyLookup = "" then ExtractorMethodHeader ++ ":" ++ HeaderAuthorization
            else config.KeyLookup)
          (if config.AuthScheme = "" then "Bearer" else config.AuthScheme) = .ok extractors ∧
      ((Effect.Next ∈ h c ∧ ∀ err codes, Effect.ErrorHandler err codes ∉ h c) ↔
        ∃ e ∈ extractors, ∃ keys, e c = .ok keys ∧
          ∃ k ∈ keys, validator k c = (true, none)) := by
  unfold KeyAuthNextWithConfig at hbuilt
  cases hv : config.Validator with
  | none => simp [hv] at hbuilt
  | some validator =>
    simp only [hv] at hbuilt
    cases hc : CreateExtractors
        (if config.KeyLookup = "" then ExtractorMethodHeader ++ ":" ++ HeaderAuthorization
          else config.KeyLookup)
        (if config.AuthScheme = "" then "Bearer" else config.AuthScheme) with
    | error e => simp [hc] at hbuilt
    | ok extractors =>
      simp only [hc, Except.ok.injEq] at hbuilt
      subst hbuilt
      exact ⟨validator, extractors, rfl, rfl,
        keyAuthHandler_accepts_iff _ validator extractors c hskip⟩

/-- C1, witness: with lookups header, then cookie, then query and the accepted key present
only in the cookie, the request is accepted. -/
theorem keyAuth_accepts_iff_some_candidate_valid_witness :
    KeyAuthNextWithConfig keyAuthThreeSources =
        .ok (keyAuthHandler DefaultSkipper onlyValidKey
          [valuesFromHeader "Authorization" "Bearer ", valuesFromCookie "key",
            valuesFromQuery "key"]) ∧
      (keyAuthThreeSources.Skipper.getD DefaultSkipper) keyInCookieOnly = false ∧
      Effect.Next ∈ keyAuthHandler DefaultSkipper onlyValidKey
          [valuesFromHeader "Authorization" "Bearer ", valuesFromCookie "key",
            valuesFromQuery "key"] keyInCookieOnly ∧
      ∀ err codes, Effect.ErrorHandler err codes ∉ keyAuthHandler DefaultSkipper onlyValidKey
          [valuesFromHeader "Authorization" "Bearer ", valuesFromCookie "key",
            valuesFromQuery "key"] keyInCookieOnly := by
  have hb : KeyAuthNextWithConfig keyAuthThreeSources =
      .ok (keyAuthHandler DefaultSkipper onlyValidKey
        [valuesFromHeader "Authorization" "Bearer ", valuesFromCookie "key",
          valuesFromQuery "key"]) := rfl
  obtain ⟨validator, extractors, hv, hc, hiff⟩ :=
    keyAuth_accepts_iff_some_candidate_valid keyAuthThreeSources _ hb keyInCookieOnly rfl
  have hv2 : validator = onlyValidKey := by
    have : some onlyValidKey = some validator := hv
    exact (Option.some.inj this).symm
  have hc2 : extractors = [valuesFromHeader "Authorization" "Bearer ", valuesFromCookie "key",
      valuesFromQuery "key"] := by
    have : (Except.ok [valuesFromHeader "Authorization" "Bearer ", valuesFromCookie "key",
      valuesFromQuery "key"] : Except Error (List ValuesExtractor)) = .ok extractors := hc
    exact (Except.ok.inj this).symm
  subst hv2 hc2
  have hacc := hiff.mpr ⟨valuesFromCookie "key", by simp, ["valid-key"], by decide,
    "valid-key", by simp, by decide⟩
  exact ⟨hb, rfl, hacc.1, hacc.2⟩

/-! ## JWT: the empty extractor chain -/

/-- C2. At the lookup `Header:Authorization`, which `CreateExtractors` accepts with an empty
extractor list, the JWT handler does nothing for a non-skipped request: no token is
stored, the ErrorHandler is not invoked and the chain is not aborted, so neither of the
two outcomes occurs; the key-auth handler invokes its ErrorHandler on the same chain. -/
theorem jwt_unknown_source_neither_outcome :
    CreateExtractors "Header:Authorization" "Bearer" = .ok [] ∧
      NextWithConfig rejectEveryToken jwtUnknownSource =
        .ok (jwtHandler DefaultSkipper false "user" rejectEveryToken []) ∧
      jwtHandler DefaultSkipper false "user" rejectEveryToken [] bareRequest = [] ∧
      keyAuthHandler DefaultSkipper onlyValidKey [] bareRequest =
        [.ErrorHandler .KeyAuthMissingNil []] := by
  refine ⟨by rfl, by rfl, by decide, by decide⟩

/-! ## CSRF -/

/-- The token loop reports a match exactly when the server token is among the
candidates. -/
theorem csrfTokens_matches_iff (token : String) (cts : List String) (lt : Option Error) :
    (csrfTokens token cts lt).1 = true ↔ token ∈ cts := by
  induction cts generalizing lt with
  | nil => simp [csrfTokens]
  | cons ct rest ih =>
    by_cases h : token = ct
    · simp [csrfTokens, validateCSRFToken, h]
    · simp [csrfTokens, validateCSRFToken, h, ih]

/-- When the token loop finds no match, `lastTokenErr` is `ErrCSRFInvalid` as soon as there
was a candidate. -/
theorem csrfTokens_no_match (token : String) (cts : List String) (lt : Option Error)
    (h : token ∉ cts) :
    csrfTokens token cts lt = (false, if cts = [] then lt else some ErrCSRFInvalid) := by
  induction cts generalizing lt with
  | nil => simp [csrfTokens]
  | cons ct rest ih =>
    have h1 : token ≠ ct := fun e => h (by simp [e])
    have h2 : token ∉ rest := fun e => h (by simp [e])
    simp only [csrfTokens, validateCSRFToken, h1, decide_False, Bool.false_eq_true, if_false,
      ih _ h2]
    by_cases hr : rest = [] <;> simp [hr]

/-- The extractor loop clears both errors when some extractor yields the server token. -/
theorem csrfExtractors_match (token : String) (c : Context) (extractors : List ValuesExtractor)
    (le lt : Option Error)
    (h : ∃ e ∈ extractors, ∃ vals, e c = .ok vals ∧ token ∈ vals) :
    csrfExtractors token c extractors le lt = (none, none) := by
  induction extractors generalizing le lt with
  | nil => simp at h
  | cons extractor rest ih =>
    cases he : extractor c with
    | error err =>
      simp only [csrfExtractors, he]
      apply ih
      obtain ⟨e, hmem, vals, hv, ht⟩ := h
      rcases List.mem_cons.mp hmem with rfl | hmem
      · rw [he] at hv; cases hv
      · exact ⟨e, hmem, vals, hv, ht⟩
    | ok cts =>
      by_cases hin : token ∈ cts
      · have hm := (csrfTokens_matches_iff token cts lt).mpr hin
        rcases hr : csrfTokens token cts lt with ⟨m, lt2⟩
        rw [hr] at hm
        simp only at hm
        subst hm
        simp [csrfExtractors, he, hr]
      · simp only [csrfExtractors, he, csrfTokens_no_match token cts lt hin]
        apply ih
        obtain ⟨e, hmem, vals, hv, ht⟩ := h
        rcases List.mem_cons.mp hmem with rfl | hmem
        · rw [he] at hv
          cases hv
          exact absurd ht hin
        · exact ⟨e, hmem, vals, hv, ht⟩

/-- When no candidate equals the server token, `lastTokenErr` ends as `ErrCSRFInvalid` as
soon as it already was, or some extractor yielded a candidate. -/
theorem csrfExtractors_mismatch (token : String) (c : Context)
    (extractors : List ValuesExtractor) (le lt : Option Error)
    (hno : ∀ e ∈ extractors, ∀ vals, e c = .ok vals → token ∉ vals)
    (hsome : lt = some ErrCSRFInvalid ∨ ∃ e ∈ extractors, ∃ vals, e c = .ok vals ∧ vals ≠ []) :
    (csrfExtractors token c extractors le lt).2 = some ErrCSRFInvalid := by
  induction extractors generalizing le lt with
  | nil =>
    rcases hsome with h | h
    · simp [csrfExtractors, h]
    · simp at h
  | cons extractor rest ih =>
    have hno2 : ∀ e ∈ rest, ∀ vals, e c = .ok vals → token ∉ vals :=
      fun e he => hno e (List.mem_cons_of_mem _ he)
    cases he : extractor c with
    | error err =>
      simp only [csrfExtractors, he]
      apply ih _ _ hno2
      rcases hsome with h | ⟨e, hmem, vals, hv, hne⟩
      · exact Or.inl h
      · rcases List.mem_cons.mp hmem with rfl | hmem
        · rw [he] at hv; cases hv
        · exact Or.inr ⟨e, hmem, vals, hv, hne⟩
    | ok cts =>
      have hin : token ∉ cts := hno extractor (List.mem_cons_self _ _) cts he
      simp only [csrfExtractors, he, csrfTokens_no_match token cts lt hin]
      apply ih _ _ hno2
      by_cases hc : cts = []
      · subst hc
        rcases hsome with h | ⟨e, hmem, vals, hv, hne⟩
        · exact Or.inl (by simp [h])
        · rcases List.mem_cons.mp hmem with rfl | hmem
          · rw [he] at hv
            cases hv
            exact absurd rfl hne
          · exact Or.inr ⟨e, hmem, vals, hv, hne⟩
      · exact Or.inl (by simp [hc])

/-- When every extractor fails, `lastTokenErr` is unchanged and `lastExtractorErr` is set
as soon as there was an extractor. -/
theorem csrfExtractors_all_fail (token : String) (c : Context)
    (extractors : List ValuesExtractor) (le lt : Option Error)
    (hfail : ∀ e ∈ extractors, ∃ err, e c = .error err) :
    (csrfExtractors token c extractors le lt).2 = lt ∧
      ((le ≠ none ∨ extractors ≠ []) →
        ∃ err, (csrfExtractors token c extractors le lt).1 = some err) := by
  induction extractors generalizing le with
  | nil =>
    refine ⟨by simp [csrfExtractors], fun h => ?_⟩
    rcases h with h | h
    · obtain ⟨e, he⟩ := Option.ne_none_iff_exists'.mp h
      exact ⟨e, by simp [csrfExtractors, he]⟩
    · exact absurd rfl h
  | cons extractor rest ih =>
    obtain ⟨err, he⟩ := hfail extractor (List.mem_cons_self _ _)
    have hfail2 : ∀ e ∈ rest, ∃ err, e c = .error err :=
      fun e hm => hfail e (List.mem_cons_of_mem _ hm)
    have := ih (some err) hfail2
    simp only [csrfExtractors, he]
    exact ⟨this.1, fun _ => this.2 (Or.inl (by simp))⟩

/-- Every error `csrfFinalErr` derives from an extractor error alone is an HTTP error with
status 400. -/
theorem csrfFinalErr_missing (e : Error) :
    ∃ msg, csrfFinalErr (some e) none = some (.HTTPError 400 msg) := by
  unfold csrfFinalErr
  simp only [NewHTTPError]
  split_ifs <;> exact ⟨_, rfl⟩

/-- The run of the CSRF handler once validation has passed or was not required. -/
theorem csrfHandler_run (w : World) (skipper : Skipper) (config : CSRFConfig)
    (extractors : List ValuesExtractor) (c : Context) (hskip : skipper c = false) :
    csrfHandler w skipper config extractors c =
      match (if csrfSafeMethod c.Request.Method then none
        else csrfFinalErr (csrfExtractors (csrfToken w config c) c extractors none none).1
          (csrfExtractors (csrfToken w config c) c extractors none none).2) with
      | some err => [.ErrorHandler err []]
      | none =>
        [.SetCookie (csrfCookie w config (csrfToken w config c)),
          .Set config.ContextKey (.str (csrfToken w config c)),
          .Header HeaderVary HeaderCookie, .Next] := by
  simp [csrfHandler, hskip]

/-- C3. In the CSRF middleware, for every non-skipped request with an unsafe method whose
CSRF cookie reads as token `t` and for which some extractor of the configured lookup
yields `t` among its candidates, validation succeeds: the run is exactly the re-issue of
the CSRF cookie with value `t`, the store of `t` under ContextKey, the Vary header and
the call of the next handler; the ErrorHandler is not invoked. -/
theorem csrf_same_token_accepted (w : World) (config : CSRFConfig)
    (extractors : List ValuesExtractor)
    (hext : CreateExtractors (csrfDefaults config).TokenLookup "" = .ok extractors)
    (c : Context) (hskip : (config.Skipper.getD DefaultSkipper) c = false)
    (hnotsafe : csrfSafeMethod c.Request.Method = false) (t : String)
    (hcookie : c.Cookie (csrfDefaults config).CookieName = .ok t)
    (hsub : ∃ e ∈ extractors, ∃ vals, e c = .ok vals ∧ t ∈ vals) :
    serve (CSRFNextWithConfig w config) c =
        some [.SetCookie (csrfCookie w (csrfDefaults config) t),
          .Set (csrfDefaults config).ContextKey (.str t),
          .Header HeaderVary HeaderCookie, .Next] ∧
      (csrfCookie w (csrfDefaults config) t).Value = t := by
  have ht : csrfToken w (csrfDefaults config) c = t := by simp [csrfToken, hcookie]
  refine ⟨?_, rfl⟩
  simp only [CSRFNextWithConfig, hext, serve]
  rw [csrfHandler_run _ _ _ _ _ hskip, ht, csrfExtractors_match t c extractors none none hsub]
  simp [hnotsafe, csrfFinalErr]

/-- C3, witness: a POST whose cookie `_csrf` and form field `X-CSRF-Token` both hold
`abc`. -/
theorem csrf_same_token_accepted_witness :
    serve (CSRFNextWithConfig fixedWorld csrfZeroConfig) (csrfPost ["abc"]) =
        some [.SetCookie (csrfCookie fixedWorld (csrfDefaults csrfZeroConfig) "abc"),
          .Set "csrf" (.str "abc"), .Header "Vary" "Cookie", .Next] ∧
      (csrfCookie fixedWorld (csrfDefaults csrfZeroConfig) "abc").Value = "abc" :=
  csrf_same_token_accepted fixedWorld csrfZeroConfig [valuesFromForm "X-CSRF-Token"] rfl
    (csrfPost ["abc"]) rfl rfl "abc" (by decide)
    ⟨valuesFromForm "X-CSRF-Token", by simp, ["abc"], by decide, by simp⟩

/-- C4, as stated, fails: a POST whose cookie holds `abc` and whose form field submits
`xyz` hands the ErrorHandler `ErrCSRFInvalid`, an HTTP error with status 403, not 400. -/
theorem csrf_mismatch_is_forbidden :
    serve (CSRFNextWithConfig fixedWorld csrfZeroConfig) (csrfPost ["xyz"]) =
        some [.ErrorHandler (.HTTPError 403 "invalid csrf token") []] ∧
      ¬ ∃ msg, serve (CSRFNextWithConfig fixedWorld csrfZeroConfig) (csrfPost ["xyz"]) =
        some [.ErrorHandler (.HTTPError 400 msg) []] := by
  have h : serve (CSRFNextWithConfig fixedWorld csrfZeroConfig) (csrfPost ["xyz"]) =
      some [.ErrorHandler (.HTTPError 403 "invalid csrf token") []] := by decide
  refine ⟨h, ?_⟩
  rintro ⟨msg, hm⟩
  rw [h] at hm
  simp at hm

/-- C4, amended. In the CSRF middleware, for every non-skipped unsafe-method request: when
some extractor yields a candidate and no candidate equals the server-held token, the
ErrorHandler receives `ErrCSRFInvalid`, an HTTP error with status 403; when the chain
has an extractor and every extractor fails (no token submitted), it receives an HTTP
error with status 400; in both cases that call is the whole run, so the middleware does
not call the next handler. -/
theorem csrf_reject_mismatch_403_missing_400 (w : World) (config : CSRFConfig)
    (extractors : List ValuesExtractor)
    (hext : CreateExtractors (csrfDefaults config).TokenLookup "" = .ok extractors)
    (c : Context) (hskip : (config.Skipper.getD DefaultSkipper) c = false)
    (hnotsafe : csrfSafeMethod c.Request.Method = false) :
    ((∀ e ∈ extractors, ∀ vals, e c = .ok vals → csrfToken w (csrfDefaults config) c ∉ vals) →
        (∃ e ∈ extractors, ∃ vals, e c = .ok vals ∧ vals ≠ []) →
        serve (CSRFNextWithConfig w config) c =
          some [.ErrorHandler (.HTTPError 403 "invalid csrf token") []]) ∧
      (extractors ≠ [] → (∀ e ∈ extractors, ∃ err, e c = .error err) →
        ∃ msg, serve (CSRFNextWithConfig w config) c =
          some [.ErrorHandler (.HTTPError 400 msg) []]) := by
  constructor
  · intro hno hsome
    simp only [CSRFNextWithConfig, hext, serve]
    rw [csrfHandler_run _ _ _ _ _ hskip,
      csrfExtractors_mismatch _ c extractors none none hno (Or.inr hsome)]
    simp [hnotsafe, csrfFinalErr, ErrCSRFInvalid, NewHTTPError]
  · intro hne hfail
    obtain ⟨h2, h1⟩ := csrfExtractors_all_fail (csrfToken w (csrfDefaults config) c) c
      extractors none none hfail
    obtain ⟨err, h1⟩ := h1 (Or.inr hne)
    obtain ⟨msg, hmsg⟩ := csrfFinalErr_missing err
    refine ⟨msg, ?_⟩
    simp only [CSRFNextWithConfig, hext, serve]
    rw [csrfHandler_run _ _ _ _ _ hskip, h1, h2]
    simp [hnotsafe, hmsg]

/-- C4 amended, witness: the POST with cookie `abc` submitting `xyz` is answered with
status 403, the POST submitting nothing with status 400. -/
theorem csrf_reject_mismatch_403_missing_400_witness :
    serve (CSRFNextWithConfig fixedWorld csrfZeroConfig) (csrfPost ["xyz"]) =
        some [.ErrorHandler (.HTTPError 403 "invalid csrf token") []] ∧
      ∃ msg, serve (CSRFNextWithConfig fixedWorld csrfZeroConfig) (csrfPost []) =
        some [.ErrorHandler (.HTTPError 400 msg) []] := by
  refine ⟨(csrf_reject_mismatch_403_missing_400 fixedWorld csrfZeroConfig
      [valuesFromForm "X-CSRF-Token"] rfl (csrfPost ["xyz"]) rfl rfl).1 ?_ ?_,
    (csrf_reject_mismatch_403_missing_400 fixedWorld csrfZeroConfig
      [valuesFromForm "X-CSRF-Token"] rfl (csrfPost []) rfl rfl).2 (by simp) ?_⟩
  · intro e he vals hv
    simp only [List.mem_singleton] at he
    subst he
    have : (Except.ok ["xyz"] : Except Error (List String)) = .ok vals := hv
    cases this
    decide
  · exact ⟨valuesFromForm "X-CSRF-Token", by simp, ["xyz"], by decide, by simp⟩
  · intro e he
    simp only [List.mem_singleton] at he
    subst he
    exact ⟨.ErrFormExtractorValueMissing, by decide⟩

/-- C5. In the CSRF middleware, for every non-skipped request whose method is GET, HEAD,
OPTIONS or TRACE, whatever cookie and submitted token it carries, the run is the same
for every extractor chain (no extractor result is used) and is exactly: the CSRF cookie
issued with the server-held token, the token stored under ContextKey, the Vary header,
and the call of the next handler; the ErrorHandler is not invoked. -/
theorem csrf_safe_method_no_validation (w : World) (config : CSRFConfig) (c : Context)
    (hskip : (config.Skipper.getD DefaultSkipper) c = false)
    (hsafe : c.Request.Method = "GET" ∨ c.Request.Method = "HEAD" ∨
      c.Request.Method = "OPTIONS" ∨ c.Request.Method = "TRACE") :
    (∀ extractors : List ValuesExtractor,
        csrfHandler w (config.Skipper.getD DefaultSkipper) (csrfDefaults config) extractors c =
          [.SetCookie (csrfCookie w (csrfDefaults config) (csrfToken w (csrfDefaults config) c)),
            .Set (csrfDefaults config).ContextKey (.str (csrfToken w (csrfDefaults config) c)),
            .Header HeaderVary HeaderCookie, .Next]) ∧
      (∀ h, CSRFNextWithConfig w config = .ok h →
        h c =
          [.SetCookie (csrfCookie w (csrfDefaults config) (csrfToken w (csrfDefaults config) c)),
            .Set (csrfDefaults config).ContextKey (.str (csrfToken w (csrfDefaults config) c)),
            .Header HeaderVary HeaderCookie, .Next]) := by
  have hs : csrfSafeMethod c.Request.Method = true := by
    simp only [csrfSafeMethod, decide_eq_true_eq]
    exact hsafe
  have hall : ∀ extractors : List ValuesExtractor,
      csrfHandler w (config.Skipper.getD DefaultSkipper) (csrfDefaults config) extractors c =
        [.SetCookie (csrfCookie w (csrfDefaults config) (csrfToken w (csrfDefaults config) c)),
          .Set (csrfDefaults config).ContextKey (.str (csrfToken w (csrfDefaults config) c)),
          .Header HeaderVary HeaderCookie, .Next] := by
    intro extractors
    rw [csrfHandler_run _ _ _ _ _ hskip]
    simp [hs]
  refine ⟨hall, ?_⟩
  intro h hb
  unfold CSRFNextWithConfig at hb
  cases hc : CreateExtractors (csrfDefaults config).TokenLookup "" with
  | error e => simp [hc] at hb
  | ok extractors =>
    simp only [hc, Except.ok.injEq] at hb
    subst hb
    exact hall extractors

/-- C5, witness: a GET with no cookie and no token gets the fresh token issued. -/
theorem csrf_safe_method_no_validation_witness :
    serve (CSRFNextWithConfig fixedWorld csrfZeroConfig) bareRequest =
      some [.SetCookie (csrfCookie fixedWorld (csrfDefaults csrfZeroConfig) "fresh-token"),
        .Set "csrf" (.str "fresh-token"), .Header "Vary" "Cookie", .Next] := by
  have h := (csrf_safe_method_no_validation fixedWorld csrfZeroConfig bareRequest rfl
    (Or.inl rfl)).2 _ rfl
  simp only [serve, CSRFNextWithConfig]
  exact congrArg some h

/-! ## Response headers of a run -/

theorem responseHeaders_append (a b : List Effect) (h : List (String × String)) :
    responseHeaders (a ++ b) h = responseHeaders b (responseHeaders a h) := by
  induction a generalizing h with
  | nil => rfl
  | cons e a ih => cases e <;> simp [responseHeaders, ih]

theorem lookup_filter_ne (h : List (String × String)) (k k2 : String) :
    (h.filter (fun kv => !decide (kv.1 = k2))).lookup k = if k = k2 then none else h.lookup k := by
  induction h with
  | nil => simp
  | cons kv h ih =>
    obtain ⟨a, b⟩ := kv
    by_cases h1 : a = k2
    · subst h1
      by_cases h2 : k = a
      · subst h2
        simpa [List.filter_cons] using ih
      · have h3 : (k == a) = false := by simpa using h2
        rw [List.filter_cons]
        simp only [decide_True, Bool.not_true, Bool.false_eq_true, if_false, ih, h2,
          List.lookup_cons, h3]
    · by_cases h2 : k = a
      · subst h2
        simp [List.filter_cons, h1, List.lookup_cons]
      · have h3 : (k == a) = false := by simpa using h2
        rw [List.filter_cons]
        simp only [h1, decide_False, Bool.not_false, if_true, List.lookup_cons, h3, ih]

theorem lookup_setHeader_same (h : List (String × String)) (key value : String) :
    (setHeader h key value).lookup (CanonicalMIMEHeaderKey key) =
      if value = "" then none else some value := by
  have hf := lookup_filter_ne h (CanonicalMIMEHeaderKey key) (CanonicalMIMEHeaderKey key)
  simp only [if_true] at hf
  by_cases hv : value = ""
  · simp only [setHeader, ne_eq, decide_not, hv, if_true, hf]
  · simp only [setHeader, ne_eq, decide_not, hv, if_false, List.lookup_append, hf,
      List.lookup_cons_self, Option.none_or]

theorem lookup_setHeader_other (h : List (String × String)) (key value k : String)
    (hne : CanonicalMIMEHeaderKey key ≠ k) :
    (setHeader h key value).lookup k = h.lookup k := by
  have hne2 : k ≠ CanonicalMIMEHeaderKey key := fun e => hne e.symm
  have hb : (k == CanonicalMIMEHeaderKey key) = false := by simpa using hne2
  have hf := lookup_filter_ne h k (CanonicalMIMEHeaderKey key)
  simp only [hne2, if_false] at hf
  by_cases hv : value = ""
  · simp only [setHeader, ne_eq, decide_not, hv, if_true, hf]
  · simp only [setHeader, ne_eq, decide_not, hv, if_false, List.lookup_append, hf,
      List.lookup_cons, hb, List.lookup_nil, Option.or_none]

/-- The header map replayed from a run agrees with the last write on each key. -/
theorem lookup_responseHeaders (run : List Effect) (key : String) (h : List (String × String)) :
    (responseHeaders run h).lookup (CanonicalMIMEHeaderKey key) =
      lastWrite key run (h.lookup (CanonicalMIMEHeaderKey key)) := by
  induction run generalizing h with
  | nil => rfl
  | cons e run ih =>
    cases e with
    | Header k v =>
      simp only [responseHeaders, lastWrite]
      rw [ih]
      by_cases hk : CanonicalMIMEHeaderKey k = CanonicalMIMEHeaderKey key
      · rw [if_pos hk, ← hk, lookup_setHeader_same]
      · rw [if_neg hk, lookup_setHeader_other _ _ _ _ hk]
    | _ => simpa [responseHeaders, lastWrite] using ih h

theorem headerOf_eq_lastWrite (run : List Effect) (key : String) :
    headerOf run key = lastWrite key run none := by
  unfold headerOf
  rw [lookup_responseHeaders]
  rfl

theorem lastWrite_append (key : String) (a b : List Effect) (cur : Option String) :
    lastWrite key (a ++ b) cur = lastWrite key b (lastWrite key a cur) := by
  induction a generalizing cur with
  | nil => rfl
  | cons e a ih =>
    cases e with
    | Header k v =>
      simp only [List.cons_append, lastWrite]
      split_ifs <;> exact ih _
    | _ => simpa [lastWrite] using ih cur

theorem canonical_keys :
    CanonicalMIMEHeaderKey HeaderVary = "Vary" ∧
    CanonicalMIMEHeaderKey HeaderAllow = "Allow" ∧
    CanonicalMIMEHeaderKey HeaderAccessControlAllowOrigin = "Access-Control-Allow-Origin" ∧
    CanonicalMIMEHeaderKey HeaderAccessControlAllowCredentials =
      "Access-Control-Allow-Credentials" ∧
    CanonicalMIMEHeaderKey HeaderAccessControlAllowMethods = "Access-Control-Allow-Methods" ∧
    CanonicalMIMEHeaderKey HeaderAccessControlAllowHeaders = "Access-Control-Allow-Headers" ∧
    CanonicalMIMEHeaderKey HeaderAccessControlExposeHeaders = "Access-Control-Expose-Headers" ∧
    CanonicalMIMEHeaderKey HeaderAccessControlMaxAge = "Access-Control-Max-Age" := by
  decide

/-! ## CORS -/

/-- An approved origin is written to `Access-Control-Allow-Origin`. -/
theorem corsHandler_granted_origin (ms : String → String → Bool) (skipper : Skipper)
    (config : CORSConfig) (allowOrigins : List String) (hasCustom : Bool)
    (methods : List String) (c : Context) (hskip : skipper c = false)
    (horigin : c.Request.HeaderGet HeaderOrigin ≠ "") (a : String)
    (happ : corsAllowOrigin ms config allowOrigins (c.Request.HeaderGet HeaderOrigin) = .ok a)
    (ha : a ≠ "") :
    headerOf (corsHandler ms skipper config allowOrigins hasCustom methods c)
      HeaderAccessControlAllowOrigin = some a := by
  obtain ⟨k1, k2, k3, k4, k5, k6, k7, k8⟩ := canonical_keys
  rw [headerOf_eq_lastWrite]
  by_cases hp : c.Request.Method = "OPTIONS"
  · simp only [corsHandler, hskip, horigin, happ, ha, hp, Bool.false_eq_true, if_false,
      decide_True, Bool.not_true, List.append_assoc, List.singleton_append, List.cons_append,
      lastWrite_append, lastWrite, k1, k2, k3, k4, k5, k6, k7, k8, List.nil_append,
      String.reduceEq]
    split_ifs <;> simp [lastWrite, k1, k2, k3, k4, k5, k6, k7, k8, ha]
  · simp only [corsHandler, hskip, horigin, happ, ha, hp, Bool.false_eq_true, if_false,
      decide_False, Bool.not_false, List.append_assoc, List.singleton_append, List.cons_append,
      lastWrite_append, lastWrite, k1, k2, k3, k4, k5, k6, k7, k8, List.nil_append,
      String.reduceEq]
    split_ifs <;> simp [lastWrite, k1, k2, k3, k4, k5, k6, k7, k8, ha]

/-- An origin that is not approved leaves `Access-Control-Allow-Origin` unset. -/
theorem corsHandler_no_grant (ms : String → String → Bool) (skipper : Skipper)
    (config : CORSConfig) (allowOrigins : List String) (hasCustom : Bool)
    (methods : List String) (c : Context) (hskip : skipper c = false)
    (happ : corsAllowOrigin ms config allowOrigins (c.Request.HeaderGet HeaderOrigin) = .ok "") :
    headerOf (corsHandler ms skipper config allowOrigins hasCustom methods c)
      HeaderAccessControlAllowOrigin = none := by
  obtain ⟨k1, k2, k3, k4, k5, k6, k7, k8⟩ := canonical_keys
  rw [headerOf_eq_lastWrite]
  simp only [corsHandler, hskip, happ, Bool.false_eq_true, if_false, if_true, ite_self,
    lastWrite_append, lastWrite, k1, k2, k3, String.reduceEq]
  split_ifs <;> simp [lastWrite, k1, k2, k3]

/-- C6. For a CORS policy with `AllowOrigins = ["https://*.example.com"]` and no
AllowOriginFunc, a non-skipped request with Origin `https://a.example.com` gets
`Access-Control-Allow-Origin` set to that origin (whatever the subdomain helper answers),
while requests with Origin `https://example.com` and `https://evilexample.com` get no
`Access-Control-Allow-Origin` header. -/
theorem cors_subdomain_pattern_grants (config : CORSConfig)
    (hao : config.AllowOrigins = ["https://*.example.com"])
    (hf : config.AllowOriginFunc = none) (c : Context)
    (hskip : (config.Skipper.getD DefaultSkipper) c = false) :
    (c.Request.HeaderGet HeaderOrigin = "https://a.example.com" →
        ∀ ms : String → String → Bool,
          headerOf (CORSNextWithConfig ms config c) HeaderAccessControlAllowOrigin =
            some "https://a.example.com") ∧
      (c.Request.HeaderGet HeaderOrigin = "https://example.com" →
        headerOf (CORSNextWithConfig MatchSubdomain config c) HeaderAccessControlAllowOrigin =
          none) ∧
      (c.Request.HeaderGet HeaderOrigin = "https://evilexample.com" →
        headerOf (CORSNextWithConfig MatchSubdomain config c) HeaderAccessControlAllowOrigin =
          none) := by
  have hlen : (config.AllowOrigins.length = 0) = False := by simp [hao]
  refine ⟨fun ho ms => ?_, fun ho => ?_, fun ho => ?_⟩
  · simp only [CORSNextWithConfig, hlen, if_false]
    apply corsHandler_granted_origin _ _ _ _ _ _ _ hskip (by rw [ho]; decide)
    · rw [ho, hao]
      have hre : regexpMatchString (originPattern "https://*.example.com")
          "https://a.example.com" = true := by decide
      have hc : containsChars "://".data "https://a.example.com".data = true := by decide
      have hl : len "https://a.example.com" ≤ 253 + 3 + 5 := by decide
      cases hms : ms "https://a.example.com" "https://*.example.com" <;>
        simp [corsAllowOrigin, hf, corsScanOrigins, hms, corsScanPatterns, hre, hc, hl]
    · decide
  · simp only [CORSNextWithConfig, hlen, if_false]
    apply corsHandler_no_grant _ _ _ _ _ _ _ hskip
    rw [ho, hao]
    have hms : MatchSubdomain "https://example.com" "https://*.example.com" = false := by decide
    have hre : regexpMatchString (originPattern "https://*.example.com")
        "https://example.com" = false := by decide
    simp [corsAllowOrigin, hf, corsScanOrigins, hms, corsScanPatterns, hre]
  · simp only [CORSNextWithConfig, hlen, if_false]
    apply corsHandler_no_grant _ _ _ _ _ _ _ hskip
    rw [ho, hao]
    have hms : MatchSubdomain "https://evilexample.com" "https://*.example.com" = false := by
      decide
    have hre : regexpMatchString (originPattern "https://*.example.com")
        "https://evilexample.com" = false := by decide
    simp [corsAllowOrigin, hf, corsScanOrigins, hms, corsScanPatterns, hre]

/-- C6, witness: GET requests from the three origins against the policy with every other
field at its zero value. -/
theorem cors_subdomain_pattern_grants_witness :
    headerOf (CORSNextWithConfig MatchSubdomain corsExampleSubdomains
        (requestFrom "GET" "https://a.example.com")) HeaderAccessControlAllowOrigin =
          some "https://a.example.com" ∧
      headerOf (CORSNextWithConfig MatchSubdomain corsExampleSubdomains
        (requestFrom "GET" "https://example.com")) HeaderAccessControlAllowOrigin = none ∧
      headerOf (CORSNextWithConfig MatchSubdomain corsExampleSubdomains
        (requestFrom "GET" "https://evilexample.com")) HeaderAccessControlAllowOrigin = none :=
  ⟨(cors_subdomain_pattern_grants corsExampleSubdomains rfl rfl
      (requestFrom "GET" "https://a.example.com") rfl).1 (by decide) MatchSubdomain,
    (cors_subdomain_pattern_grants corsExampleSubdomains rfl rfl
      (requestFrom "GET" "https://example.com") rfl).2.1 (by decide),
    (cors_subdomain_pattern_grants corsExampleSubdomains rfl rfl
      (requestFrom "GET" "https://evilexample.com") rfl).2.2 (by decide)⟩

/-- C7. For a CORS policy with `AllowOrigins = ["*"]`, `AllowCredentials = false` and no
AllowOriginFunc, every non-skipped, non-OPTIONS request with a non-empty Origin header
gets `Access-Control-Allow-Origin: *`, no `Access-Control-Allow-Credentials` header, and
the next handler runs. -/
theorem cors_wildcard_without_credentials (ms : String → String → Bool) (config : CORSConfig)
    (hao : config.AllowOrigins = ["*"]) (hcred : config.AllowCredentials = false)
    (hf : config.AllowOriginFunc = none) (c : Context)
    (hskip : (config.Skipper.getD DefaultSkipper) c = false)
    (hmethod : c.Request.Method ≠ "OPTIONS")
    (horigin : c.Request.HeaderGet HeaderOrigin ≠ "") :
    headerOf (CORSNextWithConfig ms config c) HeaderAccessControlAllowOrigin = some "*" ∧
      headerOf (CORSNextWithConfig ms config c) HeaderAccessControlAllowCredentials = none ∧
      Effect.Next ∈ CORSNextWithConfig ms config c := by
  obtain ⟨k1, k2, k3, k4, k5, k6, k7, k8⟩ := canonical_keys
  have happ : corsAllowOrigin ms config ["*"] (c.Request.HeaderGet HeaderOrigin) = .ok "*" := by
    simp [corsAllowOrigin, hf, corsScanOrigins, hcred]
  have hb : CORSNextWithConfig ms config =
      corsHandler ms (config.Skipper.getD DefaultSkipper) config ["*"]
        (decide (config.AllowMethods.length ≠ 0))
        (if config.AllowMethods.length = 0 then defaultAllowMethods else config.AllowMethods) := by
    simp [CORSNextWithConfig, hao]
  rw [hb]
  refine ⟨?_, ?_, ?_⟩
  · exact corsHandler_granted_origin _ _ _ _ _ _ _ hskip horigin "*" happ (by decide)
  · rw [headerOf_eq_lastWrite]
    simp only [corsHandler, hskip, horigin, happ,
      hmethod, hcred, Bool.false_eq_true, decide_False, Bool.not_false, if_true, if_false,
      lastWrite_append, lastWrite, k1, k2, k3, k4, k7, String.reduceEq, ne_eq,
      not_true_eq_false]
    split_ifs <;> simp [lastWrite, k1, k2, k3, k4, k7]
  · simp only [corsHandler, hskip, horigin, happ,
      hmethod, Bool.false_eq_true, decide_False, Bool.not_false, if_true, if_false,
      String.reduceEq]
    simp

/-- C7, witness: a GET from `https://x.com` against the wildcard policy. -/
theorem cors_wildcard_without_credentials_witness :
    headerOf (CORSNextWithConfig MatchSubdomain corsAnyOrigin
        (requestFrom "GET" "https://x.com")) HeaderAccessControlAllowOrigin = some "*" ∧
      headerOf (CORSNextWithConfig MatchSubdomain corsAnyOrigin
        (requestFrom "GET" "https://x.com")) HeaderAccessControlAllowCredentials = none ∧
      Effect.Next ∈ CORSNextWithConfig MatchSubdomain corsAnyOrigin
        (requestFrom "GET" "https://x.com") :=
  cors_wildcard_without_credentials MatchSubdomain corsAnyOrigin rfl rfl rfl
    (requestFrom "GET" "https://x.com") rfl (by decide) (by decide)

/-- C8. For every CORS policy and every non-skipped OPTIONS request whose Origin the policy
approves (the approval block yields a non-empty allowed origin), the handler ends with
`AbortWithStatus(204)`: the response status is 204, the chain is aborted, and the next
handler is never called. -/
theorem cors_preflight_approved_no_content (ms : String → String → Bool) (config : CORSConfig)
    (c : Context) (hskip : (config.Skipper.getD DefaultSkipper) c = false)
    (hmethod : c.Request.Method = "OPTIONS") (a : String)
    (happ : corsAllowOrigin ms config
      (if config.AllowOrigins.length = 0 then ["*"] else config.AllowOrigins)
      (c.Request.HeaderGet HeaderOrigin) = .ok a)
    (ha : a ≠ "") :
    (CORSNextWithConfig ms config c).getLast? = some (.AbortWithStatus 204) ∧
      abortedWith (CORSNextWithConfig ms config c) = some 204 ∧
      Effect.Next ∉ CORSNextWithConfig ms config c := by
  by_cases horigin : c.Request.HeaderGet HeaderOrigin = ""
  · simp only [CORSNextWithConfig, corsHandler, hskip, hmethod, horigin, abortedWith,
      Bool.false_eq_true, if_false, if_true, decide_True, Bool.not_true]
    split_ifs <;> simp [List.findSome?]
  · simp only [CORSNextWithConfig, corsHandler, hskip, hmethod, horigin, happ, ha, abortedWith,
      Bool.false_eq_true, if_false, if_true, decide_True, Bool.not_true]
    split_ifs <;> simp [List.findSome?, List.getLast?_append]

/-- C8, witness: an OPTIONS request from `https://x.com` against the wildcard policy. -/
theorem cors_preflight_approved_no_content_witness :
    (CORSNextWithConfig MatchSubdomain corsAnyOrigin
        (requestFrom "OPTIONS" "https://x.com")).getLast? = some (.AbortWithStatus 204) ∧
      abortedWith (CORSNextWithConfig MatchSubdomain corsAnyOrigin
        (requestFrom "OPTIONS" "https://x.com")) = some 204 ∧
      Effect.Next ∉ CORSNextWithConfig MatchSubdomain corsAnyOrigin
        (requestFrom "OPTIONS" "https://x.com") :=
  cors_preflight_approved_no_content MatchSubdomain corsAnyOrigin
    (requestFrom "OPTIONS" "https://x.com") rfl rfl "*" (by decide) (by decide)

/-! ## Extractors -/

/-- The header loop keeps nothing when no value carries the prefix. -/
theorem headerLoop_keeps_nothing (valuePrefix : String) (hp : len valuePrefix ≠ 0)
    (values : List String) (i : Nat) (result : List String)
    (hno : ∀ v ∈ values, EqualFold (sliceTo v (len valuePrefix)) valuePrefix = false) :
    headerLoop valuePrefix i values result = result := by
  induction values generalizing i with
  | nil => rfl
  | cons v rest ih =>
    have hv := hno v (List.mem_cons_self _ _)
    have hrest : ∀ v ∈ rest, EqualFold (sliceTo v (len valuePrefix)) valuePrefix = false :=
      fun x hx => hno x (List.mem_cons_of_mem _ hx)
    simp only [headerLoop, hp, if_false, hv, Bool.false_eq_true, and_false]
    exact ih _ hrest

/-- C9. For the header extractor on `Authorization` with prefix `Bearer `: a request whose
header is `Bearer ` followed by a non-empty token `t` (such as `Bearer abc`) yields the
candidate list `[t]`; a request whose header is present but has no value starting,
case-insensitively, with the prefix (such as `Basic abc`) yields
`ErrHeaderExtractorValueInvalid`; a request without the header yields
`ErrHeaderExtractorValueMissing`. -/
theorem header_extractor_bearer_token (c : Context) :
    (∀ t : String, t ≠ "" → c.Request.HeaderValues "Authorization" = ["Bearer " ++ t] →
        valuesFromHeader "Authorization" "Bearer " c = .ok [t]) ∧
      (c.Request.HeaderValues "Authorization" ≠ [] →
        (∀ v ∈ c.Request.HeaderValues "Authorization",
          EqualFold (sliceTo v (len "Bearer ")) "Bearer " = false) →
        valuesFromHeader "Authorization" "Bearer " c = .error .ErrHeaderExtractorValueInvalid) ∧
      (c.Request.HeaderValues "Authorization" = [] →
        valuesFromHeader "Authorization" "Bearer " c = .error .ErrHeaderExtractorValueMissing) := by
  have hk : CanonicalMIMEHeaderKey "Authorization" = "Authorization" := by decide
  have hl : len "Bearer " = 7 := by decide
  refine ⟨fun t ht hv => ?_, fun hne hno => ?_, fun hnil => ?_⟩
  · have htl : 0 < t.data.length := by
      rcases t with ⟨_ | ⟨x, xs⟩⟩
      · exact absurd rfl ht
      · simp
    have h1 : len ("Bearer " ++ t) > 7 := by
      simp only [len, String.data_append, List.length_append]
      have h7 : "Bearer ".data.length = 7 := by decide
      rw [h7]
      omega
    have h2 : sliceTo ("Bearer " ++ t) 7 = "Bearer " := by
      simp only [sliceTo, String.data_append]
      have : ("Bearer ".data ++ t.data).take 7 = "Bearer ".data :=
        List.take_left' (by decide)
      rw [this]
    have h3 : sliceFrom ("Bearer " ++ t) 7 = t := by
      simp only [sliceFrom, String.data_append]
      have : ("Bearer ".data ++ t.data).drop 7 = t.data :=
        List.drop_left' (by decide)
      rw [this]
    have h4 : EqualFold "Bearer " "Bearer " = true := by decide
    simp [valuesFromHeader, hk, hv, headerLoop, hl, h1, h2, h3, h4, extractorLimit]
  · have hloop := headerLoop_keeps_nothing "Bearer " (by decide)
      (c.Request.HeaderValues "Authorization") 0 [] hno
    have hlen : (c.Request.HeaderValues "Authorization").length ≠ 0 := by
      simpa [List.length_eq_zero] using hne
    simp [valuesFromHeader, hk, hlen, hloop, hl]
  · simp [valuesFromHeader, hk, hnil]

/-- C9, witness: the headers `Bearer abc` and `Basic abc`, and no header. -/
theorem header_extractor_bearer_token_witness :
    valuesFromHeader "Authorization" "Bearer "
        ⟨⟨"GET", [("Authorization", ["Bearer abc"])], [], [], [], []⟩, [], []⟩ = .ok ["abc"] ∧
      valuesFromHeader "Authorization" "Bearer "
        ⟨⟨"GET", [("Authorization", ["Basic abc"])], [], [], [], []⟩, [], []⟩ =
          .error .ErrHeaderExtractorValueInvalid ∧
      valuesFromHeader "Authorization" "Bearer " bareRequest =
        .error .ErrHeaderExtractorValueMissing :=
  ⟨(header_extractor_bearer_token _).1 "abc" (by decide) (by decide),
    (header_extractor_bearer_token _).2.1 (by decide) (by decide),
    (header_extractor_bearer_token _).2.2 (by decide)⟩

/-- On well-formed entries of known kinds the loop of `CreateExtractors` appends one
extractor per entry, in order. -/
theorem createLoop_wellFormed (authScheme : String) (sources : List String)
    (extractors : List ValuesExtractor)
    (hwf : ∀ source ∈ sources, 2 ≤ (stringsSplit source ':').length ∧
      (stringsSplit source ':').getD 0 "" ∈ [ExtractorMethodQuery, ExtractorMethodParam,
        ExtractorMethodCookie, ExtractorMethodForm, ExtractorMethodHeader]) :
    createLoop authScheme sources extractors =
      .ok (extractors ++ sources.map (extractorFor authScheme)) := by
  induction sources generalizing extractors with
  | nil => simp [createLoop]
  | cons source rest ih =>
    obtain ⟨hlen, hkind⟩ := hwf source (List.mem_cons_self _ _)
    have hrest : ∀ s ∈ rest, 2 ≤ (stringsSplit s ':').length ∧
        (stringsSplit s ':').getD 0 "" ∈ [ExtractorMethodQuery, ExtractorMethodParam,
          ExtractorMethodCookie, ExtractorMethodForm, ExtractorMethodHeader] :=
      fun s hs => hwf s (List.mem_cons_of_mem _ hs)
    have hnot : ¬ (stringsSplit source ':').length < 2 := by omega
    simp only [List.mem_cons, List.mem_singleton, List.not_mem_nil, or_false] at hkind
    simp only [createLoop, hnot, if_false, List.map_cons, extractorFor]
    generalize (stringsSplit source ':').getD 0 "" = kind at hkind ⊢
    rcases hkind with h | h | h | h | h <;> subst h <;>
      simp [ih _ hrest, ExtractorMethodQuery, ExtractorMethodParam,
        ExtractorMethodCookie, ExtractorMethodForm, ExtractorMethodHeader]

/-- C10. For every lookup string whose comma-separated entries each split on `:` into at
least two parts with the first in query, param, cookie, form, header, `CreateExtractors`
returns no error and a list with exactly one extractor per entry, the i-th extractor
being the extractor of the i-th entry's source kind on that entry's name. -/
theorem createExtractors_one_per_entry_in_order (lookups authScheme : String)
    (hwf : ∀ source ∈ stringsSplit lookups ',', 2 ≤ (stringsSplit source ':').length ∧
      (stringsSplit source ':').getD 0 "" ∈ [ExtractorMethodQuery, ExtractorMethodParam,
        ExtractorMethodCookie, ExtractorMethodForm, ExtractorMethodHeader]) :
    ∃ extractors, CreateExtractors lookups authScheme = .ok extractors ∧
      extractors.length = (stringsSplit lookups ',').length ∧
      ∀ (i : Nat) (source : String), (stringsSplit lookups ',')[i]? = some source →
        ∃ e, extractors[i]? = some e ∧
          ((stringsSplit source ':').getD 0 "" = "query" →
            e = valuesFromQuery ((stringsSplit source ':').getD 1 "")) ∧
          ((stringsSplit source ':').getD 0 "" = "param" →
            e = valuesFromParam ((stringsSplit source ':').getD 1 "")) ∧
          ((stringsSplit source ':').getD 0 "" = "cookie" →
            e = valuesFromCookie ((stringsSplit source ':').getD 1 "")) ∧
          ((stringsSplit source ':').getD 0 "" = "form" →
            e = valuesFromForm ((stringsSplit source ':').getD 1 "")) ∧
          ((stringsSplit source ':').getD 0 "" = "header" →
            e = valuesFromHeader ((stringsSplit source ':').getD 1 "")
              (headerPrefix (stringsSplit source ':') authScheme)) := by
  have hne : lookups ≠ "" := by
    intro h
    subst h
    have := (hwf "" (by decide)).1
    revert this
    decide
  refine ⟨(stringsSplit lookups ',').map (extractorFor authScheme), ?_, by simp, ?_⟩
  · simp [CreateExtractors, hne, createLoop_wellFormed authScheme _ [] hwf]
  · intro i source hi
    refine ⟨extractorFor authScheme source, by simp [List.getElem?_map, hi], ?_⟩
    simp only [extractorFor]
    generalize (stringsSplit source ':').getD 0 "" = kind
    refine ⟨fun h => ?_, fun h => ?_, fun h => ?_, fun h => ?_, fun h => ?_⟩ <;> subst h <;>
      simp [ExtractorMethodQuery, ExtractorMethodParam, ExtractorMethodCookie,
        ExtractorMethodForm]

/-- C10, witness: one entry per source kind. -/
theorem createExtractors_one_per_entry_in_order_witness :
    ∃ extractors,
      CreateExtractors "query:q,param:p,cookie:c,form:f,header:X-Key" "" = .ok extractors ∧
      extractors.length =
        (stringsSplit "query:q,param:p,cookie:c,form:f,header:X-Key" ',').length ∧
      ∀ (i : Nat) (source : String),
        (stringsSplit "query:q,param:p,cookie:c,form:f,header:X-Key" ',')[i]? = some source →
        ∃ e, extractors[i]? = some e ∧
          ((stringsSplit source ':').getD 0 "" = "query" →
            e = valuesFromQuery ((stringsSplit source ':').getD 1 "")) ∧
          ((stringsSplit source ':').getD 0 "" = "param" →
            e = valuesFromParam ((stringsSplit source ':').getD 1 "")) ∧
          ((stringsSplit source ':').getD 0 "" = "cookie" →
            e = valuesFromCookie ((stringsSplit source ':').getD 1 "")) ∧
          ((stringsSplit source ':').getD 0 "" = "form" →
            e = valuesFromForm ((stringsSplit source ':').getD 1 "")) ∧
          ((stringsSplit source ':').getD 0 "" = "header" →
            e = valuesFromHeader ((stringsSplit source ':').getD 1 "")
              (headerPrefix (stringsSplit source ':') "")) :=
  createExtractors_one_per_entry_in_order "query:q,param:p,cookie:c,form:f,header:X-Key" ""
    (by decide)

/-! ## The chain builder, entry by entry -/

/-- One round of the loop of `CreateExtractors` on an entry that splits into at least two
parts: an entry of a known kind contributes its extractor, any other entry nothing. -/
theorem createLoop_cons (authScheme source : String) (rest : List String)
    (acc : List ValuesExtractor) (h : 2 ≤ (stringsSplit source ':').length) :
    createLoop authScheme (source :: rest) acc =
      createLoop authScheme rest
        (acc ++ (if (stringsSplit source ':').getD 0 "" ∈ [ExtractorMethodQuery,
            ExtractorMethodParam, ExtractorMethodCookie, ExtractorMethodForm,
            ExtractorMethodHeader] then [extractorFor authScheme source] else [])) := by
  have hnot : ¬ (stringsSplit source ':').length < 2 := by omega
  simp only [createLoop, hnot, if_false, extractorFor]
  generalize (stringsSplit source ':').getD 0 "" = kind
  by_cases h1 : kind = "query"
  · subst h1; simp [ExtractorMethodQuery]
  by_cases h2 : kind = "param"
  · subst h2; simp [ExtractorMethodQuery, ExtractorMethodParam]
  by_cases h3 : kind = "cookie"
  · subst h3; simp [ExtractorMethodQuery, ExtractorMethodParam, ExtractorMethodCookie]
  by_cases h4 : kind = "form"
  · subst h4
    simp [ExtractorMethodQuery, ExtractorMethodParam, ExtractorMethodCookie,
      ExtractorMethodForm]
  by_cases h5 : kind = "header"
  · subst h5
    simp [ExtractorMethodQuery, ExtractorMethodParam, ExtractorMethodCookie,
      ExtractorMethodForm, ExtractorMethodHeader]
  · simp [ExtractorMethodQuery, ExtractorMethodParam, ExtractorMethodCookie,
      ExtractorMethodForm, ExtractorMethodHeader, h1, h2, h3, h4, h5]

/-- An entry that does not split into two parts ends the loop with the error naming it. -/
theorem createLoop_cons_malformed (authScheme source : String) (rest : List String)
    (acc : List ValuesExtractor) (h : (stringsSplit source ':').length < 2) :
    createLoop authScheme (source :: rest) acc =
      .error (.New ("extractor source for lookup could not be split into needed parts: "
        ++ source)) := by
  simp [createLoop, h]

/-- The loop fails exactly when some entry does not split into two parts. -/
theorem createLoop_error_iff (authScheme : String) (sources : List String)
    (acc : List ValuesExtractor) :
    (∃ err, createLoop authScheme sources acc = .error err) ↔
      ∃ source ∈ sources, (stringsSplit source ':').length < 2 := by
  induction sources generalizing acc with
  | nil => simp [createLoop]
  | cons source rest ih =>
    by_cases h : (stringsSplit source ':').length < 2
    · rw [createLoop_cons_malformed _ _ _ _ h]
      simp only [Except.error.injEq, exists_eq', List.mem_cons, exists_eq_or_imp, true_iff]
      exact Or.inl h
    · rw [createLoop_cons _ _ _ _ (by omega), ih]
      simp [h]

/-- The loop only appends to the extractors it starts from. -/
theorem createLoop_acc (authScheme : String) (sources : List String)
    (acc : List ValuesExtractor) :
    createLoop authScheme sources acc =
      match createLoop authScheme sources [] with
      | .ok ext => .ok (acc ++ ext)
      | .error e => .error e := by
  induction sources generalizing acc with
  | nil => simp [createLoop]
  | cons source rest ih =>
    by_cases h : (stringsSplit source ':').length < 2
    · simp [createLoop_cons_malformed _ _ _ _ h]
    · rw [createLoop_cons _ _ _ _ (by omega), createLoop_cons _ _ _ [] (by omega), ih,
        ih ([] ++ _)]
      cases createLoop authScheme rest [] <;> simp

/-- The loop over two lists of entries runs them one after the other. -/
theorem createLoop_append (authScheme : String) (a b : List String)
    (acc : List ValuesExtractor) :
    createLoop authScheme (a ++ b) acc =
      match createLoop authScheme a acc with
      | .ok acc2 => createLoop authScheme b acc2
      | .error e => .error e := by
  induction a generalizing acc with
  | nil => simp [createLoop]
  | cons source rest ih =>
    by_cases h : (stringsSplit source ':').length < 2
    · simp [createLoop_cons_malformed _ _ _ _ h]
    · rw [List.cons_append, createLoop_cons _ _ _ _ (by omega), createLoop_cons _ _ _ _ (by omega),
        ih]

/-- C11. For every non-empty lookup string, `CreateExtractors` returns an error if and only
if some comma-separated entry does not split on `:` into at least two parts; an error
result carries no extractor list. -/
theorem createExtractors_error_iff_malformed (lookups authScheme : String)
    (hne : lookups ≠ "") :
    ((∃ err, CreateExtractors lookups authScheme = .error err) ↔
        ∃ source ∈ stringsSplit lookups ',', (stringsSplit source ':').length < 2) ∧
      (∀ err, CreateExtractors lookups authScheme = .error err →
        ∀ extractors, CreateExtractors lookups authScheme ≠ .ok extractors) := by
  constructor
  · simp only [CreateExtractors, hne, if_false]
    exact createLoop_error_iff authScheme _ []
  · intro err herr extractors hok
    rw [herr] at hok
    cases hok

/-- C11, witness: the second entry of `query:q,cookie` has no name. -/
theorem createExtractors_error_iff_malformed_witness :
    (∃ err, CreateExtractors "query:q,cookie" "Bearer" = .error err) ∧
      ¬ ∃ err, CreateExtractors "query:q,cookie:c" "Bearer" = .error err := by
  constructor
  · exact (createExtractors_error_iff_malformed "query:q,cookie" "Bearer" (by decide)).1.mpr
      ⟨"cookie", by decide, by decide⟩
  · intro h
    obtain ⟨source, hmem, hlen⟩ :=
      (createExtractors_error_iff_malformed "query:q,cookie:c" "Bearer" (by decide)).1.mp h
    revert source
    decide

/-- Go `strings.HasSuffix(s, " ")` holds exactly when the last byte is a space. -/
theorem hasSuffixSpace_iff (s : String) : hasSuffixSpace s = true ↔ s.data.getLast? = some ' ' := by
  unfold hasSuffixSpace
  rw [List.getLast?_eq_head?_reverse]
  cases s.data.reverse with
  | nil => simp
  | cons c cs => simp

/-- With an empty prefix the header loop keeps the values whole, up to the limit. -/
theorem headerLoop_empty (values : List String) (i : Nat) (result : List String)
    (hi : i ≤ extractorLimit - 1) :
    headerLoop "" i values result = result ++ values.take (extractorLimit - i) := by
  have hl : len "" = 0 := rfl
  induction values generalizing i result with
  | nil => simp [headerLoop]
  | cons v rest ih =>
    simp only [headerLoop, hl, if_true]
    by_cases h : i ≥ extractorLimit - 1
    · have : extractorLimit - i = 1 := by simp only [extractorLimit] at *; omega
      simp [h, this]
    · have hi2 : i + 1 ≤ extractorLimit - 1 := by simp only [extractorLimit] at *; omega
      have hk : extractorLimit - i = (extractorLimit - (i + 1)) + 1 := by
        simp only [extractorLimit] at *; omega
      simp only [h, if_false, ih _ _ hi2]
      rw [hk, List.take_succ_cons]
      simp

/-- C12. For every header entry of a lookup string that `CreateExtractors` accepts, the
extractor built for it (placed after those of the earlier entries) is the header
extractor on the entry's name with this prefix: the third colon-separated segment
verbatim when the entry has one; otherwise, when the auth scheme is non-empty and the
name is `Authorization`, the auth scheme itself if it ends in a space and the auth scheme
followed by one space if it does not; otherwise the empty prefix, with which every value
is returned whole. -/
theorem header_entry_gets_its_prefix (lookups authScheme : String)
    (extractors : List ValuesExtractor)
    (hok : CreateExtractors lookups authScheme = .ok extractors)
    (pre post : List String) (source : String)
    (hsplit : stringsSplit lookups ',' = pre ++ source :: post)
    (hkind : (stringsSplit source ':').getD 0 "" = "header") :
    (∃ epre epost p,
        createLoop authScheme pre [] = .ok epre ∧ createLoop authScheme post [] = .ok epost ∧
        extractors = epre ++ valuesFromHeader ((stringsSplit source ':').getD 1 "") p :: epost ∧
        (3 ≤ (stringsSplit source ':').length → p = (stringsSplit source ':').getD 2 "") ∧
        ((stringsSplit source ':').length < 3 → authScheme ≠ "" →
          (stringsSplit source ':').getD 1 "" = "Authorization" →
            (authScheme.data.getLast? = some ' ' → p = authScheme) ∧
            (authScheme.data.getLast? ≠ some ' ' → p = authScheme ++ " ")) ∧
        ((stringsSplit source ':').length < 3 →
          (authScheme = "" ∨ (stringsSplit source ':').getD 1 "" ≠ "Authorization") → p = "")) ∧
      (∀ (header : String) (c : Context),
        c.Request.HeaderValues (CanonicalMIMEHeaderKey header) ≠ [] →
        valuesFromHeader header "" c =
          .ok ((c.Request.HeaderValues (CanonicalMIMEHeaderKey header)).take extractorLimit)) := by
  constructor
  · have hne : lookups ≠ "" := by
      intro h
      subst h
      have h0 : stringsSplit "" ',' = [""] := by decide
      rw [h0] at hsplit
      cases pre with
      | nil =>
        simp only [List.nil_append, List.cons.injEq] at hsplit
        rw [← hsplit.1] at hkind
        revert hkind
        decide
      | cons a as =>
        have := congrArg List.length hsplit
        simp at this
    simp only [CreateExtractors, hne, if_false, hsplit] at hok
    rw [createLoop_append] at hok
    cases hpre : createLoop authScheme pre [] with
    | error e => simp [hpre] at hok
    | ok epre =>
      simp only [hpre] at hok
      have hlen : 2 ≤ (stringsSplit source ':').length := by
        by_contra hc
        rw [createLoop_cons_malformed _ _ _ _ (by omega)] at hok
        cases hok
      have hmem : (stringsSplit source ':').getD 0 "" ∈ [ExtractorMethodQuery,
          ExtractorMethodParam, ExtractorMethodCookie, ExtractorMethodForm,
          ExtractorMethodHeader] := by
        rw [hkind]; decide
      rw [createLoop_cons _ _ _ _ hlen, if_pos hmem, createLoop_acc] at hok
      cases hpost : createLoop authScheme post [] with
      | error e => simp [hpost] at hok
      | ok epost =>
        simp only [hpost, Except.ok.injEq] at hok
        have hx : extractorFor authScheme source =
            valuesFromHeader ((stringsSplit source ':').getD 1 "")
              (headerPrefix (stringsSplit source ':') authScheme) := by
          simp only [extractorFor]
          generalize (stringsSplit source ':').getD 0 "" = kind at hkind
          subst hkind
          simp [ExtractorMethodQuery, ExtractorMethodParam, ExtractorMethodCookie,
            ExtractorMethodForm]
        refine ⟨epre, epost, headerPrefix (stringsSplit source ':') authScheme, rfl, rfl, ?_,
          ?_, ?_, ?_⟩
        · rw [← hok, ← hx]; simp
        · intro h3
          have : (stringsSplit source ':').length > 2 := by omega
          simp only [headerPrefix, this, if_true]
        · intro h3 hs hn
          have : ¬ (stringsSplit source ':').length > 2 := by omega
          have hn2 : (stringsSplit source ':').getD 1 "" = HeaderAuthorization := hn
          constructor
          · intro hsp
            have := (hasSuffixSpace_iff authScheme).mpr hsp
            simp only [headerPrefix, ‹¬ (stringsSplit source ':').length > 2›, if_false, hs,
              hn2, ne_eq, not_false_eq_true, and_self, if_true, this]
          · intro hsp
            have : hasSuffixSpace authScheme = false := by
              cases hb : hasSuffixSpace authScheme
              · rfl
              · exact absurd ((hasSuffixSpace_iff authScheme).mp hb) hsp
            simp only [headerPrefix, ‹¬ (stringsSplit source ':').length > 2›, if_false, hs,
              hn2, ne_eq, not_false_eq_true, and_self, if_true, this, Bool.false_eq_true]
        · intro h3 hcase
          have : ¬ (stringsSplit source ':').length > 2 := by omega
          have hcond : ¬ (authScheme ≠ "" ∧
              (stringsSplit source ':').getD 1 "" = HeaderAuthorization) := by
            rintro ⟨h1, h2⟩
            rcases hcase with h | h
            · exact h1 h
            · exact h h2
          simp only [headerPrefix, this, if_false, hcond]
  · intro header c hne
    have hlen : (c.Request.HeaderValues (CanonicalMIMEHeaderKey header)).length ≠ 0 := by
      simpa [List.length_eq_zero] using hne
    have hl : len "" = 0 := rfl
    have hloop := headerLoop_empty (c.Request.HeaderValues (CanonicalMIMEHeaderKey header)) 0 []
      (by decide)
    simp only [List.nil_append, Nat.sub_zero] at hloop
    have htake : ((c.Request.HeaderValues (CanonicalMIMEHeaderKey header)).take
        extractorLimit).length ≠ 0 := by
      rw [List.length_take]
      simp only [extractorLimit]
      omega
    simp only [valuesFromHeader, hlen, if_false, hloop, htake]

/-- C12, witness: with scheme `Bearer` the entry `header:Authorization` of the lookup
`query:q,header:Authorization` gets the prefix `Bearer` followed by one space. -/
theorem header_entry_gets_its_prefix_witness :
    CreateExtractors "query:q,header:Authorization" "Bearer" =
        .ok [valuesFromQuery "q", valuesFromHeader "Authorization" "Bearer "] ∧
      ∃ epre epost, [valuesFromQuery "q", valuesFromHeader "Authorization" "Bearer "] =
        epre ++ valuesFromHeader "Authorization" ("Bearer" ++ " ") :: epost := by
  obtain ⟨⟨epre, epost, p, _, _, hx, _, h2, _⟩, _⟩ :=
    header_entry_gets_its_prefix "query:q,header:Authorization" "Bearer"
      [valuesFromQuery "q", valuesFromHeader "Authorization" "Bearer "] rfl
      ["query:q"] [] "header:Authorization" (by decide) (by decide)
  have hp := (h2 (by decide) (by decide) (by decide)).2 (by decide)
  subst hp
  exact ⟨rfl, epre, epost, hx⟩

/-! ## The candidate limit -/

/-- The header loop never holds more than the limit. -/
theorem headerLoop_length (valuePrefix : String) (values : List String) (i : Nat)
    (result : List String) (h1 : result.length ≤ i) (h2 : result.length ≤ extractorLimit - 1) :
    (headerLoop valuePrefix i values result).length ≤ extractorLimit := by
  induction values generalizing i result with
  | nil =>
    simp only [headerLoop]
    simp only [extractorLimit] at *
    omega
  | cons v rest ih =>
    simp only [headerLoop]
    have happ : ∀ x : String, ¬ i ≥ extractorLimit - 1 →
        (result ++ [x]).length ≤ i + 1 ∧ (result ++ [x]).length ≤ extractorLimit - 1 := by
      intro x hx
      simp only [List.length_append, List.length_singleton]
      simp only [extractorLimit] at *
      omega
    have hbrk : ∀ x : String, (result ++ [x]).length ≤ extractorLimit := by
      intro x
      simp only [List.length_append, List.length_singleton]
      simp only [extractorLimit] at *
      omega
    split_ifs with ha hb hc hd
    · exact hbrk _
    · exact ih _ _ (happ _ hb).1 (happ _ hb).2
    · exact hbrk _
    · exact ih _ _ (happ _ hd).1 (happ _ hd).2
    · exact ih _ _ (by omega) h2

/-- The cookie loop never holds more than the limit. -/
theorem cookieLoop_length (name : String) (cookies : List (String × String)) (i : Nat)
    (result : List String) (h1 : result.length ≤ i) (h2 : result.length ≤ extractorLimit - 1) :
    (cookieLoop name i cookies result).length ≤ extractorLimit := by
  induction cookies generalizing i result with
  | nil =>
    simp only [cookieLoop]
    simp only [extractorLimit] at *
    omega
  | cons ck rest ih =>
    simp only [cookieLoop]
    split_ifs with ha hb
    · simp only [List.length_append, List.length_singleton]
      simp only [extractorLimit] at *
      omega
    · apply ih
      · simp only [List.length_append, List.length_singleton]; omega
      · simp only [List.length_append, List.length_singleton]
        simp only [extractorLimit] at *
        omega
    · exact ih _ _ (by omega) h2

/-- A list cut at the limit when it has more than `extractorLimit - 1` values is within
the limit. -/
theorem capped_length (values : List String) (h0 : ¬ values.length = 0) :
    (∀ vals, (if values.length > extractorLimit - 1 then
          (Except.ok (values.take extractorLimit) : Except Error (List String))
        else .ok values) = .ok vals →
      1 ≤ vals.length ∧ vals.length ≤ extractorLimit) := by
  intro vals h
  split_ifs at h with hc
  · cases h
    rw [List.length_take]
    simp only [extractorLimit] at *
    omega
  · cases h
    simp only [extractorLimit] at *
    omega

theorem valuesFromHeader_withinLimit (header valuePrefix : String) :
    withinLimit (valuesFromHeader header valuePrefix) := by
  intro c vals h
  simp only [valuesFromHeader] at h
  split_ifs at h with h1 h2 h3
  cases h
  exact ⟨by omega, headerLoop_length _ _ 0 [] (by simp) (by simp)⟩

theorem valuesFromCookie_withinLimit (name : String) : withinLimit (valuesFromCookie name) := by
  intro c vals h
  simp only [valuesFromCookie] at h
  split_ifs at h with h1 h2
  cases h
  exact ⟨by omega, cookieLoop_length _ _ 0 [] (by simp) (by simp)⟩

theorem valuesFromQuery_withinLimit (param : String) : withinLimit (valuesFromQuery param) := by
  intro c vals h
  simp only [valuesFromQuery] at h
  by_cases h0 : (c.QueryArray param).length = 0
  · simp [h0] at h
  · simp only [h0, if_false] at h
    exact capped_length _ h0 vals h

theorem valuesFromParam_withinLimit (param : String) : withinLimit (valuesFromParam param) := by
  intro c vals h
  simp only [valuesFromParam] at h
  by_cases h0 : (c.PostFormArray param).length = 0
  · simp [h0] at h
  · simp only [h0, if_false] at h
    exact capped_length _ h0 vals h

theorem valuesFromForm_withinLimit (name : String) : withinLimit (valuesFromForm name) := by
  intro c vals h
  simp only [valuesFromForm] at h
  by_cases h0 : (c.Request.Form.at name).length = 0
  · simp [h0] at h
  · simp only [h0, if_false] at h
    exact capped_length _ h0 vals h

theorem extractorFor_withinLimit (authScheme source : String) :
    withinLimit (extractorFor authScheme source) := by
  unfold extractorFor
  simp only
  split_ifs
  · exact valuesFromQuery_withinLimit _
  · exact valuesFromParam_withinLimit _
  · exact valuesFromCookie_withinLimit _
  · exact valuesFromForm_withinLimit _
  · exact valuesFromHeader_withinLimit _ _

/-- Every extractor the loop of `CreateExtractors` adds is within the limit. -/
theorem createLoop_withinLimit (authScheme : String) (sources : List String)
    (acc extractors : List ValuesExtractor) (hacc : ∀ e ∈ acc, withinLimit e)
    (hok : createLoop authScheme sources acc = .ok extractors) :
    ∀ e ∈ extractors, withinLimit e := by
  induction sources generalizing acc with
  | nil =>
    simp only [createLoop, Except.ok.injEq] at hok
    subst hok
    exact hacc
  | cons source rest ih =>
    by_cases h : (stringsSplit source ':').length < 2
    · rw [createLoop_cons_malformed _ _ _ _ h] at hok
      cases hok
    · rw [createLoop_cons _ _ _ _ (by omega)] at hok
      refine ih _ ?_ hok
      intro e he
      rcases List.mem_append.mp he with he | he
      · exact hacc e he
      · split_ifs at he
        · simp only [List.mem_singleton] at he
          subst he
          exact extractorFor_withinLimit _ _
        · simp at he

/-- C13. For every extractor kind (header with any prefix, query, param, cookie, form), and
so for every extractor that `CreateExtractors` builds, and for every request, a
successful extraction returns at least 1 and at most 20 candidate values. -/
theorem extraction_returns_one_to_twenty :
    extractorLimit = 20 ∧
      (∀ header valuePrefix, withinLimit (valuesFromHeader header valuePrefix)) ∧
      (∀ param, withinLimit (valuesFromQuery param)) ∧
      (∀ param, withinLimit (valuesFromParam param)) ∧
      (∀ name, withinLimit (valuesFromCookie name)) ∧
      (∀ name, withinLimit (valuesFromForm name)) ∧
      (∀ lookups authScheme extractors,
        CreateExtractors lookups authScheme = .ok extractors →
          ∀ e ∈ extractors, ∀ c vals, e c = .ok vals →
            1 ≤ vals.length ∧ vals.length ≤ 20) := by
  refine ⟨rfl, valuesFromHeader_withinLimit, valuesFromQuery_withinLimit,
    valuesFromParam_withinLimit, valuesFromCookie_withinLimit, valuesFromForm_withinLimit, ?_⟩
  intro lookups authScheme extractors hok e he c vals hv
  by_cases hne : lookups = ""
  · simp only [CreateExtractors, hne, if_true, Except.ok.injEq] at hok
    subst hok
    simp at he
  · simp only [CreateExtractors, hne, if_false] at hok
    exact createLoop_withinLimit authScheme _ [] extractors (by simp) hok e he c vals hv

/-- C13, witness: of 25 values in each location every extractor returns 20. -/
theorem extraction_returns_one_to_twenty_witness :
    (CreateExtractors "header:k,query:k,param:k,cookie:k,form:k" "").map
        (fun es => es.map (fun e => (e twentyFiveValues).map List.length)) =
          .ok [.ok 20, .ok 20, .ok 20, .ok 20, .ok 20] ∧
      1 ≤ (List.replicate 20 "v").length ∧ (List.replicate 20 "v").length ≤ 20 :=
  ⟨by decide,
    extraction_returns_one_to_twenty.2.2.2.2.2.2 "query:k" ""
      [valuesFromQuery "k"] rfl (valuesFromQuery "k") (by simp) twentyFiveValues
      (List.replicate 20 "v") (by decide)⟩

/-! ## The param extractor -/

/-- C14. The extractor built for the entry `param:id` reads the post-form values of the
request, not its path parameters: with the path parameter `id` bound to `42` and no
form value it returns `ErrParamExtractorValueMissing`, and with no path parameter and
the posted form field `id=evil` it returns `evil`; its result is the same for any two
requests with the same post form. -/
theorem param_extractor_reads_post_form :
    CreateExtractors "param:id" "" = .ok [valuesFromParam "id"] ∧
      pathParamOnly.ParamValues "id" = ["42"] ∧
      valuesFromParam "id" pathParamOnly = .error .ErrParamExtractorValueMissing ∧
      postFormOnly.ParamValues "id" = [] ∧
      valuesFromParam "id" postFormOnly = .ok ["evil"] ∧
      (∀ (name : String) (c1 c2 : Context), c1.Request.PostForm = c2.Request.PostForm →
        valuesFromParam name c1 = valuesFromParam name c2) := by
  refine ⟨rfl, by decide, by decide, by decide, by decide, ?_⟩
  intro name c1 c2 h
  simp [valuesFromParam, Context.PostFormArray, h]

/-! ## JWT: which error is surfaced, and acceptance -/

/-- C15. With lookups header, then query, a request whose `Authorization` header carries a
token that ParseTokenFunc rejects and whose query carries no token is answered through
the ErrorHandler with `ErrJWTMissing` and status 400, not with `ErrJWTInvalid` and 401;
the key-auth handler on the same chain and request passes the validator error. -/
theorem jwt_missing_surfaced_over_invalid :
    serve (NextWithConfig rejectEveryToken jwtHeaderThenQuery)
        (requestWithAuthorization "Bearer bad") =
          some [.ErrorHandler (.HTTPError 400 "missing or malformed jwt") [400]] ∧
      ErrJWTInvalid = .HTTPError 401 "invalid or expired jwt" ∧
      keyAuthHandler DefaultSkipper onlyValidKey
          [valuesFromHeader "Authorization" "Bearer ", valuesFromQuery "token"]
          (requestWithAuthorization "Bearer bad") =
        [.ErrorHandler (.New "invalid key") []] := by
  refine ⟨by decide, by decide, by decide⟩

theorem firstParsed_append (parse : ParseTokenFunc) (c : Context) (a b : List String) :
    firstParsed parse c (a ++ b) =
      match firstParsed parse c a with
      | some token => some token
      | none => firstParsed parse c b := by
  induction a with
  | nil => rfl
  | cons auth rest ih =>
    simp only [List.cons_append, firstParsed]
    cases parse auth c with
    | error e => simpa using ih
    | ok token => rfl

/-- The candidate loop returns the token of the first candidate that parses. -/
theorem jwtAuths_first (parse : ParseTokenFunc) (c : Context) (auths : List String)
    (lt : Option Error) :
    match firstParsed parse c auths with
    | some token => jwtAuths parse c auths lt = .inl token
    | none => ∃ lt2, jwtAuths parse c auths lt = .inr lt2 := by
  induction auths generalizing lt with
  | nil => exact ⟨lt, rfl⟩
  | cons auth rest ih =>
    simp only [firstParsed, jwtAuths]
    cases parse auth c with
    | error e => exact ih (some e)
    | ok token => rfl

/-- The extractor loop returns the token of the first candidate, in extractor order and
then candidate order, that parses. -/
theorem jwtExtractors_first (parse : ParseTokenFunc) (c : Context)
    (extractors : List ValuesExtractor) (le lt : Option Error) (token : Value)
    (h : firstParsed parse c (candidatesOf c extractors) = some token) :
    jwtExtractors parse c extractors le lt = .inl token := by
  induction extractors generalizing le lt with
  | nil => simp [candidatesOf, firstParsed] at h
  | cons extractor rest ih =>
    simp only [candidatesOf] at h
    cases he : extractor c with
    | error e =>
      simp only [he, List.nil_append] at h
      simp only [jwtExtractors, he]
      exact ih _ _ h
    | ok auths =>
      simp only [he, firstParsed_append] at h
      have ha := jwtAuths_first parse c auths lt
      simp only [jwtExtractors, he]
      cases hf : firstParsed parse c auths with
      | some t2 =>
        simp only [hf] at h ha
        cases h
        simp [ha]
      | none =>
        simp only [hf] at h ha
        obtain ⟨lt2, hlt2⟩ := ha
        simp only [hlt2]
        exact ih _ _ h

/-- C18. In the JWT middleware built by `NextWithConfig`, for a non-skipped request, when
ParseTokenFunc succeeds for some candidate, the run is exactly: the store of the token
of the first such candidate (in extractor order, then candidate order) under the
configured ContextKey (`user` when left empty), then one call of the SuccessHandler if
one is configured, then the call of the next handler; the ErrorHandler is not invoked. -/
theorem jwt_first_parsed_token_stored (defaultParseToken : ParseTokenFunc) (config : JWTConfig)
    (h : HandlerFunc) (hbuilt : NextWithConfig defaultParseToken config = .ok h) (c : Context)
    (hskip : (config.Skipper.getD DefaultSkipper) c = false) :
    ∃ extractors,
      CreateExtractors
          (if config.TokenLookup = "" then ExtractorMethodHeader ++ ":" ++ HeaderAuthorization
            else config.TokenLookup)
          (if config.AuthScheme = "" then "Bearer" else config.AuthScheme) = .ok extractors ∧
      ∀ token,
        firstParsed (config.ParseTokenFunc.getD defaultParseToken) c
            (candidatesOf c extractors) = some token →
          h c = [.Set (if config.ContextKey = "" then "user" else config.ContextKey) token] ++
            (if config.SuccessHandler then [.SuccessHandler] else []) ++ [.Next] := by
  unfold NextWithConfig at hbuilt
  simp only at hbuilt
  by_cases hp : config.SigningKey = none ∧ config.SigningKeys.length = 0 ∧
      config.HasKeyFunc = false ∧ config.ParseTokenFunc.isNone
  · rw [if_pos hp] at hbuilt
    cases hbuilt
  rw [if_neg hp] at hbuilt
  cases hc : CreateExtractors
      (if config.TokenLookup = "" then ExtractorMethodHeader ++ ":" ++ HeaderAuthorization
        else config.TokenLookup)
      (if config.AuthScheme = "" then "Bearer" else config.AuthScheme) with
  | error e => simp [hc] at hbuilt
  | ok extractors =>
    simp only [hc, Except.ok.injEq] at hbuilt
    subst hbuilt
    refine ⟨extractors, rfl, fun token ht => ?_⟩
    simp only [jwtHandler, hskip, Bool.false_eq_true, if_false,
      jwtExtractors_first _ c extractors none none token ht]

/-- C18, witness: the header token and the first query token are rejected, the second
query token parses; its token is stored under `user`, then the success handler and the
next handler run. -/
theorem jwt_first_parsed_token_stored_witness :
    serve (NextWithConfig rejectEveryToken jwtWithSuccessHandler) goodTokenInQuery =
      some [.Set "user" (.obj 7), .SuccessHandler, .Next] := by
  obtain ⟨extractors, hc, hrun⟩ :=
    jwt_first_parsed_token_stored rejectEveryToken jwtWithSuccessHandler
      (jwtHandler DefaultSkipper true "user" onlyGoodToken
        [valuesFromHeader "Authorization" "Bearer ", valuesFromQuery "token"]) rfl
      goodTokenInQuery rfl
  have hc2 : extractors =
      [valuesFromHeader "Authorization" "Bearer ", valuesFromQuery "token"] := by
    have : (Except.ok [valuesFromHeader "Authorization" "Bearer ", valuesFromQuery "token"] :
      Except Error (List ValuesExtractor)) = .ok extractors := hc
    exact (Except.ok.inj this).symm
  subst hc2
  have := hrun (.obj 7) (by decide)
  simp only [serve, NextWithConfig]
  exact congrArg some this

/-! ## Key-auth: the error handed to the ErrorHandler -/

/-- When the key loop accepts no key, `lastValidatorErr` is unchanged for an empty list and
otherwise the error recorded for one of the keys. -/
theorem keyAuthKeys_rejected (V : KeyAuthValidator) (c : Context) (keys : List String)
    (lv lv2 : Option Error) (h : keyAuthKeys V c keys lv = (false, lv2)) :
    (keys = [] ∧ lv2 = lv) ∨ ∃ verr, lv2 = some verr ∧ ∃ k ∈ keys, validatorErrFor V c k verr := by
  induction keys generalizing lv with
  | nil =>
    simp only [keyAuthKeys, Prod.mk.injEq, true_and] at h
    exact Or.inl ⟨rfl, h.symm⟩
  | cons key keys ih =>
    right
    rcases hv : V key c with ⟨valid, _ | err⟩
    · cases valid
      · simp only [keyAuthKeys, hv] at h
        rcases ih _ h with ⟨hk, hl⟩ | ⟨verr, hl, k, hk, hp⟩
        · exact ⟨.New "invalid key", hl, key, List.mem_cons_self _ _, Or.inr ⟨hv, rfl⟩⟩
        · exact ⟨verr, hl, k, List.mem_cons_of_mem _ hk, hp⟩
      · simp [keyAuthKeys, hv] at h
    · simp only [keyAuthKeys, hv] at h
      rcases ih _ h with ⟨hk, hl⟩ | ⟨verr, hl, k, hk, hp⟩
      · exact ⟨err, hl, key, List.mem_cons_self _ _, Or.inl ⟨valid, hv⟩⟩
      · exact ⟨verr, hl, k, List.mem_cons_of_mem _ hk, hp⟩

/-- When the extractor loop accepts no key, `lastValidatorErr` is unchanged if no extractor
yielded a key, and otherwise the error recorded for one of the keys. -/
theorem keyAuthExtractors_rejected (V : KeyAuthValidator) (c : Context)
    (extractors : List ValuesExtractor) (le lv le2 lv2 : Option Error)
    (h : keyAuthExtractors V c extractors le lv = some (le2, lv2)) :
    ((∀ e ∈ extractors, ∀ keys, e c = .ok keys → keys = []) ∧ lv2 = lv) ∨
      ∃ verr, lv2 = some verr ∧
        ∃ e ∈ extractors, ∃ keys, e c = .ok keys ∧ ∃ k ∈ keys, validatorErrFor V c k verr := by
  induction extractors generalizing le lv with
  | nil =>
    simp only [keyAuthExtractors, Option.some.injEq, Prod.mk.injEq] at h
    exact Or.inl ⟨by simp, h.2.symm⟩
  | cons extractor rest ih =>
    cases he : extractor c with
    | error err =>
      simp only [keyAuthExtractors, he] at h
      rcases ih _ _ h with ⟨hall, hl⟩ | ⟨verr, hl, e, hm, keys, hk, hp⟩
      · left
        refine ⟨?_, hl⟩
        intro e hm keys hk
        rcases List.mem_cons.mp hm with rfl | hm
        · rw [he] at hk; cases hk
        · exact hall e hm keys hk
      · exact Or.inr ⟨verr, hl, e, List.mem_cons_of_mem _ hm, keys, hk, hp⟩
    | ok keys =>
      rcases hr : keyAuthKeys V c keys lv with ⟨acc, lv1⟩
      cases acc
      · simp only [keyAuthExtractors, he, hr] at h
        rcases ih _ _ h with ⟨hall, hl⟩ | ⟨verr, hl, e, hm, keys2, hk, hp⟩
        · rcases keyAuthKeys_rejected V c keys lv lv1 hr with ⟨hk0, hl1⟩ | ⟨verr, hl1, k, hk, hp⟩
          · left
            refine ⟨?_, by rw [hl, hl1]⟩
            intro e hm keys2 hk
            rcases List.mem_cons.mp hm with rfl | hm
            · rw [he] at hk
              cases hk
              exact hk0
            · exact hall e hm keys2 hk
          · exact Or.inr ⟨verr, by rw [hl, hl1], extractor, List.mem_cons_self _ _, keys, he, k,
              hk, hp⟩
        · exact Or.inr ⟨verr, hl, e, List.mem_cons_of_mem _ hm, keys2, hk, hp⟩
      · simp [keyAuthExtractors, he, hr] at h

/-- When every extractor fails, the loop ends with the error of the last extractor and
`lastValidatorErr` unchanged. -/
theorem keyAuthExtractors_all_fail (V : KeyAuthValidator) (c : Context)
    (init : List ValuesExtractor) (last : ValuesExtractor) (err : Error)
    (le lv : Option Error) (hfail : ∀ e ∈ init, ∃ err2, e c = .error err2)
    (hlast : last c = .error err) :
    keyAuthExtractors V c (init ++ [last]) le lv = some (some err, lv) := by
  induction init generalizing le with
  | nil => simp [keyAuthExtractors, hlast]
  | cons e init ih =>
    obtain ⟨err2, he⟩ := hfail e (List.mem_cons_self _ _)
    simp only [List.cons_append, keyAuthExtractors, he]
    exact ih _ (fun x hx => hfail x (List.mem_cons_of_mem _ hx))

/-- C16. In the KeyAuth middleware, for a non-skipped request: when every extractor of the
(non-empty) chain fails, the ErrorHandler receives an `ErrKeyAuthMissing` error built
from the error of the last extractor, with the message table of the source (a missing
query value gives `missing key in the query string`, and so on); when no key is
accepted and the validator was called on some key, the ErrorHandler receives instead a
validator error: the error the validator returned for a key, or `invalid key` for a
key it rejected without error. -/
theorem keyAuth_error_handed_over (config : KeyAuthConfig) (V : KeyAuthValidator)
    (extractors : List ValuesExtractor) (hv : config.Validator = some V)
    (hext : CreateExtractors
      (if config.KeyLookup = "" then ExtractorMethodHeader ++ ":" ++ HeaderAuthorization
        else config.KeyLookup)
      (if config.AuthScheme = "" then "Bearer" else config.AuthScheme) = .ok extractors)
    (c : Context) (hskip : (config.Skipper.getD DefaultSkipper) c = false) :
    (∀ init last err, extractors = init ++ [last] →
        (∀ e ∈ init, ∃ err2, e c = .error err2) → last c = .error err →
        serve (KeyAuthNextWithConfig config) c =
          some [.ErrorHandler (keyAuthMissingErr (some err)) []]) ∧
      ((∀ e ∈ extractors, ∀ keys, e c = .ok keys → ∀ k ∈ keys, V k c ≠ (true, none)) →
        (∃ e ∈ extractors, ∃ keys, e c = .ok keys ∧ keys ≠ []) →
        ∃ verr, serve (KeyAuthNextWithConfig config) c = some [.ErrorHandler verr []] ∧
          ∃ e ∈ extractors, ∃ keys, e c = .ok keys ∧
            ∃ k ∈ keys, validatorErrFor V c k verr) ∧
      (keyAuthMissingErr (some .ErrQueryExtractorValueMissing) =
          .KeyAuthMissing (.New "missing key in the query string") ∧
        keyAuthMissingErr (some .ErrCookieExtractorValueMissing) =
          .KeyAuthMissing (.New "missing key in cookies") ∧
        keyAuthMissingErr (some .ErrFormExtractorValueMissing) =
          .KeyAuthMissing (.New "missing key in the form") ∧
        keyAuthMissingErr (some .ErrHeaderExtractorValueMissing) =
          .KeyAuthMissing (.New "missing key in request header") ∧
        keyAuthMissingErr (some .ErrHeaderExtractorValueInvalid) =
          .KeyAuthMissing (.New "invalid key in the request header") ∧
        keyAuthMissingErr (some .ErrParamExtractorValueMissing) =
          .KeyAuthMissing .ErrParamExtractorValueMissing) := by
  have hserve : serve (KeyAuthNextWithConfig config) c =
      some (keyAuthHandler (config.Skipper.getD DefaultSkipper) V extractors c) := by
    simp only [KeyAuthNextWithConfig, hv, hext, serve]
  refine ⟨?_, ?_, by decide⟩
  · intro init last err hsplit hfail hlast
    rw [hserve, hsplit]
    simp only [keyAuthHandler, hskip, Bool.false_eq_true, if_false,
      keyAuthExtractors_all_fail V c init last err none none hfail hlast]
  · intro hno hsome
    rw [hserve]
    have hnone : keyAuthExtractors V c extractors none none ≠ none := by
      intro hacc
      obtain ⟨e, he, keys, hk, k, hkm, hvk⟩ :=
        (keyAuthExtractors_accepts_iff V c extractors none none).mp hacc
      exact hno e he keys hk k hkm hvk
    cases hr : keyAuthExtractors V c extractors none none with
    | none => exact absurd hr hnone
    | some p =>
      obtain ⟨le2, lv2⟩ := p
      rcases keyAuthExtractors_rejected V c extractors none none le2 lv2 hr with
        ⟨hall, _⟩ | ⟨verr, hl, hprov⟩
      · obtain ⟨e, he, keys, hk, hne⟩ := hsome
        exact absurd (hall e he keys hk) hne
      · subst hl
        refine ⟨verr, ?_, hprov⟩
        simp only [keyAuthHandler, hskip, Bool.false_eq_true, if_false, hr]

/-- C16, witness: lookups header, cookie, query and a request carrying the key nowhere. -/
theorem keyAuth_error_handed_over_witness :
    serve (KeyAuthNextWithConfig keyAuthThreeSources) bareRequest =
        some [.ErrorHandler (.KeyAuthMissing (.New "missing key in the query string")) []] ∧
      (Error.KeyAuthMissing (.New "missing key in the query string")).text =
        "missing key in the query string" := by
  have h := (keyAuth_error_handed_over keyAuthThreeSources onlyValidKey
    [valuesFromHeader "Authorization" "Bearer ", valuesFromCookie "key", valuesFromQuery "key"]
    rfl rfl bareRequest rfl).1
    [valuesFromHeader "Authorization" "Bearer ", valuesFromCookie "key"]
    (valuesFromQuery "key") .ErrQueryExtractorValueMissing rfl
    (by
      intro e he
      simp only [List.mem_cons, List.mem_singleton, List.not_mem_nil, or_false] at he
      rcases he with rfl | rfl
      · exact ⟨.ErrHeaderExtractorValueMissing, by decide⟩
      · exact ⟨.ErrCookieExtractorValueMissing, by decide⟩)
    (by decide)
  exact ⟨h, by decide⟩

/-- C17. The middleware returned by `KeyAuthNext(fn)`, with the default error handler and
no validation translator registered, answers a request whose key the validator rejects
with status 500, and a request that carries no key with status 500: the handler passes
no status code to the error handler, and `JsonError` then keeps its default
`http.StatusInternalServerError`. -/
theorem keyAuthNext_answers_500 :
    serve (KeyAuthNext onlyValidKey) (requestWithAuthorization "Bearer wrong") =
        some [.ErrorHandler (.New "invalid key") []] ∧
      (defaultAnswer none [.ErrorHandler (.New "invalid key") []]).map Answer.Status =
        some 500 ∧
      serve (KeyAuthNext onlyValidKey) bareRequest =
        some [.ErrorHandler (.KeyAuthMissing (.New "missing key in request header")) []] ∧
      (defaultAnswer none
        [.ErrorHandler (.KeyAuthMissing (.New "missing key in request header")) []]).map
          Answer.Status = some 500 := by
  refine ⟨by decide, by decide, by decide, by decide⟩

/-! ## CORS: requests that get no grant -/

/-- A name of the `Access-Control-*` family is neither `Vary` nor `Allow`. -/
theorem accessControl_ne_vary_allow (key : String) (h : isAccessControlHeader key = true) :
    CanonicalMIMEHeaderKey key ≠ "Vary" ∧ CanonicalMIMEHeaderKey key ≠ "Allow" := by
  unfold isAccessControlHeader at h
  constructor
  · intro hk
    rw [hk] at h
    revert h
    decide
  · intro hk
    rw [hk] at h
    revert h
    decide

/-- The run of the CORS handler when the request has no origin or the origin is not
approved: the Vary header, for a preflight the router's Allow value, then the next
handler for a simple request and status 204 with an abort for a preflight. -/
theorem corsHandler_no_grant_run (ms : String → String → Bool) (skipper : Skipper)
    (config : CORSConfig) (allowOrigins : List String) (hasCustom : Bool)
    (methods : List String) (c : Context) (hskip : skipper c = false)
    (h : c.Request.HeaderGet HeaderOrigin = "" ∨
      corsAllowOrigin ms config allowOrigins (c.Request.HeaderGet HeaderOrigin) = .ok "") :
    corsHandler ms skipper config allowOrigins hasCustom methods c =
      [.Header HeaderVary HeaderOrigin] ++
        (if (if c.Request.Method = "OPTIONS" then corsRouterAllowMethods c else "") ≠ "" then
          [.Header HeaderAllow (corsRouterAllowMethods c)] else []) ++
        (if c.Request.Method = "OPTIONS" then [.AbortWithStatus 204] else [.Next]) := by
  by_cases hm : c.Request.Method = "OPTIONS"
  · rcases h with h | h
    · simp [corsHandler, hskip, h, hm]
    · by_cases ho : c.Request.HeaderGet HeaderOrigin = ""
      · simp [corsHandler, hskip, ho, hm]
      · simp [corsHandler, hskip, ho, hm, h]
  · rcases h with h | h
    · simp [corsHandler, hskip, h, hm]
    · by_cases ho : c.Request.HeaderGet HeaderOrigin = ""
      · simp [corsHandler, hskip, ho, hm]
      · simp [corsHandler, hskip, ho, hm, h]

/-- What a run without grant does: no `Access-Control-*` header; a simple request goes on
to the next handler; a preflight is answered with status 204 and aborted. -/
theorem corsHandler_no_grant_facts (ms : String → String → Bool) (skipper : Skipper)
    (config : CORSConfig) (allowOrigins : List String) (hasCustom : Bool)
    (methods : List String) (c : Context) (hskip : skipper c = false)
    (h : c.Request.HeaderGet HeaderOrigin = "" ∨
      corsAllowOrigin ms config allowOrigins (c.Request.HeaderGet HeaderOrigin) = .ok "") :
    (∀ key, isAccessControlHeader key = true →
        headerOf (corsHandler ms skipper config allowOrigins hasCustom methods c) key = none) ∧
      (c.Request.Method ≠ "OPTIONS" →
        Effect.Next ∈ corsHandler ms skipper config allowOrigins hasCustom methods c ∧
        abortedWith (corsHandler ms skipper config allowOrigins hasCustom methods c) = none) ∧
      (c.Request.Method = "OPTIONS" →
        (corsHandler ms skipper config allowOrigins hasCustom methods c).getLast? =
          some (.AbortWithStatus 204) ∧
        abortedWith (corsHandler ms skipper config allowOrigins hasCustom methods c) = some 204 ∧
        Effect.Next ∉ corsHandler ms skipper config allowOrigins hasCustom methods c) := by
  obtain ⟨k1, k2, _⟩ := canonical_keys
  rw [corsHandler_no_grant_run ms skipper config allowOrigins hasCustom methods c hskip h]
  refine ⟨fun key hkey => ?_, fun hm => ?_, fun hm => ?_⟩
  · obtain ⟨hv, ha⟩ := accessControl_ne_vary_allow key hkey
    have hv2 : ¬ "Vary" = CanonicalMIMEHeaderKey key := fun e => hv e.symm
    have ha2 : ¬ "Allow" = CanonicalMIMEHeaderKey key := fun e => ha e.symm
    rw [headerOf_eq_lastWrite]
    simp only [lastWrite_append, lastWrite, k1, hv2, if_false]
    split_ifs <;> simp [lastWrite, k2, ha2]
  · simp only [hm, if_false, abortedWith]
    split_ifs <;> simp [List.findSome?]
  · simp only [hm, if_true, abortedWith]
    split_ifs <;> simp [List.findSome?]

/-- C19. For every CORS policy and every non-skipped request without an Origin header: no
`Access-Control-*` response header is set; if the method is not OPTIONS the next
handler runs and the chain is not aborted; if the method is OPTIONS the handler ends
with `AbortWithStatus(204)` and never calls the next handler. -/
theorem cors_without_origin (ms : String → String → Bool) (config : CORSConfig) (c : Context)
    (hskip : (config.Skipper.getD DefaultSkipper) c = false)
    (horigin : c.Request.HeaderGet HeaderOrigin = "") :
    (∀ key, isAccessControlHeader key = true →
        headerOf (CORSNextWithConfig ms config c) key = none) ∧
      (c.Request.Method ≠ "OPTIONS" →
        Effect.Next ∈ CORSNextWithConfig ms config c ∧
        abortedWith (CORSNextWithConfig ms config c) = none) ∧
      (c.Request.Method = "OPTIONS" →
        (CORSNextWithConfig ms config c).getLast? = some (.AbortWithStatus 204) ∧
        abortedWith (CORSNextWithConfig ms config c) = some 204 ∧
        Effect.Next ∉ CORSNextWithConfig ms config c) :=
  corsHandler_no_grant_facts ms _ config _ _ _ c hskip (Or.inl horigin)

/-- C19, witness: a GET and an OPTIONS request without any header against the wildcard
policy. -/
theorem cors_without_origin_witness :
    (headerOf (CORSNextWithConfig MatchSubdomain corsAnyOrigin (requestWithoutOrigin "GET"))
        HeaderAccessControlAllowOrigin = none ∧
      Effect.Next ∈ CORSNextWithConfig MatchSubdomain corsAnyOrigin
        (requestWithoutOrigin "GET")) ∧
      (headerOf (CORSNextWithConfig MatchSubdomain corsAnyOrigin (requestWithoutOrigin "OPTIONS"))
        HeaderAccessControlAllowOrigin = none ∧
      abortedWith (CORSNextWithConfig MatchSubdomain corsAnyOrigin
        (requestWithoutOrigin "OPTIONS")) = some 204) :=
  ⟨⟨(cors_without_origin MatchSubdomain corsAnyOrigin (requestWithoutOrigin "GET") rfl
        (by decide)).1 _ (by decide),
      ((cors_without_origin MatchSubdomain corsAnyOrigin (requestWithoutOrigin "GET") rfl
        (by decide)).2.1 (by decide)).1⟩,
    ⟨(cors_without_origin MatchSubdomain corsAnyOrigin (requestWithoutOrigin "OPTIONS") rfl
        (by decide)).1 _ (by decide),
      ((cors_without_origin MatchSubdomain corsAnyOrigin (requestWithoutOrigin "OPTIONS") rfl
        (by decide)).2.2 (by decide)).2.1⟩⟩

/-- C20. For every CORS policy and every non-skipped request whose Origin the policy does
not approve (the approval block ends with an empty allowed origin): no
`Access-Control-*` response header is set; a non-OPTIONS request is passed to the next
handler and the chain is not aborted; an OPTIONS request ends with
`AbortWithStatus(204)` and the next handler is never called. -/
theorem cors_origin_not_approved (ms : String → String → Bool) (config : CORSConfig)
    (c : Context) (hskip : (config.Skipper.getD DefaultSkipper) c = false)
    (happ : corsAllowOrigin ms config
      (if config.AllowOrigins.length = 0 then ["*"] else config.AllowOrigins)
      (c.Request.HeaderGet HeaderOrigin) = .ok "") :
    (∀ key, isAccessControlHeader key = true →
        headerOf (CORSNextWithConfig ms config c) key = none) ∧
      (c.Request.Method ≠ "OPTIONS" →
        Effect.Next ∈ CORSNextWithConfig ms config c ∧
        abortedWith (CORSNextWithConfig ms config c) = none) ∧
      (c.Request.Method = "OPTIONS" →
        (CORSNextWithConfig ms config c).getLast? = some (.AbortWithStatus 204) ∧
        abortedWith (CORSNextWithConfig ms config c) = some 204 ∧
        Effect.Next ∉ CORSNextWithConfig ms config c) :=
  corsHandler_no_grant_facts ms _ config _ _ _ c hskip (Or.inr happ)

/-- C20, witness: a GET and an OPTIONS request from `https://evilexample.com` against the
policy that allows `https://*.example.com`. -/
theorem cors_origin_not_approved_witness :
    (headerOf (CORSNextWithConfig MatchSubdomain corsExampleSubdomains
        (requestFrom "GET" "https://evilexample.com")) HeaderAccessControlAllowOrigin = none ∧
      Effect.Next ∈ CORSNextWithConfig MatchSubdomain corsExampleSubdomains
        (requestFrom "GET" "https://evilexample.com")) ∧
      (headerOf (CORSNextWithConfig MatchSubdomain corsExampleSubdomains
        (requestFrom "OPTIONS" "https://evilexample.com")) HeaderAccessControlAllowOrigin = none ∧
      abortedWith (CORSNextWithConfig MatchSubdomain corsExampleSubdomains
        (requestFrom "OPTIONS" "https://evilexample.com")) = some 204) :=
  ⟨⟨(cors_origin_not_approved MatchSubdomain corsExampleSubdomains
        (requestFrom "GET" "https://evilexample.com") rfl (by decide)).1 _ (by decide),
      ((cors_origin_not_approved MatchSubdomain corsExampleSubdomains
        (requestFrom "GET" "https://evilexample.com") rfl (by decide)).2.1 (by decide)).1⟩,
    ⟨(cors_origin_not_approved MatchSubdomain corsExampleSubdomains
        (requestFrom "OPTIONS" "https://evilexample.com") rfl (by decide)).1 _ (by decide),
      ((cors_origin_not_approved MatchSubdomain corsExampleSubdomains
        (requestFrom "OPTIONS" "https://evilexample.com") rfl (by decide)).2.2
          (by decide)).2.1⟩⟩

/-! ## CORS: Vary, allowed methods, the approval function, determinism -/

/-- C21. For an approved preflight (an OPTIONS request from `https://x.com` against the
wildcard policy) the Vary header the handler leaves is `Access-Control-Request-Headers`
alone: each `c.Header(Vary, ...)` call replaces the value, so `Origin` is lost; for the
simple GET request it is `Origin`. -/
theorem cors_preflight_vary_loses_origin :
    CORSNextWithConfig MatchSubdomain corsAnyOrigin (requestFrom "OPTIONS" "https://x.com") =
        [.Header "Vary" "Origin", .Header "Access-Control-Allow-Origin" "*",
          .Header "Vary" "Access-Control-Request-Method",
          .Header "Vary" "Access-Control-Request-Headers",
          .Header "Access-Control-Allow-Methods"
            "GET,HEAD,POST,PUT,PATCH,DELETE,CONNECT,OPTIONS,TRACE",
          .AbortWithStatus 204] ∧
      headerOf (CORSNextWithConfig MatchSubdomain corsAnyOrigin
        (requestFrom "OPTIONS" "https://x.com")) HeaderVary =
          some "Access-Control-Request-Headers" ∧
      headerOf (CORSNextWithConfig MatchSubdomain corsAnyOrigin
        (requestFrom "GET" "https://x.com")) HeaderVary = some "Origin" := by
  refine ⟨by decide, by decide, by decide⟩

/-- Reading a header back gives the value written, an empty value reading as unset. -/
theorem getD_written (v : String) :
    (if v = "" then (none : Option String) else some v).getD "" = v := by
  by_cases h : v = "" <;> simp [h]

/-- The value written to `Access-Control-Allow-Methods` for an approved preflight. -/
theorem corsHandler_preflight_allow_methods (ms : String → String → Bool) (skipper : Skipper)
    (config : CORSConfig) (allowOrigins : List String) (hasCustom : Bool)
    (methods : List String) (c : Context) (hskip : skipper c = false)
    (hmethod : c.Request.Method = "OPTIONS")
    (horigin : c.Request.HeaderGet HeaderOrigin ≠ "") (a : String)
    (happ : corsAllowOrigin ms config allowOrigins (c.Request.HeaderGet HeaderOrigin) = .ok a)
    (ha : a ≠ "") :
    responseHeaderGet (corsHandler ms skipper config allowOrigins hasCustom methods c)
        HeaderAccessControlAllowMethods =
      if !hasCustom ∧ corsRouterAllowMethods c ≠ "" then corsRouterAllowMethods c
      else stringsJoin methods "," := by
  obtain ⟨k1, k2, k3, k4, k5, k6, k7, k8⟩ := canonical_keys
  unfold responseHeaderGet
  rw [headerOf_eq_lastWrite]
  simp only [corsHandler, hskip, horigin, happ, ha, hmethod, Bool.false_eq_true, if_false,
    decide_True, Bool.not_true, List.append_assoc, List.singleton_append, List.cons_append,
    lastWrite_append, lastWrite, k1, k2, k3, k4, k5, k6, k7, k8, List.nil_append,
    String.reduceEq, if_true]
  split_ifs <;> simp_all [lastWrite, k1, k2, k3, k4, k5, k6, k7, k8, getD_written]

/-- C22. For every approved preflight request (non-skipped, OPTIONS, non-empty approved
origin), the `Access-Control-Allow-Methods` response header reads: the comma-joined
configured AllowMethods when the policy has a non-empty AllowMethods list; the
router-supplied Allow value when the policy has no AllowMethods and the request
context holds a non-empty string under `gin_header_allow`; the comma-joined default
method list when the policy has no AllowMethods and the context holds no non-empty
string there. -/
theorem cors_preflight_allow_methods (ms : String → String → Bool) (config : CORSConfig)
    (c : Context) (hskip : (config.Skipper.getD DefaultSkipper) c = false)
    (hmethod : c.Request.Method = "OPTIONS")
    (horigin : c.Request.HeaderGet HeaderOrigin ≠ "") (a : String)
    (happ : corsAllowOrigin ms config
      (if config.AllowOrigins.length = 0 then ["*"] else config.AllowOrigins)
      (c.Request.HeaderGet HeaderOrigin) = .ok a)
    (ha : a ≠ "") :
    (config.AllowMethods ≠ [] →
        responseHeaderGet (CORSNextWithConfig ms config c) HeaderAccessControlAllowMethods =
          stringsJoin config.AllowMethods ",") ∧
      (config.AllowMethods = [] → ∀ s, c.Get ContextKeyHeaderAllow = some (.str s) → s ≠ "" →
        responseHeaderGet (CORSNextWithConfig ms config c) HeaderAccessControlAllowMethods = s) ∧
      (config.AllowMethods = [] →
        (∀ s, c.Get ContextKeyHeaderAllow = some (.str s) → s = "") →
        responseHeaderGet (CORSNextWithConfig ms config c) HeaderAccessControlAllowMethods =
          stringsJoin defaultAllowMethods ",") := by
  have hget := corsHandler_preflight_allow_methods ms (config.Skipper.getD DefaultSkipper)
    config (if config.AllowOrigins.length = 0 then ["*"] else config.AllowOrigins)
    (decide (config.AllowMethods.length ≠ 0))
    (if config.AllowMethods.length = 0 then defaultAllowMethods else config.AllowMethods)
    c hskip hmethod horigin a happ ha
  have hrun : CORSNextWithConfig ms config c =
      corsHandler ms (config.Skipper.getD DefaultSkipper) config
        (if config.AllowOrigins.length = 0 then ["*"] else config.AllowOrigins)
        (decide (config.AllowMethods.length ≠ 0))
        (if config.AllowMethods.length = 0 then defaultAllowMethods else config.AllowMethods)
        c := rfl
  rw [hrun, hget]
  refine ⟨fun hne => ?_, fun hnil s hs hsne => ?_, fun hnil hno => ?_⟩
  · have hl : config.AllowMethods.length ≠ 0 := by
      simpa [List.length_eq_zero] using hne
    simp [hl]
  · have hr : corsRouterAllowMethods c = s := by simp [corsRouterAllowMethods, hs]
    simp [hnil, hr, hsne]
  · have hr : corsRouterAllowMethods c = "" := by
      unfold corsRouterAllowMethods
      cases hg : c.Get ContextKeyHeaderAllow with
      | none => rfl
      | some v =>
        cases v with
        | str s => simp [hno s hg]
        | _ => rfl
    simp [hnil, hr]

/-- C22, witness: configured GET,POST; the router value `GET, PUT`; the default list. -/
theorem cors_preflight_allow_methods_witness :
    responseHeaderGet (CORSNextWithConfig MatchSubdomain corsGetPostOnly
        preflightWithRouterAllow) HeaderAccessControlAllowMethods = "GET,POST" ∧
      responseHeaderGet (CORSNextWithConfig MatchSubdomain corsAnyOrigin
        preflightWithRouterAllow) HeaderAccessControlAllowMethods = "GET, PUT" ∧
      responseHeaderGet (CORSNextWithConfig MatchSubdomain corsAnyOrigin
        (requestFrom "OPTIONS" "https://x.com")) HeaderAccessControlAllowMethods =
          "GET,HEAD,POST,PUT,PATCH,DELETE,CONNECT,OPTIONS,TRACE" :=
  ⟨(cors_preflight_allow_methods MatchSubdomain corsGetPostOnly preflightWithRouterAllow rfl rfl
      (by decide) "*" (by decide) (by decide)).1 (by decide),
    (cors_preflight_allow_methods MatchSubdomain corsAnyOrigin preflightWithRouterAllow rfl rfl
      (by decide) "*" (by decide) (by decide)).2.1 rfl "GET, PUT" (by decide) (by decide),
    (cors_preflight_allow_methods MatchSubdomain corsAnyOrigin
      (requestFrom "OPTIONS" "https://x.com") rfl rfl (by decide) "*" (by decide)
      (by decide)).2.2 rfl
      (by
        intro s hs
        have hnone : (requestFrom "OPTIONS" "https://x.com").Get ContextKeyHeaderAllow = none := by
          decide
        rw [hnone] at hs
        cases hs)⟩

/-- C23. When a CORS policy has AllowOriginFunc set, for a non-skipped request with a
non-empty Origin: if the function returns `(true, nil)` the origin is approved and
`Access-Control-Allow-Origin` is the request origin; if it returns `(false, nil)` no
`Access-Control-Allow-Origin` header is set; if it returns an error, the ErrorHandler is
invoked with that error, no `Access-Control-Allow-Origin` header is set and the
middleware does not call the next handler; and the run is the same whatever
AllowOrigins holds and whatever the subdomain helper answers. -/
theorem cors_allow_origin_func_decides (ms : String → String → Bool) (config : CORSConfig)
    (f : AllowOriginFunc) (hf : config.AllowOriginFunc = some f) (c : Context)
    (hskip : (config.Skipper.getD DefaultSkipper) c = false)
    (horigin : c.Request.HeaderGet HeaderOrigin ≠ "") :
    (f (c.Request.HeaderGet HeaderOrigin) = (true, none) →
        headerOf (CORSNextWithConfig ms config c) HeaderAccessControlAllowOrigin =
          some (c.Request.HeaderGet HeaderOrigin)) ∧
      (f (c.Request.HeaderGet HeaderOrigin) = (false, none) →
        headerOf (CORSNextWithConfig ms config c) HeaderAccessControlAllowOrigin = none) ∧
      (∀ b err, f (c.Request.HeaderGet HeaderOrigin) = (b, some err) →
        CORSNextWithConfig ms config c = [.Header HeaderVary HeaderOrigin] ++
          (if (if c.Request.Method = "OPTIONS" then corsRouterAllowMethods c else "") ≠ "" then
            [.Header HeaderAllow (corsRouterAllowMethods c)] else []) ++
          [.ErrorHandler err []] ∧
        headerOf (CORSNextWithConfig ms config c) HeaderAccessControlAllowOrigin = none ∧
        Effect.Next ∉ CORSNextWithConfig ms config c) ∧
      (∀ (origins2 : List String) (ms2 : String → String → Bool),
        CORSNextWithConfig ms2 { config with AllowOrigins := origins2 } c =
          CORSNextWithConfig ms config c) := by
  obtain ⟨k1, k2, k3, _⟩ := canonical_keys
  refine ⟨fun h => ?_, fun h => ?_, fun b err h => ?_, fun origins2 ms2 => ?_⟩
  · exact corsHandler_granted_origin ms _ config _ _ _ c hskip horigin _
      (by simp [corsAllowOrigin, hf, h]) horigin
  · exact corsHandler_no_grant ms _ config _ _ _ c hskip (by simp [corsAllowOrigin, hf, h])
  · have happ : ∀ ao, corsAllowOrigin ms config ao (c.Request.HeaderGet HeaderOrigin) =
        .error err := by
      intro ao
      simp [corsAllowOrigin, hf, h]
    have hrun : CORSNextWithConfig ms config c = [.Header HeaderVary HeaderOrigin] ++
        (if (if c.Request.Method = "OPTIONS" then corsRouterAllowMethods c else "") ≠ "" then
          [.Header HeaderAllow (corsRouterAllowMethods c)] else []) ++
        [.ErrorHandler err []] := by
      by_cases hm : c.Request.Method = "OPTIONS" <;>
        simp [CORSNextWithConfig, corsHandler, hskip, horigin, happ, hm]
    refine ⟨hrun, ?_, ?_⟩
    · rw [hrun, headerOf_eq_lastWrite]
      simp only [lastWrite_append, lastWrite, k1, k3, String.reduceEq, if_false]
      split_ifs <;> simp [lastWrite, k2, k3]
    · rw [hrun]
      split_ifs <;> simp
  · rcases hfo : f (c.Request.HeaderGet HeaderOrigin) with ⟨b, _ | err⟩ <;>
      simp [CORSNextWithConfig, corsHandler, corsAllowOrigin, hf, hfo]

/-- C23, witness: the approval function decides although AllowOrigins holds `*`. -/
theorem cors_allow_origin_func_decides_witness :
    headerOf (CORSNextWithConfig MatchSubdomain corsWithOriginFunc
        (requestFrom "GET" "https://good.example")) HeaderAccessControlAllowOrigin =
          some "https://good.example" ∧
      headerOf (CORSNextWithConfig MatchSubdomain corsWithOriginFunc
        (requestFrom "GET" "https://other.example")) HeaderAccessControlAllowOrigin = none ∧
      Effect.Next ∉ CORSNextWithConfig MatchSubdomain corsWithOriginFunc
        (requestFrom "GET" "https://broken.example") :=
  ⟨(cors_allow_origin_func_decides MatchSubdomain corsWithOriginFunc approveGoodOnly rfl
      (requestFrom "GET" "https://good.example") rfl (by decide)).1 (by decide),
    (cors_allow_origin_func_decides MatchSubdomain corsWithOriginFunc approveGoodOnly rfl
      (requestFrom "GET" "https://other.example") rfl (by decide)).2.1 (by decide),
    ((cors_allow_origin_func_decides MatchSubdomain corsWithOriginFunc approveGoodOnly rfl
      (requestFrom "GET" "https://broken.example") rfl (by decide)).2.2.1 false
        (.New "origin lookup failed") (by decide)).2.2⟩

/-- C24. The run of the handler built by `CORSNextWithConfig` is a function of the policy
and of the request's method, headers and context values: two requests that agree on
these, and on which the Skipper decides alike, get the same run, hence the same response
header values, the same status and the same abort decision. -/
theorem cors_run_determined_by_request (ms : String → String → Bool) (config : CORSConfig)
    (c1 c2 : Context) (hmethod : c1.Request.Method = c2.Request.Method)
    (hheader : c1.Request.Header = c2.Request.Header) (hkeys : c1.Keys = c2.Keys)
    (hskip : (config.Skipper.getD DefaultSkipper) c1 = (config.Skipper.getD DefaultSkipper) c2) :
    CORSNextWithConfig ms config c1 = CORSNextWithConfig ms config c2 ∧
      (∀ key, headerOf (CORSNextWithConfig ms config c1) key =
        headerOf (CORSNextWithConfig ms config c2) key) ∧
      abortedWith (CORSNextWithConfig ms config c1) =
        abortedWith (CORSNextWithConfig ms config c2) := by
  have hrun : CORSNextWithConfig ms config c1 = CORSNextWithConfig ms config c2 := by
    simp only [CORSNextWithConfig, corsHandler, Request.HeaderGet, Request.HeaderValues,
      corsRouterAllowMethods, Context.Get, hmethod, hheader, hkeys, hskip]
  exact ⟨hrun, fun key => by rw [hrun], by rw [hrun]⟩

/-- C24, witness: the same preflight with and without a cookie and a query value. -/
theorem cors_run_determined_by_request_witness :
    CORSNextWithConfig MatchSubdomain corsAnyOrigin (requestFrom "OPTIONS" "https://x.com") =
      CORSNextWithConfig MatchSubdomain corsAnyOrigin
        (requestFromWithExtras "OPTIONS" "https://x.com") :=
  (cors_run_determined_by_request MatchSubdomain corsAnyOrigin
    (requestFrom "OPTIONS" "https://x.com") (requestFromWithExtras "OPTIONS" "https://x.com")
    rfl rfl rfl rfl).1

/-- C28. For a CORS policy with `AllowOrigins = ["*"]` and no AllowOriginFunc, and every
non-skipped request with a non-empty Origin `o`: if AllowCredentials and
UnsafeWildcardOriginWithAllowCredentials are both true, `Access-Control-Allow-Origin`
is `o`; in every other case it is `*`. -/
theorem cors_wildcard_echo_needs_unsafe_flag (ms : String → String → Bool) (config : CORSConfig)
    (hao : config.AllowOrigins = ["*"]) (hf : config.AllowOriginFunc = none) (c : Context)
    (hskip : (config.Skipper.getD DefaultSkipper) c = false)
    (horigin : c.Request.HeaderGet HeaderOrigin ≠ "") :
    (config.AllowCredentials = true →
        config.UnsafeWildcardOriginWithAllowCredentials = true →
        headerOf (CORSNextWithConfig ms config c) HeaderAccessControlAllowOrigin =
          some (c.Request.HeaderGet HeaderOrigin)) ∧
      (¬ (config.AllowCredentials = true ∧
          config.UnsafeWildcardOriginWithAllowCredentials = true) →
        headerOf (CORSNextWithConfig ms config c) HeaderAccessControlAllowOrigin = some "*") := by
  have hb : CORSNextWithConfig ms config =
      corsHandler ms (config.Skipper.getD DefaultSkipper) config ["*"]
        (decide (config.AllowMethods.length ≠ 0))
        (if config.AllowMethods.length = 0 then defaultAllowMethods else config.AllowMethods) := by
    simp [CORSNextWithConfig, hao]
  rw [hb]
  constructor
  · intro h1 h2
    exact corsHandler_granted_origin ms _ config _ _ _ c hskip horigin _
      (by simp [corsAllowOrigin, hf, corsScanOrigins, h1, h2, horigin]) horigin
  · intro hnot
    exact corsHandler_granted_origin ms _ config _ _ _ c hskip horigin "*"
      (by simp [corsAllowOrigin, hf, corsScanOrigins, hnot]) (by decide)

/-- C28, witness: with both flags the origin is echoed; with credentials alone, and with
neither, the value is `*`. -/
theorem cors_wildcard_echo_needs_unsafe_flag_witness :
    headerOf (CORSNextWithConfig MatchSubdomain corsUnsafeWildcard
        (requestFrom "GET" "https://x.com")) HeaderAccessControlAllowOrigin =
          some "https://x.com" ∧
      headerOf (CORSNextWithConfig MatchSubdomain corsWildcardWithCredentials
        (requestFrom "GET" "https://x.com")) HeaderAccessControlAllowOrigin = some "*" ∧
      headerOf (CORSNextWithConfig MatchSubdomain corsAnyOrigin
        (requestFrom "GET" "https://x.com")) HeaderAccessControlAllowOrigin = some "*" :=
  ⟨(cors_wildcard_echo_needs_unsafe_flag MatchSubdomain corsUnsafeWildcard rfl rfl
      (requestFrom "GET" "https://x.com") rfl (by decide)).1 rfl rfl,
    (cors_wildcard_echo_needs_unsafe_flag MatchSubdomain corsWildcardWithCredentials rfl rfl
      (requestFrom "GET" "https://x.com") rfl (by decide)).2 (by decide),
    (cors_wildcard_echo_needs_unsafe_flag MatchSubdomain corsAnyOrigin rfl rfl
      (requestFrom "GET" "https://x.com") rfl (by decide)).2 (by decide)⟩

/-! ## CSRF: the default lookup -/

/-- C25. With an empty TokenLookup the CSRF handler looks the token up with
`form:X-CSRF-Token`: a POST that carries the cookie's token `abc` in the `X-CSRF-Token`
request header (which the header extractor does read) is rejected with the error
`missing csrf token in the form parameter`, status 400; with the lookup
`header:X-CSRF-Token` spelled out the same request is accepted. -/
theorem csrf_default_lookup_reads_form :
    (csrfDefaults csrfZeroConfig).TokenLookup = "form:X-CSRF-Token" ∧
      valuesFromHeader "X-CSRF-Token" "" csrfPostWithHeader = .ok ["abc"] ∧
      serve (CSRFNextWithConfig fixedWorld csrfZeroConfig) csrfPostWithHeader =
        some [.ErrorHandler (.HTTPError 400 "missing csrf token in the form parameter") []] ∧
      serve (CSRFNextWithConfig fixedWorld
          { csrfZeroConfig with TokenLookup := "header:X-CSRF-Token" }) csrfPostWithHeader =
        some [.SetCookie (csrfCookie fixedWorld (csrfDefaults csrfZeroConfig) "abc"),
          .Set "csrf" (.str "abc"), .Header "Vary" "Cookie", .Next] := by
  refine ⟨by decide, by decide, by decide, by decide⟩

/-! ## ErrorsNext -/

/-- C26, as stated, fails: an HTTPError with code 200 recorded by `AddStatusError` is
answered by the default `ErrorsNext` handler with status 500, not 200. -/
theorem errorsNext_code_200_answers_500 :
    (ErrorsNext none (AddStatusError Recorded.fresh (some (.HTTPError 200 "test error")) [])).map
        Answer.Status = some 500 := by
  decide

/-- The default `ErrorsNext` handler answers the first recorded error by rendering, with
the status the rule picks between the writer status and 500, the error's text as
message. -/
theorem errorsNext_after_add (err : Error) (codes : List Int) :
    ErrorsNext none (AddStatusError Recorded.fresh (some err) codes) =
      some (ContextIResponse (AddStatusError Recorded.fresh (some err) codes).Status
        { Code := errorsNextStatusRule
            (AddStatusError Recorded.fresh (some err) codes).Status 500
          Message := err.text
          Error := some err }) := by
  cases err <;> cases codes <;>
    simp [ErrorsNext, AddStatusError, Recorded.fresh, errorsNextDefaultHandler,
      JsonResponse.SetErr, JsonResponse.WithMessage, JsonResponse.WithStatusCode]

/-- The status rule keeps a writer status other than 200. -/
theorem errorsNextStatusRule_keeps (status : Int) (h : status ≠ 200) :
    errorsNextStatusRule status 500 = status := by
  simp [errorsNextStatusRule, h]

/-- A response whose code is the status of the writer, a status from 100 to 999 other
than 200 for which gin allows a body, is rendered whole and the chain is aborted. -/
theorem contextIResponse_body_carrying (k : Int) (body : JsonResponse) (hcode : body.Code = k)
    (hlo : 100 ≤ k) (hhi : k ≤ 999) (hbody : bodyAllowedForStatus k = true) (h200 : k ≠ 200) :
    ContextIResponse k body =
      { Status := k, Body := some body, Aborted := true, Panic := none } := by
  have h1 : ¬ (k < 100 ∨ k > 999) := by omega
  simp [ContextIResponse, ginStatus, hcode, h1, hbody, h200]

/-- Outside the codes that carry a body the default `ErrorsNext` handler does not answer
with the error's text: on the recorded code 42 the header write panics, and on the
recorded code 204 the status is 204 and no body is written. -/
theorem errorsNext_invalid_and_bodyless_codes :
    ErrorsNext none (AddStatusError Recorded.fresh (some (.HTTPError 42 "odd")) []) =
        some { Status := 42, Body := none, Aborted := false, Panic := some 42 } ∧
      ErrorsNext none (AddStatusError Recorded.fresh (some (.HTTPError 204 "gone")) []) =
        some { Status := 204, Body := none, Aborted := true, Panic := none } := by
  constructor
  · rw [errorsNext_after_add]
    rfl
  · rw [errorsNext_after_add]
    rfl

/-- C26, amended. With the default `ErrorsNext` handler and no validation translator,
after `AddStatusError` has recorded an error on a fresh request, `k` being a status code
that carries a body and is not 200 (from 100 to 999, `bodyAllowedForStatus`, so neither
1xx nor 204 nor 304): for an HTTPError or CodeMsg with code `k` the response status is
`k`; for a plain error recorded with the explicit status code `k` it is `k`; for a plain
error recorded without a status code it is 500; in each of these cases the body is
written with that code and the error's text as message, nothing panics, and the chain is
aborted, so that the later handlers do not run. -/
theorem errorsNext_status_and_message (err : Error) (codes : List Int) :
    (∀ k m, 100 ≤ k → k ≤ 999 → bodyAllowedForStatus k = true → k ≠ 200 →
        (err = .HTTPError k m ∨ err = .CodeMsg k m) →
        ErrorsNext none (AddStatusError Recorded.fresh (some err) codes) =
          some { Status := k
                 Body := some { Code := k, Message := err.text, Error := some err }
                 Aborted := true
                 Panic := none }) ∧
      (∀ k rest, (∀ code m, err ≠ .HTTPError code m ∧ err ≠ .CodeMsg code m) →
        codes = k :: rest →
        100 ≤ k → k ≤ 999 → bodyAllowedForStatus k = true → k ≠ 200 →
        ErrorsNext none (AddStatusError Recorded.fresh (some err) codes) =
          some { Status := k
                 Body := some { Code := k, Message := err.text, Error := some err }
                 Aborted := true
                 Panic := none }) ∧
      ((∀ code m, err ≠ .HTTPError code m ∧ err ≠ .CodeMsg code m) → codes = [] →
        ErrorsNext none (AddStatusError Recorded.fresh (some err) codes) =
          some { Status := 500
                 Body := some { Code := 500, Message := err.text, Error := some err }
                 Aborted := true
                 Panic := none }) := by
  have hset : ∀ k : Int, 100 ≤ k → k ≠ 200 → ginStatus 200 k = k := by
    intro k h1 h2
    have h3 : (200 : Int) ≠ k := fun e => h2 e.symm
    have h4 : k > 0 := by omega
    simp [ginStatus, h4, h3]
  refine ⟨?_, ?_, ?_⟩
  · intro k m hlo hhi hbody h200 herr
    have hs : (AddStatusError Recorded.fresh (some err) codes).Status = k := by
      rcases herr with rfl | rfl <;> simp [AddStatusError, Recorded.fresh, hset k hlo h200]
    rw [errorsNext_after_add, hs, errorsNextStatusRule_keeps k h200,
      contextIResponse_body_carrying k _ rfl hlo hhi hbody h200]
  · intro k rest hplain hcodes hlo hhi hbody h200
    have hs : (AddStatusError Recorded.fresh (some err) codes).Status = k := by
      subst hcodes
      cases err with
      | HTTPError code m => exact absurd rfl (hplain code m).1
      | CodeMsg code m => exact absurd rfl (hplain code m).2
      | _ => simp [AddStatusError, Recorded.fresh, hset k hlo h200]
    rw [errorsNext_after_add, hs, errorsNextStatusRule_keeps k h200,
      contextIResponse_body_carrying k _ rfl hlo hhi hbody h200]
  · intro hplain hcodes
    have hs : (AddStatusError Recorded.fresh (some err) codes).Status = 200 := by
      subst hcodes
      cases err with
      | HTTPError code m => exact absurd rfl (hplain code m).1
      | CodeMsg code m => exact absurd rfl (hplain code m).2
      | _ => simp [AddStatusError, Recorded.fresh]
    rw [errorsNext_after_add, hs]
    rfl

/-- C26 amended, witness: the three examples of the doc comment of `ErrorsNext`. -/
theorem errorsNext_status_and_message_witness :
    ErrorsNext none (AddStatusError Recorded.fresh (some (.HTTPError 201 "test error")) []) =
        some { Status := 201
               Body := some { Code := 201, Message := "code=201, message=test error"
                              Error := some (.HTTPError 201 "test error") }
               Aborted := true
               Panic := none } ∧
      ErrorsNext none (AddStatusError Recorded.fresh (some (.New "test error")) [201]) =
        some { Status := 201
               Body := some { Code := 201, Message := "test error"
                              Error := some (.New "test error") }
               Aborted := true
               Panic := none } ∧
      ErrorsNext none (AddStatusError Recorded.fresh (some (.New "test error")) []) =
        some { Status := 500
               Body := some { Code := 500, Message := "test error"
                              Error := some (.New "test error") }
               Aborted := true
               Panic := none } :=
  ⟨(errorsNext_status_and_message (.HTTPError 201 "test error") []).1 201 "test error"
      (by decide) (by decide) (by decide) (by decide) (Or.inl rfl),
    (errorsNext_status_and_message (.New "test error") [201]).2.1 201 []
      (by intro code m; exact ⟨by simp, by simp⟩) rfl (by decide) (by decide) (by decide)
      (by decide),
    (errorsNext_status_and_message (.New "test error") []).2.2
      (by intro code m; exact ⟨by simp, by simp⟩) rfl⟩

/-! ## xT.Remove -/

/-- Writing at index `n` leaves the first `n` elements as they are. -/
theorem take_set_same {α : Type} (l : List α) (n : Nat) (a : α) :
    (l.set n a).take n = l.take n := by
  rw [List.set_take]
  apply List.set_eq_of_length_le
  simp

/-- The in-place loop keeps, behind the `n` elements already kept, the unread elements
other than `t`, in order. -/
theorem compactLoop_spec {α : Type} [DecidableEq α] (t : α) (k i n : Nat) (out : List α)
    (hn : n ≤ i) (hk : i + k = out.length) :
    ((compactLoop t k i n out).1).take (compactLoop t k i n out).2 =
      out.take n ++ (out.drop i).filter (fun v => decide (v ≠ t)) := by
  induction k generalizing i n out with
  | zero =>
    have : out.drop i = [] := by
      apply List.drop_eq_nil_of_le
      omega
    simp [compactLoop, this]
  | succ k ih =>
    have hi : i < out.length := by omega
    have hget : out[i]? = some out[i] := List.getElem?_eq_getElem hi
    have hdrop : out.drop i = out[i] :: out.drop (i + 1) := List.drop_eq_getElem_cons hi
    simp only [compactLoop, hget]
    by_cases hv : out[i] ≠ t
    · have hnl : n < out.length := by omega
      rw [if_pos hv, ih (i + 1) (n + 1) (out.set n out[i]) (by omega) (by simp; omega)]
      rw [List.take_succ, take_set_same, List.getElem?_set_self hnl,
        List.drop_set_of_lt _ _ (by omega), hdrop, List.filter_cons_of_pos (by simpa using hv)]
      simp
    · rw [if_neg hv, ih (i + 1) n out (by omega) (by omega), hdrop,
        List.filter_cons_of_neg (by simpa using hv)]

/-- One round of `Remove` drops exactly the elements equal to `t`. -/
theorem removeOne_eq_filter {α : Type} [DecidableEq α] (out : List α) (t : α) :
    removeOne out t = out.filter (fun v => decide (v ≠ t)) := by
  unfold removeOne
  rw [compactLoop_spec t out.length 0 0 out (Nat.le_refl 0) (by simp)]
  simp

/-- The rounds of `Remove` drop exactly the elements equal to one of `ts`. -/
theorem foldl_removeOne {α : Type} [DecidableEq α] (ts out : List α) :
    ts.foldl removeOne out = out.filter (fun v => decide (v ∉ ts)) := by
  induction ts generalizing out with
  | nil => simp
  | cons t ts ih =>
    rw [List.foldl_cons, ih, removeOne_eq_filter, List.filter_filter]
    congr 1
    funext v
    by_cases h1 : v = t <;> by_cases h2 : v ∈ ts <;> simp [h1, h2]

/-- C27. For every slice `s` and every list of values `ts`, `Remove(s, ts...)` returns
exactly the elements of `s` that are equal to none of `ts`, each with its multiplicity
and in the original order, and `s` is as before the call; `Remove([a, b, a, c], a, b)`
is `[c]`. -/
theorem remove_returns_the_others {α : Type} [DecidableEq α] (s ts : List α) :
    Remove s ts = (s.filter (fun v => decide (v ∉ ts)), s) ∧
      (Remove s ts).1.Sublist s ∧
      (∀ v, v ∉ ts → (Remove s ts).1.count v = s.count v) ∧
      (∀ v, v ∈ ts → v ∉ (Remove s ts).1) ∧
      Remove ["a", "b", "a", "c"] ["a", "b"] = (["c"], ["a", "b", "a", "c"]) := by
  have h : Remove s ts = (s.filter (fun v => decide (v ∉ ts)), s) := by
    simp only [Remove, List.nil_append, foldl_removeOne]
  refine ⟨h, ?_, ?_, ?_, by decide⟩
  · rw [h]
    exact List.filter_sublist s
  · intro v hv
    rw [h]
    simp only
    rw [List.count_filter]
    simpa using hv
  · intro v hv
    rw [h]
    simp [hv]

/-- C27, witness: in `Remove([a, b, a, c], a, b)` the value `c` keeps its one occurrence
and `a` is gone. -/
theorem remove_returns_the_others_witness :
    "c" ∉ ["a", "b"] ∧
      (Remove ["a", "b", "a", "c"] ["a", "b"]).1.count "c" = ["a", "b", "a", "c"].count "c" ∧
      "a" ∈ ["a", "b"] ∧ "a" ∉ (Remove ["a", "b", "a", "c"] ["a", "b"]).1 :=
  ⟨by decide, (remove_returns_the_others ["a", "b", "a", "c"] ["a", "b"]).2.2.1 "c" (by decide),
    by decide, (remove_returns_the_others ["a", "b", "a", "c"] ["a", "b"]).2.2.2.1 "a" (by decide)⟩

/-! ## gzip: the pooled writer -/

/-- C30. A non-skipped request that does not accept gzip (here a request without any
header, for whatever header names the package defines) takes the early return after
the writer was acquired from the pool: the run is the acquisition and the reset alone,
and the writer is not returned to the pool; on the path of a request that accepts gzip
the deferred function returns it. -/
theorem gzip_early_return_keeps_writer :
    (∀ names : GzipNames, GzipNextWithConfig names none bareRequest = [.PoolGet, .Reset]) ∧
      (∀ names : GzipNames, GzipEvent.PoolPut ∉ GzipNextWithConfig names none bareRequest) ∧
      GzipNextWithConfig standardGzipNames none acceptsGzip =
        [.PoolGet, .Reset, .Header "Vary" "Accept-Encoding", .Header "Content-Encoding" "gzip",
          .WrapWriter, .Next, .Close, .ResetDiscard, .PoolPut, .ContentLength] := by
  have h : ∀ names : GzipNames,
      GzipNextWithConfig names none bareRequest = [.PoolGet, .Reset] := by
    intro names
    have hget : ∀ key, bareRequest.Request.HeaderGet key = "" := fun key => rfl
    have hc : containsChars gzipScheme.data "".data = false := by decide
    simp [GzipNextWithConfig, DefaultSkipper, hget, hc]
  refine ⟨h, ?_, by decide⟩
  intro names
  rw [h names]
  decide

/-! ## Basic-auth: decoding the credential -/

set_option maxRecDepth 100000 in
theorem b64Index_b64Char_fin : ∀ i : Fin 64, b64Index (b64Char i.val) = some i.val := by
  decide

set_option maxRecDepth 100000 in
theorem b64Char_plain_fin : ∀ i : Fin 64,
    b64Char i.val ≠ '=' ∧ b64Char i.val ≠ '\r' ∧ b64Char i.val ≠ '\n' := by
  decide

theorem b64Index_b64Char (i : Nat) (h : i < 64) : b64Index (b64Char i) = some i :=
  b64Index_b64Char_fin ⟨i, h⟩

theorem b64Char_plain (i : Nat) (h : i < 64) :
    b64Char i ≠ '=' ∧ b64Char i ≠ '\r' ∧ b64Char i ≠ '\n' :=
  b64Char_plain_fin ⟨i, h⟩

theorem b64DecodeQuads_encode (bs : List Nat) (h : ∀ b ∈ bs, b < 256) :
    b64DecodeQuads (b64EncodeBytes bs) = some bs := by
  induction bs using b64EncodeBytes.induct with
  | case1 => simp [b64EncodeBytes, b64DecodeQuads]
  | case2 a =>
    have ha : a < 256 := h a (by simp)
    simp only [b64EncodeBytes, b64DecodeQuads]
    rw [b64Index_b64Char _ (by omega), b64Index_b64Char _ (by omega)]
    simp
    omega
  | case3 a b =>
    have ha : a < 256 := h a (by simp)
    have hb : b < 256 := h b (by simp)
    simp only [b64EncodeBytes, b64DecodeQuads]
    rw [b64Index_b64Char _ (by omega), b64Index_b64Char _ (by omega)]
    simp only [(b64Char_plain (b % 16 * 4) (by omega)).1, if_false]
    rw [b64Index_b64Char _ (by omega)]
    simp
    omega
  | case4 a b c rest ih =>
    have ha : a < 256 := h a (by simp)
    have hb : b < 256 := h b (by simp)
    have hc : c < 256 := h c (by simp)
    have hrest : ∀ x ∈ rest, x < 256 := fun x hx => h x (by simp [hx])
    simp only [b64EncodeBytes, b64DecodeQuads]
    rw [b64Index_b64Char _ (by omega), b64Index_b64Char _ (by omega)]
    simp only [(b64Char_plain (b % 16 * 4 + c / 64) (by omega)).1, if_false]
    rw [b64Index_b64Char _ (by omega)]
    simp only [(b64Char_plain (c % 64) (by omega)).1, if_false]
    rw [b64Index_b64Char _ (by omega), ih hrest]
    simp
    omega

theorem b64EncodeBytes_plain (bs : List Nat) (h : ∀ b ∈ bs, b < 256) :
    ∀ c ∈ b64EncodeBytes bs, c ≠ '\r' ∧ c ≠ '\n' := by
  induction bs using b64EncodeBytes.induct with
  | case1 => simp [b64EncodeBytes]
  | case2 a =>
    have ha : a < 256 := h a (by simp)
    intro c hc
    simp only [b64EncodeBytes, List.mem_cons, List.mem_singleton, List.not_mem_nil,
      or_false] at hc
    rcases hc with rfl | rfl | rfl | rfl
    · exact (b64Char_plain _ (by omega)).2
    · exact (b64Char_plain _ (by omega)).2
    · decide
    · decide
  | case3 a b =>
    have ha : a < 256 := h a (by simp)
    have hb : b < 256 := h b (by simp)
    intro c hc
    simp only [b64EncodeBytes, List.mem_cons, List.mem_singleton, List.not_mem_nil,
      or_false] at hc
    rcases hc with rfl | rfl | rfl | rfl
    · exact (b64Char_plain _ (by omega)).2
    · exact (b64Char_plain _ (by omega)).2
    · exact (b64Char_plain _ (by omega)).2
    · decide
  | case4 a b c rest ih =>
    have ha : a < 256 := h a (by simp)
    have hb : b < 256 := h b (by simp)
    have hc : c < 256 := h c (by simp)
    have hrest : ∀ x ∈ rest, x < 256 := fun x hx => h x (by simp [hx])
    intro x hx
    simp only [b64EncodeBytes, List.mem_cons] at hx
    rcases hx with rfl | rfl | rfl | rfl | hx
    · exact (b64Char_plain _ (by omega)).2
    · exact (b64Char_plain _ (by omega)).2
    · exact (b64Char_plain _ (by omega)).2
    · exact (b64Char_plain _ (by omega)).2
    · exact ih hrest x hx

theorem b64EncodeBytes_length (bs : List Nat) (h : bs ≠ []) :
    4 ≤ (b64EncodeBytes bs).length := by
  match bs, h with
  | [_], _ => simp [b64EncodeBytes]
  | [_, _], _ => simp [b64EncodeBytes]
  | _ :: _ :: _ :: _, _ => simp [b64EncodeBytes]

theorem decodeString_encodeToString (s : String) (h : isBytes s) :
    DecodeString (EncodeToString s) = .ok s := by
  have hb : ∀ b ∈ s.data.map Char.toNat, b < 256 := by
    intro b hb
    rcases List.mem_map.mp hb with ⟨c, hc, rfl⟩
    exact h c hc
  have hf : (b64EncodeBytes (s.data.map Char.toNat)).filter
      (fun c => decide (c ≠ '\r' ∧ c ≠ '\n')) = b64EncodeBytes (s.data.map Char.toNat) := by
    rw [List.filter_eq_self]
    intro c hc
    simpa using b64EncodeBytes_plain _ hb c hc
  have hm : (s.data.map Char.toNat).map Char.ofNat = s.data := by
    rw [List.map_map]
    conv_rhs => rw [← List.map_id s.data]
    apply List.map_congr_left
    intro c _
    simp [Char.ofNat_toNat]
  unfold DecodeString EncodeToString
  simp only [hf, b64DecodeQuads_encode _ hb, hm]

theorem credentialSplit_first_colon (u p : List Char) (h : ':' ∉ u) :
    credentialSplit (u ++ ':' :: p) = some (u, p) := by
  induction u with
  | nil => simp [credentialSplit]
  | cons c cs ih =>
    have hc : c ≠ ':' := fun e => h (by simp [e])
    have hcs : ':' ∉ cs := fun e => h (by simp [e])
    simp [credentialSplit, hc, ih hcs]

theorem credentialSplit_no_colon (cred : List Char) (h : ':' ∉ cred) :
    credentialSplit cred = none := by
  induction cred with
  | nil => simp [credentialSplit]
  | cons c cs ih =>
    have hc : c ≠ ':' := fun e => h (by simp [e])
    have hcs : ':' ∉ cs := fun e => h (by simp [e])
    simp [credentialSplit, hc, ih hcs]

theorem searchCredential_of_basic (cred : String) (h : isBytes cred) (hne : cred.data ≠ []) :
    basicAuthNextSearchCredential ("Basic " ++ EncodeToString cred) =
      match credentialSplit cred.data with
      | some (s1, s2) => .ok (⟨s1⟩, ⟨s2⟩)
      | none => .error (.New "token error") := by
  have hlen : 4 ≤ (EncodeToString cred).data.length := by
    unfold EncodeToString
    exact b64EncodeBytes_length _ (by simpa using hne)
  have hd : ("Basic " ++ EncodeToString cred).data =
      'B' :: 'a' :: 's' :: 'i' :: 'c' :: ' ' :: (EncodeToString cred).data := by
    simp [String.data_append]
  have h1 : len ("Basic " ++ EncodeToString cred) > len basic + 1 := by
    have h5 : len basic = 5 := by decide
    rw [h5]
    simp only [len, hd, List.length_cons]
    omega
  have h2 : EqualFold (sliceTo ("Basic " ++ EncodeToString cred) (len basic)) basic = true := by
    have h5 : len basic = 5 := by decide
    rw [h5]
    simp only [sliceTo, hd, List.take_succ_cons, List.take_zero]
    decide
  have h3 : sliceFrom ("Basic " ++ EncodeToString cred) (len basic + 1) =
      EncodeToString cred := by
    have h5 : len basic = 5 := by decide
    rw [h5]
    simp only [sliceFrom, hd]
    rfl
  unfold basicAuthNextSearchCredential
  simp only [h1, h2, h3, and_self, if_true, decodeString_encodeToString cred h]

/-- C29: with Go strings read as byte sequences, for every user without a colon and every
password, `basicAuthNextSearchCredential` applied to `"Basic "` followed by the standard
base64 of `user:password` returns exactly `(user, password)` and no error, so the split is
at the first colon; and when the encoded credential holds no colon the call returns the
`token error` error. -/
theorem basic_auth_credential_roundtrip (user password cred : String)
    (hu : isBytes user) (hp : isBytes password) (hcolon : ':' ∉ user.data)
    (hc : isBytes cred) (hnone : ':' ∉ cred.data) :
    basicAuthNextSearchCredential ("Basic " ++ EncodeToString (user ++ ":" ++ password)) =
        .ok (user, password) ∧
      basicAuthNextSearchCredential ("Basic " ++ EncodeToString cred) =
        .error (.New "token error") := by
  constructor
  · have hd : (user ++ ":" ++ password).data = user.data ++ ':' :: password.data := by
      simp [String.data_append]
    have hb : isBytes (user ++ ":" ++ password) := by
      intro c hcm
      rw [hd] at hcm
      rcases List.mem_append.mp hcm with hcm | hcm
      · exact hu c hcm
      · rcases List.mem_cons.mp hcm with rfl | hcm
        · decide
        · exact hp c hcm
    rw [searchCredential_of_basic _ hb (by rw [hd]; simp), hd,
      credentialSplit_first_colon _ _ hcolon]
  · by_cases hne : cred.data = []
    · have he : cred = "" := by
        cases cred
        simp_all
      subst he
      decide
    · rw [searchCredential_of_basic _ hc hne, credentialSplit_no_colon _ hnone]

theorem basic_auth_credential_roundtrip_witness :
    isBytes "user" ∧ isBytes "pa:ss" ∧ ':' ∉ "user".data ∧
      basicAuthNextSearchCredential ("Basic " ++ EncodeToString ("user" ++ ":" ++ "pa:ss")) =
        .ok ("user", "pa:ss") ∧
      basicAuthNextSearchCredential ("Basic " ++ EncodeToString "user") =
        .error (.New "token error") :=
  ⟨by decide, by decide, by decide,
    basic_auth_credential_roundtrip "user" "pa:ss" "user" (by decide) (by decide) (by decide)
      (by decide) (by decide)⟩

end Igin
